import Mathlib

/-!
# gcodemillopt: the set builder and the greedy reorder engine

A shallow embedding of `src/gcodemillopt/gcodemillopt.cpp`.

Modelling conventions.

* `std::string` is `List Char`; `std::deque<GCodeSet>` is `List GCodeSet`.
* `double` is `ℚ`: exact arithmetic, no rounding, no NaN and no infinities.
* The call `abs(dXDelta)` at line 218 is unqualified and its argument is a `double`. The
  file includes neither `<cmath>` nor `<math.h>`, so with g++ and libstdc++ the only `abs`
  in the global namespace is `int abs(int)` of the C library: the argument is converted
  to `int` (`toInt`), the two results are added as `int`, and the sum is converted back
  to `double`. Where C++ leaves the result undefined (a value outside the range of
  `int`), the definitions give the value the x86-64 build computes.
* `atof` and `std::sort` are library functions: the definitions take them as parameters
  (`atof`, `sort`). `IsStdSort` states what the C++ standard promises of `std::sort`;
  `atofDecimal` and `insertionSort` are concrete instances used to evaluate the program
  on examples, and `stdSort` is the algorithm of libstdc++ (`bits/stl_algo.h`).
* The output file is the list of the writes made to it, one entry per `fprintf` call.
  The program passes each line to `fprintf` as the format string, so an entry is
  `fprintf line`: `some text` for the text written, `none` when the call has undefined
  behaviour. A `none` entry is also recorded when the selection loop itself has undefined
  behaviour (only possible with a `sort` that is not a sort).
* `unsigned int` counters are natural numbers reduced modulo `2 ^ 32`.
* Diagnostics written to `stderr`, and `strPreviousLine` (assigned, never read), are
  not modelled. The field `calls` is instrumentation: it records the argument of every
  call of `OptimizeAndOutputSets`, in call order.
-/

namespace GCodeMillOpt

/-- A `std::string`. -/
abbrev Line := List Char

/-- The writes made to the output file: `some text`, or `none` for undefined behaviour. -/
abbrev Output := List (Option Line)

/-- Number of values of an `unsigned int`. -/
def UINT_RANGE : Nat := 2 ^ 32

/-- Text written by `fprintf(f, fmt)` called with a format and no further argument:
`%%` writes one `%`, any other character is copied. Any other conversion specification
makes the call read an argument that was not passed: undefined behaviour, `none`. -/
def fprintf : Line → Option Line
  | [] => some []
  | '%' :: '%' :: rest => (fprintf rest).map (fun t => '%' :: t)
  | '%' :: _ => none
  | c :: rest => (fprintf rest).map (fun t => c :: t)

/-- Whether `s` begins with `pat`: the test `s.find(pat) == 0`. -/
def startsWith (pat : Line) (s : Line) : Bool :=
  match pat, s with
  | [], _ => true
  | _ :: _, [] => false
  | p :: ps, c :: cs => p == c && startsWith ps cs

/-- Position of the first occurrence of `pat` in `s`, as `std::string::find`;
`none` is `npos`. -/
def find (s : Line) (pat : Line) : Option Nat :=
  match s with
  | [] => if pat.isEmpty then some 0 else none
  | c :: cs => if startsWith pat (c :: cs) then some 0 else (find cs pat).map (fun i => i + 1)

/-- Character `s[i]` of a `std::string`; `s[s.size()]` is the null character. -/
def charAt (s : Line) (i : Nat) : Char :=
  (s.get? i).getD (Char.ofNat 0)

/-- The C function `isdigit` on the characters `0` to `9`. -/
def isdigit (c : Char) : Bool :=
  decide ('0'.toNat ≤ c.toNat) && decide (c.toNat ≤ '9'.toNat)

/-- Class `GCodeSet`: start and end position and the lines of one set. -/
structure GCodeSet where
  m_dXStart : ℚ
  m_dYStart : ℚ
  m_dZStart : ℚ
  m_dXEnd : ℚ
  m_dYEnd : ℚ
  m_dZEnd : ℚ
  m_vLines : List Line
  deriving DecidableEq

namespace GCodeSet

/-- Method `Reset(dXStart, dYStart, dZStart)`: every field is overwritten. -/
def Reset (dXStart dYStart dZStart : ℚ) : GCodeSet :=
  { m_dXStart := dXStart, m_dYStart := dYStart, m_dZStart := dZStart,
    m_dXEnd := 0, m_dYEnd := 0, m_dZEnd := 0, m_vLines := [] }

/-- Method `SetZStart`. -/
def SetZStart (g : GCodeSet) (dZStart : ℚ) : GCodeSet :=
  { g with m_dZStart := dZStart }

/-- Methods `SetZEnd`, `SetXEnd`, `SetYEnd`, called together at a set boundary. -/
def SetEnd (g : GCodeSet) (dXEnd dYEnd dZEnd : ℚ) : GCodeSet :=
  { g with m_dXEnd := dXEnd, m_dYEnd := dYEnd, m_dZEnd := dZEnd }

/-- The call `LineVector().push_back(strLine)`. -/
def pushLine (g : GCodeSet) (strLine : Line) : GCodeSet :=
  { g with m_vLines := g.m_vLines ++ [strLine] }

end GCodeSet

/-- Comparator `SortLessPair`: compares the distances of two (index, distance) pairs. -/
def SortLessPair (left right : Nat × ℚ) : Bool :=
  decide (left.2 < right.2)

/-- Smallest value of an `int`. -/
def INT_MIN : Int := -2147483648

/-- Largest value of an `int`. -/
def INT_MAX : Int := 2147483647

/-- Conversion of a `double` to `int`, as done for the argument of `abs`: the fractional
part is discarded. When the result is not a value of `int` the conversion is undefined in
C++; the x86-64 conversion instruction then gives `INT_MIN`. -/
def toInt (d : ℚ) : Int :=
  if INT_MIN ≤ Int.tdiv d.num d.den ∧ Int.tdiv d.num d.den ≤ INT_MAX then Int.tdiv d.num d.den
  else INT_MIN

/-- Reduction of an integer to a value of `int`: two's complement wrap-around. -/
def wrapInt (i : Int) : Int :=
  (i - INT_MIN) % 4294967296 + INT_MIN

/-- The C library's `int abs(int)`, the function the call `abs(dXDelta)` resolves to.
`abs(INT_MIN)` is `INT_MIN`. -/
def abs (i : Int) : Int :=
  wrapInt (if i < 0 then -i else i)

/-- Distance `abs(dXDelta) + abs(dYDelta)` of the start of `entry` from `(dXLast, dYLast)`,
as line 218 computes it: each delta is converted to `int`, the sum is an `int` sum, and the
pair stores it as a `double`. -/
def startDistance (entry : GCodeSet) (dXLast dYLast : ℚ) : ℚ :=
  let dXDelta := entry.m_dXStart - dXLast
  let dYDelta := entry.m_dYStart - dYLast
  ((wrapInt (abs (toInt dXDelta) + abs (toInt dYDelta)) : Int) : ℚ)

/-- Manhattan distance `|xStart - x| + |yStart - y|` of the start of `entry` from `(x, y)`,
in the words of the specification. -/
def manhattan (entry : GCodeSet) (x y : ℚ) : ℚ :=
  |entry.m_dXStart - x| + |entry.m_dYStart - y|

/-- The deltas of every set of `vSets` from `(x, y)` are whole numbers whose absolute values
add up to a value of `int`: the conversions at line 218 lose nothing. -/
def WholeDeltas (vSets : List GCodeSet) (x y : ℚ) : Prop :=
  ∀ s ∈ vSets, (s.m_dXStart - x).den = 1 ∧ (s.m_dYStart - y).den = 1 ∧
    |(s.m_dXStart - x).num| + |(s.m_dYStart - y).num| ≤ INT_MAX

/-- The `for` loop filling `vDistance`: one (index, distance) pair per set, `index` counting
up from its current value. -/
def vDistanceFrom (index : Nat) (dXLast dYLast : ℚ) : List GCodeSet → List (Nat × ℚ)
  | [] => []
  | entry :: rest =>
    (index, startDistance entry dXLast dYLast) :: vDistanceFrom (index + 1) dXLast dYLast rest

/-- One iteration of the `while` loop of `OptimizeAndOutputSets`: the set chosen and the
sets that remain. `none` is undefined behaviour (`front()` of an empty deque, or an index
outside `vSets`). -/
def selectNearest (sort : List (Nat × ℚ) → List (Nat × ℚ)) (vSets : List GCodeSet)
    (dXLast dYLast : ℚ) : Option (GCodeSet × List GCodeSet) :=
  match sort (vDistanceFrom 0 dXLast dYLast vSets) with
  | [] => none
  | front :: _ =>
    match vSets.get? front.1 with
    | none => none
    | some entry => some (entry, vSets.eraseIdx front.1)

/-- The `while (vSets.empty() == false)` loop, run for at most `fuel` iterations;
the result is `vOptimizedSet`. -/
def selectLoop (sort : List (Nat × ℚ) → List (Nat × ℚ)) :
    Nat → List GCodeSet → ℚ → ℚ → List GCodeSet → Option (List GCodeSet)
  | _, [], _, _, vOptimizedSet => some vOptimizedSet
  | 0, _ :: _, _, _, _ => none
  | fuel + 1, entry :: rest, dXLast, dYLast, vOptimizedSet =>
    match selectNearest sort (entry :: rest) dXLast dYLast with
    | none => none
    | some (chosen, remaining) =>
      selectLoop sort fuel remaining chosen.m_dXEnd chosen.m_dYEnd (vOptimizedSet ++ [chosen])

/-- The order in which `OptimizeAndOutputSets` emits `vSets`: the selection loop started
at `dXLast = 0`, `dYLast = 0` with an empty `vOptimizedSet`. Each iteration removes one
set, so `vSets.length` iterations are enough. -/
def schedule (sort : List (Nat × ℚ) → List (Nat × ℚ)) (vSets : List GCodeSet) :
    Option (List GCodeSet) :=
  selectLoop sort vSets.length vSets 0 0 []

/-- The inner output loop: each line is counted and passed to `fprintf` as the format. -/
def outputLines : List Line → Nat × Output → Nat × Output
  | [], st => st
  | line :: rest, st => outputLines rest ((st.1 + 1) % UINT_RANGE, st.2 ++ [fprintf line])

/-- The outer output loop over `vOptimizedSet`. -/
def outputSets : List GCodeSet → Nat × Output → Nat × Output
  | [], st => st
  | entry :: rest, st => outputSets rest (outputLines entry.m_vLines st)

/-- Function `OptimizeAndOutputSets`: the new value of `uiLinesOut` and the output file
after the call. -/
def OptimizeAndOutputSets (sort : List (Nat × ℚ) → List (Nat × ℚ)) (vSets : List GCodeSet)
    (uiLinesOut : Nat) (output : Output) : Nat × Output :=
  match schedule sort vSets with
  | none => (uiLinesOut, output ++ [none])
  | some vOptimizedSet => outputSets vOptimizedSet (uiLinesOut, output)

/-- What the C++ standard promises of `std::sort` with comparator `SortLessPair`: the
result is a rearrangement of the input in which no element is less than an earlier one.
The order of elements of equal distance is left open. -/
def IsStdSort (sort : List (Nat × ℚ) → List (Nat × ℚ)) : Prop :=
  ∀ l, (sort l).Perm l ∧ (sort l).Pairwise (fun a b => SortLessPair b a = false)

/-- Insertion of one pair into a sorted list, before the first pair that is not less. -/
def insertPair (p : Nat × ℚ) : List (Nat × ℚ) → List (Nat × ℚ)
  | [] => [p]
  | q :: rest => if SortLessPair q p then q :: insertPair p rest else p :: q :: rest

/-- Insertion sort, a `std::sort` (the one library implementations use on short ranges). -/
def insertionSort : List (Nat × ℚ) → List (Nat × ℚ)
  | [] => []
  | p :: rest => insertPair p (insertionSort rest)

/-- The local variables of `main` that the read loop updates, the output file, and whether
`main` has executed `return 0` inside the loop. -/
structure MainState where
  uiLine : Nat
  vCurrentSets : List GCodeSet
  bInPrologue : Bool
  bInEpilogue : Bool
  gcCurrent : GCodeSet
  dCurrentZ : ℚ
  dCurrentX : ℚ
  dCurrentY : ℚ
  dLastZ : ℚ
  dLastX : ℚ
  dLastY : ℚ
  uiSets : Nat
  bCutterEngaged : Bool
  uiLinesOut : Nat
  output : Output
  calls : List (List GCodeSet)
  returned : Bool
  deriving DecidableEq

/-- The text of the attribution written before the read loop (a format with one `%hs`
argument, the program name). -/
def attribution (strAppName : Line) : Line :=
  "(Optimized by ".toList ++ strAppName ++ ")\n(Written by Andrew L. Sandoval)\n".toList

/-- State of `main` when the read loop is entered. -/
def initialState (strAppName : Line) : MainState :=
  { uiLine := 0, vCurrentSets := [], bInPrologue := true, bInEpilogue := false,
    gcCurrent := GCodeSet.Reset 0 0 0,
    dCurrentZ := 0, dCurrentX := 0, dCurrentY := 0, dLastZ := 0, dLastX := 0, dLastY := 0,
    uiSets := 0, bCutterEngaged := false, uiLinesOut := 0,
    output := [some (attribution strAppName)], calls := [], returned := false }

/-- The test of line 363: the line is a `G0` line. -/
def isRapidMove (strLine : Line) : Bool :=
  decide (strLine.length > 1) && charAt strLine 0 == 'G' && charAt strLine 1 == '0'

/-- The test of line 367: the line is a `G1` line, `G1` not followed by a digit. -/
def isEngagedMove (strLine : Line) : Bool :=
  decide (strLine.length > 2) && charAt strLine 0 == 'G' && charAt strLine 1 == '1' &&
    !isdigit (charAt strLine 2)

/-- The line without its line ending: `strLineCodes`. -/
def lineCodes (strLine : Line) : Line :=
  strLine.takeWhile (fun c => !(c == '\r' || c == '\n'))

/-- The test of line 391: the line begins with `M5` or with `M30`. -/
def isEpilogueStart (strLine : Line) : Bool :=
  startsWith "M5".toList strLine || startsWith "M30".toList strLine

/-- The text that replaces a line with a Z field in laser mode. -/
def laserRewrite (bCutterEngaged : Bool) (strLineCodes : Line) : Line :=
  if bCutterEngaged = false then "M5 (laser off - was ".toList ++ strLineCodes ++ ")\n".toList
  else "M3 (laser on - was ".toList ++ strLineCodes ++ ")\n".toList

/-- A call `OptimizeAndOutputSets(vCurrentSets, uiLinesOut, spfOutput.get())` followed by
`vCurrentSets.clear()`. -/
def flush (sort : List (Nat × ℚ) → List (Nat × ℚ)) (s : MainState) : MainState :=
  let r := OptimizeAndOutputSets sort s.vCurrentSets s.uiLinesOut s.output
  { s with uiLinesOut := r.1, output := r.2, calls := s.calls ++ [s.vCurrentSets],
           vCurrentSets := [] }

/-- Lines 391 to 406: a line beginning with `M5` or `M30` closes the open set, flushes the
batch and starts the epilogue. -/
def epilogueStart (sort : List (Nat × ℚ) → List (Nat × ℚ)) (s : MainState) (strLine : Line) :
    MainState :=
  if isEpilogueStart strLine then
    let s1 := flush sort { s with vCurrentSets := s.vCurrentSets ++ [s.gcCurrent] }
    { s1 with gcCurrent := GCodeSet.Reset 0 0 0, bInEpilogue := true, bInPrologue := false }
  else s

/-- Lines 419 to 458: a `G` line with a Z field. Returns the state and the new `strLine`. -/
def zBlock (atof : Line → ℚ) (sort : List (Nat × ℚ) → List (Nat × ℚ)) (bLaserMode : Bool)
    (s : MainState) (strLine strLineCodes : Line) (szZ : Option Nat) : MainState × Line :=
  match szZ with
  | none => (s, strLine)
  | some z =>
    if charAt strLine 0 == 'G' then
      let s1 :=
        if s.bCutterEngaged then
          let dNew := atof (strLine.drop (z + 2))
          let s2 := { s with dLastZ := s.dCurrentZ, dCurrentZ := dNew,
                             gcCurrent := s.gcCurrent.SetZStart dNew }
          if s2.dLastZ ≠ s2.dCurrentZ then flush sort s2 else s2
        else s
      if bLaserMode then
        let strNew := laserRewrite s1.bCutterEngaged strLineCodes
        if s1.bInPrologue then ({ s1 with output := s1.output ++ [fprintf strNew] }, strNew)
        else (s1, strNew)
      else (s1, strLine)
    else (s, strLine)

/-- Lines 462 to 468: a `G` line with an X field moves the tracked X position. -/
def xBlock (atof : Line → ℚ) (s : MainState) (strLine : Line) (szX : Option Nat) : MainState :=
  match szX with
  | none => s
  | some x =>
    if charAt strLine 0 == 'G' then
      { s with dLastX := s.dCurrentX, dCurrentX := atof (strLine.drop (x + 2)) }
    else s

/-- Lines 472 to 478: a `G` line with a Y field moves the tracked Y position. -/
def yBlock (atof : Line → ℚ) (s : MainState) (strLine : Line) (szY : Option Nat) : MainState :=
  match szY with
  | none => s
  | some y =>
    if charAt strLine 0 == 'G' then
      { s with dLastY := s.dCurrentY, dCurrentY := atof (strLine.drop (y + 2)) }
    else s

/-- Lines 482 to 523: a line beginning with `G0 X` closes the open set and opens a new one,
or makes `main` return when the X or Y field is missing; then the line is appended to the
open set unless the prologue is still on. -/
def setBlock (s : MainState) (strLine : Line) (szX szY : Option Nat) : MainState :=
  if startsWith "G0 X".toList strLine then
    let s1 := { s with bInPrologue := false, bInEpilogue := false }
    if szX.isNone || szY.isNone then { s1 with returned := true }
    else
      let closed := s1.gcCurrent.SetEnd s1.dLastX s1.dLastY s1.dLastZ
      let sets := if closed.m_vLines.isEmpty = false then s1.vCurrentSets ++ [closed]
                  else s1.vCurrentSets
      { s1 with vCurrentSets := sets,
                gcCurrent := (GCodeSet.Reset s1.dCurrentX s1.dCurrentY s1.dCurrentZ).pushLine strLine,
                uiSets := (s1.uiSets + 1) % UINT_RANGE }
  else if s.bInPrologue then s
  else { s with gcCurrent := s.gcCurrent.pushLine strLine }

/-- Lines 386 to 523: the part of the loop body after the prologue test. -/
def pastPrologue (atof : Line → ℚ) (sort : List (Nat × ℚ) → List (Nat × ℚ)) (bLaserMode : Bool)
    (s : MainState) (strLine : Line) : MainState :=
  let s1 := epilogueStart sort s strLine
  if s1.bInEpilogue then
    { s1 with output := s1.output ++ [fprintf strLine],
              uiLinesOut := (s1.uiLinesOut + 1) % UINT_RANGE }
  else
    let r := zBlock atof sort bLaserMode s1 strLine (lineCodes strLine) (find strLine " Z".toList)
    let s3 := xBlock atof r.1 r.2 (find strLine " X".toList)
    let s4 := yBlock atof s3 r.2 (find strLine " Y".toList)
    setBlock s4 r.2 (find strLine " X".toList) (find strLine " Y".toList)

/-- One iteration of the read loop on the line `strLine` returned by `fgets`. -/
def processLine (atof : Line → ℚ) (sort : List (Nat × ℚ) → List (Nat × ℚ)) (bLaserMode : Bool)
    (s : MainState) (strLine : Line) : MainState :=
  let s0 := { s with uiLine := (s.uiLine + 1) % UINT_RANGE }
  if isRapidMove strLine then
    pastPrologue atof sort bLaserMode { s0 with bCutterEngaged := false } strLine
  else if isEngagedMove strLine then
    pastPrologue atof sort bLaserMode { s0 with bCutterEngaged := true } strLine
  else if s0.bInPrologue then
    let written :=
      if lineCodes strLine == "M3".toList && bLaserMode then
        fprintf "(M3 - removed in laser mode)\n".toList
      else fprintf strLine
    { s0 with output := s0.output ++ [written],
              uiLinesOut := (s0.uiLinesOut + 1) % UINT_RANGE }
  else pastPrologue atof sort bLaserMode s0 strLine

/-- The read loop over the lines of the input file, stopped by `return 0`. -/
def readLoop (atof : Line → ℚ) (sort : List (Nat × ℚ) → List (Nat × ℚ)) (bLaserMode : Bool) :
    MainState → List Line → MainState
  | s, [] => s
  | s, strLine :: rest =>
    if s.returned then s
    else readLoop atof sort bLaserMode (processLine atof sort bLaserMode s strLine) rest

/-- Function `main` from the attribution on: the final state for the input `lines`. -/
def run (atof : Line → ℚ) (sort : List (Nat × ℚ) → List (Nat × ℚ)) (bLaserMode : Bool)
    (strAppName : Line) (lines : List Line) : MainState :=
  readLoop atof sort bLaserMode (initialState strAppName) lines

/-- The C function `isspace` in the C locale. -/
def isspace (c : Char) : Bool :=
  c == ' ' || c == '\t' || c == '\n' || c == '\r' || c.toNat == 11 || c.toNat == 12

/-- Reads a run of decimal digits: the number read so far, the count of digits read, and
the text that follows the digits. -/
def readDigits : Line → Nat → Nat → Nat × Nat × Line
  | [], acc, n => (acc, n, [])
  | c :: cs, acc, n =>
    if isdigit c then readDigits cs (acc * 10 + (c.toNat - '0'.toNat)) (n + 1)
    else (acc, n, c :: cs)

/-- The exponent part of a decimal floating constant: `e` or `E`, an optional sign and
at least one digit; `0` when there is no such part. -/
def readExponent : Line → Int
  | [] => 0
  | c :: cs =>
    if c == 'e' || c == 'E' then
      match cs with
      | '-' :: ds => let r := readDigits ds 0 0; if r.2.1 = 0 then 0 else - (r.1 : Int)
      | '+' :: ds => let r := readDigits ds 0 0; if r.2.1 = 0 then 0 else (r.1 : Int)
      | ds => let r := readDigits ds 0 0; if r.2.1 = 0 then 0 else (r.1 : Int)
    else 0

/-- The digits, fraction and exponent of a decimal floating constant, after the sign. -/
def atofUnsigned (s : Line) : ℚ :=
  let whole := readDigits s 0 0
  let frac : Nat × Nat × Line :=
    match whole.2.2 with
    | '.' :: fs => readDigits fs whole.1 0
    | other => (whole.1, 0, other)
  if whole.2.1 + frac.2.1 = 0 then 0
  else
    let e : Int := readExponent frac.2.2 - (frac.2.1 : Int)
    if 0 ≤ e then ((frac.1 * 10 ^ e.toNat : Nat) : ℚ) else mkRat (frac.1 : Int) (10 ^ (-e).toNat)

/-- An `atof` for decimal text: leading white space, an optional sign, digits with an
optional fraction and exponent; `0` when no number can be read. The value is exact.
Hexadecimal constants, infinities and NaN are outside this instance. -/
def atofDecimal (s : Line) : ℚ :=
  match s.dropWhile isspace with
  | '-' :: rest => - atofUnsigned rest
  | '+' :: rest => atofUnsigned rest
  | rest => atofUnsigned rest

/-! ## The `std::sort` of libstdc++

The algorithm of `bits/stl_algo.h` and `bits/stl_heap.h` (GCC 12), on the deque `vDistance`
with the comparator `SortLessPair`. An iterator is the position it points to. The loops of
the library that carry no bound check (`__unguarded_...`) are run for at most as many steps
as the deque is long, which is enough whenever the library stays inside the deque. -/

/-- The element at position `i` of the deque; `(0, 0)` for a position outside it, where the
library would read outside the deque. -/
def elemAt (a : List (Nat × ℚ)) (i : Nat) : Nat × ℚ :=
  a.getD i (0, 0)

/-- The library's `std::iter_swap(i, j)`. -/
def iterSwap (a : List (Nat × ℚ)) (i j : Nat) : List (Nat × ℚ) :=
  (a.set i (elemAt a j)).set j (elemAt a i)

/-- The library's `std::__lg(n)`: the position of the highest bit of `n`. -/
def lg : Nat → Nat → Nat
  | 0, _ => 0
  | fuel + 1, n => if 2 ≤ n then lg fuel (n / 2) + 1 else 0

/-- The library's `__move_median_to_first(result, a, b, c, comp)`. -/
def moveMedianToFirst (v : List (Nat × ℚ)) (result a b c : Nat) : List (Nat × ℚ) :=
  if SortLessPair (elemAt v a) (elemAt v b) then
    if SortLessPair (elemAt v b) (elemAt v c) then iterSwap v result b
    else if SortLessPair (elemAt v a) (elemAt v c) then iterSwap v result c
    else iterSwap v result a
  else if SortLessPair (elemAt v a) (elemAt v c) then iterSwap v result a
  else if SortLessPair (elemAt v b) (elemAt v c) then iterSwap v result c
  else iterSwap v result b

/-- The loop `while (__comp(__first, __pivot)) ++__first;`. -/
def skipLess (v : List (Nat × ℚ)) (pivot : Nat) : Nat → Nat → Nat
  | 0, first => first
  | fuel + 1, first =>
    if SortLessPair (elemAt v first) (elemAt v pivot) then skipLess v pivot fuel (first + 1)
    else first

/-- The loop `while (__comp(__pivot, __last)) --__last;`. -/
def skipGreater (v : List (Nat × ℚ)) (pivot : Nat) : Nat → Nat → Nat
  | 0, last => last
  | fuel + 1, last =>
    if SortLessPair (elemAt v pivot) (elemAt v last) then skipGreater v pivot fuel (last - 1)
    else last

/-- The library's `__unguarded_partition(first, last, pivot, comp)`: the deque after the
swaps, and the cut returned. -/
def unguardedPartition (pivot : Nat) : Nat → List (Nat × ℚ) → Nat → Nat → List (Nat × ℚ) × Nat
  | 0, v, first, _ => (v, first)
  | fuel + 1, v, first, last =>
    let first1 := skipLess v pivot v.length first
    let last1 := skipGreater v pivot v.length (last - 1)
    if first1 < last1 then unguardedPartition pivot fuel (iterSwap v first1 last1) (first1 + 1) last1
    else (v, first1)

/-- The library's `__unguarded_partition_pivot(first, last, comp)`. -/
def unguardedPartitionPivot (v : List (Nat × ℚ)) (first last : Nat) : List (Nat × ℚ) × Nat :=
  let mid := first + (last - first) / 2
  let v1 := moveMedianToFirst v first (first + 1) mid (last - 1)
  unguardedPartition first v1.length v1 (first + 1) last

/-- The library's `__push_heap(first, holeIndex, topIndex, value, comp)`. -/
def pushHeap (first topIndex : Nat) (value : Nat × ℚ) : Nat → List (Nat × ℚ) → Nat → List (Nat × ℚ)
  | 0, v, holeIndex => v.set (first + holeIndex) value
  | fuel + 1, v, holeIndex =>
    let parent := (holeIndex - 1) / 2
    if topIndex < holeIndex ∧ SortLessPair (elemAt v (first + parent)) value = true then
      pushHeap first topIndex value fuel (v.set (first + holeIndex) (elemAt v (first + parent)))
        parent
    else v.set (first + holeIndex) value

/-- The first loop of `__adjust_heap`: the deque, `__holeIndex` and `__secondChild` when the
loop ends. -/
def siftDown (first len : Nat) : Nat → List (Nat × ℚ) → Nat → Nat → List (Nat × ℚ) × Nat × Nat
  | 0, v, holeIndex, secondChild => (v, holeIndex, secondChild)
  | fuel + 1, v, holeIndex, secondChild =>
    if secondChild < (len - 1) / 2 then
      let child := 2 * (secondChild + 1)
      let child1 :=
        if SortLessPair (elemAt v (first + child)) (elemAt v (first + (child - 1))) then child - 1
        else child
      siftDown first len fuel (v.set (first + holeIndex) (elemAt v (first + child1))) child1 child1
    else (v, holeIndex, secondChild)

/-- The library's `__adjust_heap(first, holeIndex, len, value, comp)`. -/
def adjustHeap (v : List (Nat × ℚ)) (first holeIndex len : Nat) (value : Nat × ℚ) :
    List (Nat × ℚ) :=
  let topIndex := holeIndex
  match siftDown first len len v holeIndex holeIndex with
  | (v1, holeIndex1, secondChild1) =>
    if len % 2 = 0 ∧ secondChild1 = (len - 2) / 2 then
      let child := 2 * (secondChild1 + 1)
      pushHeap first topIndex value len (v1.set (first + holeIndex1) (elemAt v1 (first + (child - 1))))
        (child - 1)
    else pushHeap first topIndex value len v1 holeIndex1

/-- The library's `__pop_heap(first, last, result, comp)`. -/
def popHeap (v : List (Nat × ℚ)) (first last result : Nat) : List (Nat × ℚ) :=
  adjustHeap (v.set result (elemAt v first)) first 0 (last - first) (elemAt v result)

/-- The loop of `__make_heap`, from `__parent` down to `0`. -/
def makeHeapLoop (first len : Nat) : Nat → List (Nat × ℚ) → List (Nat × ℚ)
  | 0, v => adjustHeap v first 0 len (elemAt v first)
  | parent + 1, v =>
    makeHeapLoop first len parent (adjustHeap v first (parent + 1) len (elemAt v (first + (parent + 1))))

/-- The library's `__make_heap(first, last, comp)`. -/
def makeHeap (v : List (Nat × ℚ)) (first last : Nat) : List (Nat × ℚ) :=
  if last - first < 2 then v else makeHeapLoop first (last - first) ((last - first - 2) / 2) v

/-- The library's `__sort_heap(first, last, comp)`, `fuel` bounding the iterations. -/
def sortHeap (first : Nat) : Nat → List (Nat × ℚ) → Nat → List (Nat × ℚ)
  | 0, v, _ => v
  | fuel + 1, v, last =>
    if 1 < last - first then sortHeap first fuel (popHeap v first (last - 1) (last - 1)) (last - 1)
    else v

/-- The call `std::__partial_sort(first, last, last, comp)` made when the depth limit is
used up: `__heap_select` with an empty tail, which is `__make_heap`, then `__sort_heap`. -/
def heapSortRange (v : List (Nat × ℚ)) (first last : Nat) : List (Nat × ℚ) :=
  sortHeap first (last - first) (makeHeap v first last) last

/-- The library's `_S_threshold`. -/
def S_threshold : Nat := 16

/-- The library's `__introsort_loop(first, last, depth_limit, comp)`. -/
def introsortLoop : Nat → List (Nat × ℚ) → Nat → Nat → List (Nat × ℚ)
  | 0, v, first, last => if S_threshold < last - first then heapSortRange v first last else v
  | depth_limit + 1, v, first, last =>
    if S_threshold < last - first then
      match unguardedPartitionPivot v first last with
      | (v1, cut) => introsortLoop depth_limit (introsortLoop depth_limit v1 cut last) first cut
    else v

/-- The library's `__unguarded_linear_insert(last, comp)`, with `__val` already taken out. -/
def unguardedLinearInsert (val : Nat × ℚ) : Nat → List (Nat × ℚ) → Nat → List (Nat × ℚ)
  | 0, v, last => v.set last val
  | fuel + 1, v, last =>
    if SortLessPair val (elemAt v (last - 1)) then
      unguardedLinearInsert val fuel (v.set last (elemAt v (last - 1))) (last - 1)
    else v.set last val

/-- The body of the loop of `__insertion_sort` for the iterator `i`: an element less than
the first one is moved to the front (`move_backward`), any other is inserted unguarded. -/
def insertionStep (v : List (Nat × ℚ)) (first i : Nat) : List (Nat × ℚ) :=
  if SortLessPair (elemAt v i) (elemAt v first) then
    v.take first ++ elemAt v i :: ((v.drop first).take (i - first) ++ v.drop (i + 1))
  else unguardedLinearInsert (elemAt v i) v.length v i

/-- The loop of `__insertion_sort`: `count` iterations from the iterator `i` on. -/
def insertionLoop (first : Nat) : Nat → List (Nat × ℚ) → Nat → List (Nat × ℚ)
  | 0, v, _ => v
  | count + 1, v, i => insertionLoop first count (insertionStep v first i) (i + 1)

/-- The library's `__insertion_sort(first, last, comp)`. -/
def stdInsertionSort (v : List (Nat × ℚ)) (first last : Nat) : List (Nat × ℚ) :=
  if first = last then v else insertionLoop first (last - (first + 1)) v (first + 1)

/-- The library's `__unguarded_insertion_sort(first, last, comp)`: `count` iterations from
the iterator `i` on. -/
def unguardedInsertionSort : Nat → List (Nat × ℚ) → Nat → List (Nat × ℚ)
  | 0, v, _ => v
  | count + 1, v, i =>
    unguardedInsertionSort count (unguardedLinearInsert (elemAt v i) v.length v i) (i + 1)

/-- The library's `__final_insertion_sort(first, last, comp)`. -/
def finalInsertionSort (v : List (Nat × ℚ)) (first last : Nat) : List (Nat × ℚ) :=
  if S_threshold < last - first then
    unguardedInsertionSort (last - (first + S_threshold))
      (stdInsertionSort v first (first + S_threshold)) (first + S_threshold)
  else stdInsertionSort v first last

/-- The call `std::sort(vDistance.begin(), vDistance.end(), SortLessPair)` with libstdc++. -/
def stdSort (v : List (Nat × ℚ)) : List (Nat × ℚ) :=
  if v.length = 0 then v
  else finalInsertionSort (introsortLoop (lg v.length v.length * 2) v 0 v.length) 0 v.length

/-- A batch of one set whose one line holds `%%`. -/
def percentBatch : List GCodeSet :=
  [{ GCodeSet.Reset 0 0 0 with m_vLines := ["G1 X1 (50%%)\n".toList] }]

/-- The set of Scenario A and B that starts at `(0, 0)`. -/
def setAtOrigin : GCodeSet :=
  { m_dXStart := 0, m_dYStart := 0, m_dZStart := -1/10, m_dXEnd := 1, m_dYEnd := 0, m_dZEnd := 0,
    m_vLines := ["G0 X0 Y0\n".toList, "G1 Z-0.1\n".toList, "G1 X1 Y0\n".toList] }

/-- The set of Scenario A and B that starts at `(5, 5)`. -/
def setAtFive : GCodeSet :=
  { m_dXStart := 5, m_dYStart := 5, m_dZStart := -1/10, m_dXEnd := 0, m_dYEnd := 0, m_dZEnd := 0,
    m_vLines := ["G0 X5 Y5\n".toList, "G1 Z-0.1\n".toList, "G1 X6 Y5\n".toList] }

/-- An input with two depths: one set at depth `-1` that ends at `(5, 5)`, then at depth
`-2` a set starting at `(0, 0)` followed by a set starting at `(5, 5)`. -/
def twoDepthInput : List Line :=
  ["G0 X5 Y5\n".toList, "G1 Z-1\n".toList,
   "G0 X0 Y0\n".toList, "G1 Z-2\n".toList, "G1 X1 Y0\n".toList,
   "G0 X5 Y5\n".toList, "G1 Z-2\n".toList, "G1 X6 Y5\n".toList,
   "M5\n".toList]

/-- The value of `bCutterEngaged` after the tests of lines 363 to 371. -/
def engagedAfter (bCutterEngaged : Bool) (strLine : Line) : Bool :=
  if isRapidMove strLine then false
  else if isEngagedMove strLine then true
  else bCutterEngaged

/-- The state after `++uiLine` and the tests of lines 363 to 371, when the line is not
written as a prologue line. -/
def classified (s : MainState) (strLine : Line) : MainState :=
  { s with uiLine := (s.uiLine + 1) % UINT_RANGE,
           bCutterEngaged := engagedAfter s.bCutterEngaged strLine }

/-- What lines 374 to 381 write for a prologue line. -/
def prologueText (bLaserMode : Bool) (strLine : Line) : Option Line :=
  if lineCodes strLine == "M3".toList && bLaserMode then
    fprintf "(M3 - removed in laser mode)\n".toList
  else fprintf strLine

/-- The program phase. -/
inductive Phase where
  | Prologue
  | Body
  | Epilogue
  deriving DecidableEq

/-- Position of a phase in the order Prologue, Body, Epilogue. -/
def Phase.rank : Phase → Nat
  | Phase.Prologue => 0
  | Phase.Body => 1
  | Phase.Epilogue => 2

/-- The phase given by the two flags of `main`: Prologue while `bInPrologue` is set,
Epilogue while `bInEpilogue` is set, Body when neither is. -/
def phase (s : MainState) : Phase :=
  if s.bInPrologue then Phase.Prologue
  else if s.bInEpilogue then Phase.Epilogue
  else Phase.Body

/-- All sets of a batch have one recorded depth (start z). -/
def SameDepth (batch : List GCodeSet) : Prop :=
  ∀ a ∈ batch, ∀ b ∈ batch, a.m_dZStart = b.m_dZStart

/-- The invariant behind the depth flush: every batch passed so far has one depth; in
the epilogue no set is pending; before the epilogue the open set and every pending set
have the tracked depth `dCurrentZ`. -/
def DepthInv (s : MainState) : Prop :=
  (∀ batch ∈ s.calls, SameDepth batch) ∧
  (s.bInEpilogue = true → s.vCurrentSets = []) ∧
  (s.bInEpilogue = false →
    s.gcCurrent.m_dZStart = s.dCurrentZ ∧ ∀ e ∈ s.vCurrentSets, e.m_dZStart = s.dCurrentZ)

/-- The input of Scenario A. -/
def scenarioA : List Line :=
  ["G0 X0 Y0\n".toList, "G1 Z-0.1\n".toList, "G1 X1 Y0\n".toList,
   "G0 X5 Y5\n".toList, "G1 Z-0.1\n".toList, "G1 X6 Y5\n".toList, "M5\n".toList]

/-- The state of a run after the one input line `G0 X0 Y0`: in the body, with one open set. -/
def bodyState (bLaserMode : Bool) : MainState :=
  run atofDecimal insertionSort bLaserMode "gcodemillopt".toList ["G0 X0 Y0\n".toList]

/-- While the prologue flag is set the epilogue flag is clear, no set is pending, the
open set has no line and `main` has not returned. -/
def PrologueInv (s : MainState) : Prop :=
  s.bInPrologue = true →
    s.bInEpilogue = false ∧ s.vCurrentSets = [] ∧ s.gcCurrent.m_vLines = [] ∧ s.returned = false

/-- In the epilogue the prologue flag is clear, no set is pending, the open set has no
line and `main` has not returned. -/
def EpilogueInv (s : MainState) : Prop :=
  s.bInEpilogue = true →
    s.bInPrologue = false ∧ s.vCurrentSets = [] ∧ s.gcCurrent.m_vLines = [] ∧ s.returned = false

/-- An input whose last line, written in the epilogue, holds `%%`. -/
def percentEpilogueInput : List Line :=
  ["G0 X0 Y0\n".toList, "M5\n".toList, "(100%% done)\n".toList]

/-- The first six lines of Scenario A: the input up to the line `M5`. -/
def scenarioABody : List Line :=
  ["G0 X0 Y0\n".toList, "G1 Z-0.1\n".toList, "G1 X1 Y0\n".toList,
   "G0 X5 Y5\n".toList, "G1 Z-0.1\n".toList, "G1 X6 Y5\n".toList]

/-- An input without `G0` or `G1` lines: a comment that holds `%%`, and the tape mark `%`. -/
def percentPrologueInput : List Line :=
  ["(feed 50%%)\n".toList, "%\n".toList]

/-- The sort keeps sets of equal distance in batch order: in the sorted `vDistance`, of two
pairs of equal distance the one of smaller index comes first. The C++ standard does not
promise this of `std::sort`. -/
def KeepsTieOrder (sort : List (Nat × ℚ) → List (Nat × ℚ)) : Prop :=
  ∀ (x y : ℚ) (vSets : List GCodeSet),
    (sort (vDistanceFrom 0 x y vSets)).Pairwise (fun a b => a.2 = b.2 → a.1 < b.1)

/-- A set that starts at `(1, 0)`. -/
def tieFirst : GCodeSet :=
  { GCodeSet.Reset 1 0 0 with m_vLines := ["G0 X1 Y0\n".toList] }

/-- A set that starts at `(0, 1)`, as far from `(0, 0)` as `tieFirst`. -/
def tieSecond : GCodeSet :=
  { GCodeSet.Reset 0 1 0 with m_vLines := ["G0 X0 Y1\n".toList] }

/-- The start of a set is that of its opening line: the first line of the set begins with
`G0 X` and has a Y field, and the start `(x, y)` of the set is what `atof` reads after the
X field (at position 2) and after the Y field of that line. -/
def StartOK (atof : Line → ℚ) (e : GCodeSet) : Prop :=
  ∃ l rest y, e.m_vLines = l :: rest ∧ startsWith "G0 X".toList l = true ∧
    find l " X".toList = some 2 ∧ find l " Y".toList = some y ∧
    e.m_dXStart = atof (l.drop (2 + 2)) ∧ e.m_dYStart = atof (l.drop (y + 2))

/-- A batch as the builder passes it: sets opened by a `G0 X` line, or the one set left by
`Reset()` that a line beginning with `M5` or `M30` passes in the epilogue. -/
def GoodBatch (atof : Line → ℚ) (batch : List GCodeSet) : Prop :=
  (∀ e ∈ batch, StartOK atof e) ∨ batch = [GCodeSet.Reset 0 0 0]

/-- The part of the invariant on sets that does not depend on the phase: the batches
passed so far, the pending sets, and the open set, whose end position is still zero. -/
def SetsOK (atof : Line → ℚ) (s : MainState) : Prop :=
  (∀ batch ∈ s.calls, GoodBatch atof batch) ∧
  (∀ e ∈ s.vCurrentSets, StartOK atof e) ∧
  (s.gcCurrent.m_vLines ≠ [] → StartOK atof s.gcCurrent) ∧
  (s.gcCurrent.m_dXEnd = 0 ∧ s.gcCurrent.m_dYEnd = 0 ∧ s.gcCurrent.m_dZEnd = 0)

/-- The invariant on sets: `SetsOK`; in the epilogue nothing is pending and the open set
is the one left by `Reset()`; in the body the open set has a line. -/
def SetsInv (atof : Line → ℚ) (s : MainState) : Prop :=
  SetsOK atof s ∧
  (s.bInEpilogue = true → s.vCurrentSets = [] ∧ s.gcCurrent = GCodeSet.Reset 0 0 0) ∧
  (s.bInPrologue = false → s.bInEpilogue = false → s.returned = false →
    s.gcCurrent.m_vLines ≠ [])

/-- No line of the list is an engaged line with a Z field: a line that begins with `G`,
has a Z field, and is processed with the tool engaged. The first argument is the value of
`bCutterEngaged` before the first line. -/
def noEngagedZ : Bool → List Line → Bool
  | _, [] => true
  | b, l :: rest =>
    !(engagedAfter b l && charAt l 0 == 'G' && (find l " Z".toList).isSome) &&
      noEngagedZ (engagedAfter b l) rest

/-- An input whose first line begins with `G0 X` and has a Z field. -/
def rapidWithZInput : List Line :=
  ["G0 X0 Y0 Z5\n".toList, "T1 M6\n".toList]

/-- The lines held by the pending sets and the open set, in order. -/
def pendingLines (s : MainState) : List Line :=
  s.vCurrentSets.flatMap (fun e => e.m_vLines) ++ s.gcCurrent.m_vLines

/-- A mill-mode input whose second line, recorded in a set, holds `%%`. -/
def percentSetInput : List Line :=
  ["G0 X0 Y0\n".toList, "G1 X1 Y0 (50%%)\n".toList, "M5\n".toList]

/-- A set that starts at `(2, 0)`, ends at `(3, 0)` and is cut at depth `-1`. -/
def setAtTwo : GCodeSet :=
  { m_dXStart := 2, m_dYStart := 0, m_dZStart := -1, m_dXEnd := 3, m_dYEnd := 0, m_dZEnd := 0,
    m_vLines := ["G0 X2 Y0\n".toList, "G1 Z-1\n".toList, "G1 X3 Y0\n".toList] }

/-- A set that starts at `(1.9, 0.9)` and is cut at depth `-1`. -/
def setFractional : GCodeSet :=
  { m_dXStart := 19/10, m_dYStart := 9/10, m_dZStart := -1, m_dXEnd := 0, m_dYEnd := 0,
    m_dZEnd := 0,
    m_vLines := ["G0 X1.9 Y0.9\n".toList, "G1 Z-1\n".toList, "G1 X1.9 Y2\n".toList] }

/-- A mill-mode input with two sets at one depth: the first starts at `(2, 0)`, the second
at `(1.9, 0.9)`. -/
def fractionalInput : List Line :=
  ["G0 X2 Y0\n".toList, "G1 Z-1\n".toList, "G1 X3 Y0\n".toList,
   "G0 X1.9 Y0.9\n".toList, "G1 Z-1\n".toList, "G1 X1.9 Y2\n".toList, "M5\n".toList]

/-- A mill-mode input with seventeen sets at one depth, which start at `(0, 16)`, `(1, 15)`,
and so on to `(16, 0)`: all at Manhattan distance `16` from `(0, 0)`. -/
def tieInput : List Line :=
  ["G0 X0 Y16\n".toList, "G1 Z-1\n".toList, "G0 X1 Y15\n".toList, "G1 Z-1\n".toList,
   "G0 X2 Y14\n".toList, "G1 Z-1\n".toList, "G0 X3 Y13\n".toList, "G1 Z-1\n".toList,
   "G0 X4 Y12\n".toList, "G1 Z-1\n".toList, "G0 X5 Y11\n".toList, "G1 Z-1\n".toList,
   "G0 X6 Y10\n".toList, "G1 Z-1\n".toList, "G0 X7 Y9\n".toList, "G1 Z-1\n".toList,
   "G0 X8 Y8\n".toList, "G1 Z-1\n".toList, "G0 X9 Y7\n".toList, "G1 Z-1\n".toList,
   "G0 X10 Y6\n".toList, "G1 Z-1\n".toList, "G0 X11 Y5\n".toList, "G1 Z-1\n".toList,
   "G0 X12 Y4\n".toList, "G1 Z-1\n".toList, "G0 X13 Y3\n".toList, "G1 Z-1\n".toList,
   "G0 X14 Y2\n".toList, "G1 Z-1\n".toList, "G0 X15 Y1\n".toList, "G1 Z-1\n".toList,
   "G0 X16 Y0\n".toList, "G1 Z-1\n".toList, "M5\n".toList]

/-- A laser-mode input whose second line, an engaged move with a Z field, holds `%%`. -/
def percentLaserInput : List Line :=
  ["G0 X0 Y0\n".toList, "G1 Z-0.1 (50%%)\n".toList, "M5\n".toList]

/-- A schedule is greedy from `(x, y)` when the computed distance of each set from the
running position is at most that of every set scheduled after it, the running position
being `(x, y)` at first and then the end of the set before. -/
def GreedyFrom : ℚ → ℚ → List GCodeSet → Prop
  | _, _, [] => True
  | x, y, e :: rest =>
    (∀ s ∈ e :: rest, startDistance e x y ≤ startDistance s x y) ∧
      GreedyFrom e.m_dXEnd e.m_dYEnd rest

/-! # Theorems -/

/-! ## Library facts about the model of `fprintf` and of `std::sort` -/

theorem fprintf_eq_self (l : Line) (h : '%' ∉ l) : fprintf l = some l := by
  induction l with
  | nil => rfl
  | cons c cs ih =>
    have hc : c ≠ '%' := fun e => h (by simp [e])
    have hcs : '%' ∉ cs := fun e => h (List.mem_cons_of_mem _ e)
    have step : fprintf (c :: cs) = (fprintf cs).map (fun t => c :: t) := by
      rw [fprintf.eq_def]
      split
      · simp_all
      · simp_all
      · simp_all
      · rename_i c' rest _ _ heq
        simp only [List.cons.injEq] at heq
        obtain ⟨h1, h2⟩ := heq
        subst h1 h2
        rfl
    rw [step, ih hcs]
    rfl

theorem insertPair_perm (p : Nat × ℚ) (l : List (Nat × ℚ)) : (insertPair p l).Perm (p :: l) := by
  induction l with
  | nil => exact List.Perm.refl _
  | cons q rest ih =>
    unfold insertPair
    split
    · exact ((List.Perm.cons q ih).trans (List.Perm.swap p q rest))
    · exact List.Perm.refl _

theorem insertPair_sorted (p : Nat × ℚ) (l : List (Nat × ℚ))
    (hl : l.Pairwise (fun a b => SortLessPair b a = false)) :
    (insertPair p l).Pairwise (fun a b => SortLessPair b a = false) := by
  induction l with
  | nil => simp [insertPair]
  | cons q rest ih =>
    rw [List.pairwise_cons] at hl
    unfold insertPair
    split
    · rename_i hqp
      rw [List.pairwise_cons]
      refine ⟨?_, ih hl.2⟩
      intro b hb
      rcases (List.mem_cons.mp ((insertPair_perm p rest).subset hb)) with hbp | hbr
      · subst hbp
        simp only [SortLessPair, decide_eq_true_eq, decide_eq_false_iff_not, not_lt] at hqp ⊢
        exact le_of_lt hqp
      · exact hl.1 b hbr
    · rename_i hqp
      rw [List.pairwise_cons]
      refine ⟨?_, List.pairwise_cons.mpr hl⟩
      intro b hb
      simp only [SortLessPair, decide_eq_true_eq, decide_eq_false_iff_not, not_lt] at hqp ⊢
      rcases List.mem_cons.mp hb with hbq | hbr
      · subst hbq; exact hqp
      · have := hl.1 b hbr
        simp only [SortLessPair, decide_eq_false_iff_not, not_lt] at this
        exact le_trans hqp this

theorem insertionSort_isStdSort : IsStdSort insertionSort := by
  intro l
  induction l with
  | nil => simp [insertionSort]
  | cons p rest ih =>
    unfold insertionSort
    exact ⟨(insertPair_perm p _).trans (List.Perm.cons p ih.1), insertPair_sorted p _ ih.2⟩

/-! ## The selection loop -/

theorem mem_vDistanceFrom (x y : ℚ) (l : List GCodeSet) (k : Nat) (p : Nat × ℚ)
    (hp : p ∈ vDistanceFrom k x y l) :
    ∃ i e, l.get? i = some e ∧ p = (k + i, startDistance e x y) := by
  induction l generalizing k with
  | nil => simp [vDistanceFrom] at hp
  | cons a rest ih =>
    simp only [vDistanceFrom, List.mem_cons] at hp
    rcases hp with h | h
    · exact ⟨0, a, rfl, by simpa using h⟩
    · obtain ⟨i, e, hi, he⟩ := ih (k + 1) h
      exact ⟨i + 1, e, by simpa using hi, by rw [he]; congr 1; omega⟩

theorem vDistanceFrom_mem (x y : ℚ) (l : List GCodeSet) (k : Nat) (e : GCodeSet) (he : e ∈ l) :
    ∃ i, (i, startDistance e x y) ∈ vDistanceFrom k x y l := by
  induction l generalizing k with
  | nil => simp at he
  | cons a rest ih =>
    rcases List.mem_cons.mp he with h | h
    · exact ⟨k, by simp [vDistanceFrom, h]⟩
    · obtain ⟨i, hi⟩ := ih (k + 1) h
      exact ⟨i, by simp [vDistanceFrom, hi]⟩

theorem eraseIdx_perm (l : List GCodeSet) (i : Nat) (e : GCodeSet) (h : l.get? i = some e) :
    (e :: l.eraseIdx i).Perm l := by
  induction l generalizing i with
  | nil => simp at h
  | cons a rest ih =>
    cases i with
    | zero =>
      simp only [List.get?_cons_zero, Option.some.injEq] at h
      subst h
      exact List.Perm.refl _
    | succ j =>
      simp only [List.get?_cons_succ] at h
      simp only [List.eraseIdx_cons_succ]
      exact (List.Perm.swap a e _).trans (List.Perm.cons a (ih j h))

/-- One iteration with a conforming `std::sort`: a set is chosen, it is a set of `vSets`
at least as near as every set of `vSets`, and the other sets remain. -/
theorem selectNearest_spec (sort : List (Nat × ℚ) → List (Nat × ℚ)) (hsort : IsStdSort sort)
    (vSets : List GCodeSet) (x y : ℚ) (hne : vSets ≠ []) :
    ∃ chosen remaining, selectNearest sort vSets x y = some (chosen, remaining) ∧
      (chosen :: remaining).Perm vSets ∧
      ∀ s ∈ vSets, startDistance chosen x y ≤ startDistance s x y := by
  obtain ⟨hperm, hsorted⟩ := hsort (vDistanceFrom 0 x y vSets)
  cases hs : sort (vDistanceFrom 0 x y vSets) with
  | nil =>
    rw [hs] at hperm
    have := hperm.symm.eq_nil
    cases vSets with
    | nil => exact absurd rfl hne
    | cons a rest => simp [vDistanceFrom] at this
  | cons front tail =>
    rw [hs] at hperm hsorted
    have hfront : front ∈ vDistanceFrom 0 x y vSets := hperm.subset (List.mem_cons_self _ _)
    obtain ⟨i, e, hi, he⟩ := mem_vDistanceFrom x y vSets 0 front hfront
    have hidx : front.1 = i := by rw [he]; simp
    refine ⟨e, vSets.eraseIdx i, ?_, eraseIdx_perm vSets i e hi, ?_⟩
    · unfold selectNearest
      rw [hs]
      simp only [hidx, hi]
    · intro s hs'
      obtain ⟨j, hj⟩ := vDistanceFrom_mem x y vSets 0 s hs'
      have hj' : (j, startDistance s x y) ∈ front :: tail := hperm.symm.subset hj
      have hfd : front.2 = startDistance e x y := by rw [he]
      rw [← hfd]
      rcases List.mem_cons.mp hj' with h | h
      · rw [← h]
      · have := (List.pairwise_cons.mp hsorted).1 _ h
        simpa [SortLessPair] using this

/-- The selection loop with enough fuel and a conforming `std::sort` returns, and what it
appends to `vOptimizedSet` is a greedy rearrangement of `vSets`. -/
theorem selectLoop_spec (sort : List (Nat × ℚ) → List (Nat × ℚ)) (hsort : IsStdSort sort)
    (fuel : Nat) (vSets : List GCodeSet) (x y : ℚ) (acc : List GCodeSet)
    (hfuel : vSets.length ≤ fuel) :
    ∃ opt, selectLoop sort fuel vSets x y acc = some (acc ++ opt) ∧ opt.Perm vSets ∧
      GreedyFrom x y opt := by
  induction fuel generalizing vSets x y acc with
  | zero =>
    cases vSets with
    | nil => exact ⟨[], by simp [selectLoop], List.Perm.refl _, trivial⟩
    | cons a rest => simp at hfuel
  | succ n ih =>
    cases vSets with
    | nil => exact ⟨[], by simp [selectLoop], List.Perm.refl _, trivial⟩
    | cons a rest =>
      obtain ⟨chosen, remaining, hsel, hperm, hmin⟩ :=
        selectNearest_spec sort hsort (a :: rest) x y (by simp)
      have hlen : remaining.length ≤ n := by
        have := hperm.length_eq
        simp only [List.length_cons] at this hfuel
        omega
      obtain ⟨opt, hloop, hp, hg⟩ :=
        ih remaining chosen.m_dXEnd chosen.m_dYEnd (acc ++ [chosen]) hlen
      refine ⟨chosen :: opt, ?_, (List.Perm.cons chosen hp).trans hperm, ?_, hg⟩
      · simp only [selectLoop, hsel, hloop, List.append_assoc, List.singleton_append]
      · intro s hs
        exact hmin s (hperm.subset ((List.Perm.cons chosen hp).subset hs))

theorem schedule_spec (sort : List (Nat × ℚ) → List (Nat × ℚ)) (hsort : IsStdSort sort)
    (vSets : List GCodeSet) :
    ∃ opt, schedule sort vSets = some opt ∧ opt.Perm vSets ∧ GreedyFrom 0 0 opt := by
  obtain ⟨opt, h, hp, hg⟩ := selectLoop_spec sort hsort vSets.length vSets 0 0 [] (le_refl _)
  exact ⟨opt, by simpa [schedule] using h, hp, hg⟩

/-! ## The output loops -/

theorem outputLines_snd (lines : List Line) (st : Nat × Output) :
    (outputLines lines st).2 = st.2 ++ lines.map fprintf := by
  induction lines generalizing st with
  | nil => simp [outputLines]
  | cons l rest ih => simp [outputLines, ih]

theorem outputSets_snd (sets : List GCodeSet) (st : Nat × Output) :
    (outputSets sets st).2 = st.2 ++ (sets.flatMap (fun e => e.m_vLines)).map fprintf := by
  induction sets generalizing st with
  | nil => simp [outputSets]
  | cons e rest ih => simp [outputSets, ih, outputLines_snd]

/-! ## The distance computed at line 218 -/

theorem wrapInt_of_range (i : Int) (h1 : INT_MIN ≤ i) (h2 : i ≤ INT_MAX) : wrapInt i = i := by
  unfold wrapInt
  unfold INT_MIN at *
  unfold INT_MAX at h2
  rw [Int.emod_eq_of_lt (by omega) (by omega)]
  omega

theorem toInt_intCast (a : Int) (h1 : INT_MIN ≤ a) (h2 : a ≤ INT_MAX) : toInt (a : ℚ) = a := by
  unfold toInt
  simp only [Rat.num_intCast, Rat.den_intCast, Nat.cast_one, Int.tdiv_one]
  simp [h1, h2]

theorem abs_of_range (a : Int) (h1 : INT_MIN < a) (h2 : a ≤ INT_MAX) : abs a = |a| := by
  unfold abs
  unfold INT_MIN at h1
  unfold INT_MAX at h2
  split_ifs with h
  · rw [abs_of_neg h]
    exact wrapInt_of_range _ (by unfold INT_MIN; omega) (by unfold INT_MAX; omega)
  · rw [abs_of_nonneg (by omega)]
    exact wrapInt_of_range _ (by unfold INT_MIN; omega) (by unfold INT_MAX; omega)

/-- For whole deltas whose absolute values add up to a value of `int`, the distance the
code computes is the Manhattan distance. -/
theorem startDistance_eq_manhattan (e : GCodeSet) (x y : ℚ) (a b : Int)
    (ha : e.m_dXStart - x = a) (hb : e.m_dYStart - y = b) (hab : |a| + |b| ≤ INT_MAX) :
    startDistance e x y = manhattan e x y := by
  have ha0 := abs_nonneg a
  have hb0 := abs_nonneg b
  have hA : |a| ≤ INT_MAX := by omega
  have hB : |b| ≤ INT_MAX := by omega
  have ha1 := abs_le.mp hA
  have hb1 := abs_le.mp hB
  have hmin : INT_MIN < -INT_MAX := by decide
  unfold startDistance manhattan
  simp only [ha, hb]
  rw [toInt_intCast a (by unfold INT_MIN INT_MAX at *; omega) ha1.2,
    toInt_intCast b (by unfold INT_MIN INT_MAX at *; omega) hb1.2,
    abs_of_range a (by unfold INT_MIN INT_MAX at *; omega) ha1.2,
    abs_of_range b (by unfold INT_MIN INT_MAX at *; omega) hb1.2,
    wrapInt_of_range _ (by unfold INT_MIN; omega) hab]
  push_cast
  rfl

theorem startDistance_eq_manhattan_of_whole (vSets : List GCodeSet) (x y : ℚ)
    (h : WholeDeltas vSets x y) (s : GCodeSet) (hs : s ∈ vSets) :
    startDistance s x y = manhattan s x y := by
  obtain ⟨hx, hy, hab⟩ := h s hs
  exact startDistance_eq_manhattan s x y _ _ (Rat.coe_int_num_of_den_eq_one hx).symm
    (Rat.coe_int_num_of_den_eq_one hy).symm hab

/-! ## The reorder engine -/

/-- With a conforming `std::sort`, `OptimizeAndOutputSets` appends to the output one
`fprintf` call per line of a greedy rearrangement of the batch, set after set. -/
theorem OptimizeAndOutputSets_output (sort : List (Nat × ℚ) → List (Nat × ℚ))
    (hsort : IsStdSort sort) (vSets : List GCodeSet) (uiLinesOut : Nat) (output : Output) :
    ∃ opt, schedule sort vSets = some opt ∧ opt.Perm vSets ∧ GreedyFrom 0 0 opt ∧
      (OptimizeAndOutputSets sort vSets uiLinesOut output).2 =
        output ++ (opt.flatMap (fun e => e.m_vLines)).map fprintf := by
  obtain ⟨opt, h, hp, hg⟩ := schedule_spec sort hsort vSets
  exact ⟨opt, h, hp, hg, by simp [OptimizeAndOutputSets, h, outputSets_snd]⟩

/-- C1, evaluated at a batch with a line that holds `%%`: the line is passed to `fprintf`
as the format, so what is written is the line with one `%` dropped, and the output is not
the concatenation of the line lists of the batch. -/
theorem percent_line_not_written_verbatim :
    (OptimizeAndOutputSets insertionSort percentBatch 0 []).2 = [some "G1 X1 (50%)\n".toList] ∧
    (OptimizeAndOutputSets insertionSort percentBatch 0 []).2 ≠
      (percentBatch.flatMap (fun e => e.m_vLines)).map some := by
  constructor <;> with_unfolding_all decide

/-- One iteration of the selection loop, with a conforming `std::sort`: a set `chosen` of
`vSets` is moved to the schedule whose computed distance from the running position `(x, y)`
is less than or equal to that of every set of `vSets`, the other sets remain, and the loop
goes on from the end position of `chosen`. -/
theorem selectLoop_step (sort : List (Nat × ℚ) → List (Nat × ℚ)) (hsort : IsStdSort sort)
    (fuel : Nat) (vSets : List GCodeSet) (x y : ℚ) (vOptimizedSet : List GCodeSet)
    (hne : vSets ≠ []) :
    ∃ chosen remaining, selectNearest sort vSets x y = some (chosen, remaining) ∧
      (chosen :: remaining).Perm vSets ∧
      (∀ s ∈ vSets, startDistance chosen x y ≤ startDistance s x y) ∧
      selectLoop sort (fuel + 1) vSets x y vOptimizedSet =
        selectLoop sort fuel remaining chosen.m_dXEnd chosen.m_dYEnd
          (vOptimizedSet ++ [chosen]) := by
  obtain ⟨chosen, remaining, hsel, hperm, hmin⟩ := selectNearest_spec sort hsort vSets x y hne
  refine ⟨chosen, remaining, hsel, hperm, hmin, ?_⟩
  cases vSets with
  | nil => exact absurd rfl hne
  | cons a rest => simp only [selectLoop, hsel]

/-- When the deltas of the remaining sets from the running position are whole numbers, the
iteration is greedy for the Manhattan distance: the set moved to the schedule is at
Manhattan distance from `(x, y)` less than or equal to that of every remaining set. -/
theorem greedy_step_of_whole_deltas (sort : List (Nat × ℚ) → List (Nat × ℚ))
    (hsort : IsStdSort sort) (fuel : Nat) (vSets : List GCodeSet) (x y : ℚ)
    (vOptimizedSet : List GCodeSet) (hne : vSets ≠ []) (hwhole : WholeDeltas vSets x y) :
    ∃ chosen remaining, selectNearest sort vSets x y = some (chosen, remaining) ∧
      (chosen :: remaining).Perm vSets ∧
      (∀ s ∈ vSets, manhattan chosen x y ≤ manhattan s x y) ∧
      selectLoop sort (fuel + 1) vSets x y vOptimizedSet =
        selectLoop sort fuel remaining chosen.m_dXEnd chosen.m_dYEnd
          (vOptimizedSet ++ [chosen]) := by
  obtain ⟨chosen, remaining, hsel, hperm, hmin, hloop⟩ :=
    selectLoop_step sort hsort fuel vSets x y vOptimizedSet hne
  refine ⟨chosen, remaining, hsel, hperm, fun s hs => ?_, hloop⟩
  have hc : chosen ∈ vSets := hperm.subset (List.mem_cons_self _ _)
  rw [← startDistance_eq_manhattan_of_whole vSets x y hwhole chosen hc,
    ← startDistance_eq_manhattan_of_whole vSets x y hwhole s hs]
  exact hmin s hs

/-- Every conforming `std::sort` makes the first iteration on the batch
`[setAtTwo, setFractional]` choose `setFractional`: its computed distance from `(0, 0)` is
`1`, that of `setAtTwo` is `2`. -/
theorem selectNearest_fractional (sort : List (Nat × ℚ) → List (Nat × ℚ))
    (hsort : IsStdSort sort) :
    selectNearest sort [setAtTwo, setFractional] 0 0 = some (setFractional, [setAtTwo]) := by
  obtain ⟨chosen, remaining, hsel, hperm, hmin⟩ :=
    selectNearest_spec sort hsort [setAtTwo, setFractional] 0 0 (by simp)
  have hc : chosen ∈ [setAtTwo, setFractional] := hperm.subset (List.mem_cons_self _ _)
  have hchosen : chosen = setFractional := by
    simp only [List.mem_cons, List.mem_singleton, List.not_mem_nil, or_false] at hc
    rcases hc with hc | hc
    · have h := hmin setFractional (by simp)
      rw [hc] at h
      exact absurd h (by with_unfolding_all decide)
    · exact hc
  subst hchosen
  have hrem : remaining.Perm [setAtTwo] :=
    List.Perm.cons_inv (hperm.trans (List.Perm.swap _ _ _))
  rw [hsel, List.perm_singleton.mp hrem]

/-- C2, evaluated at a batch of two sets with running position `(0, 0)`: `setAtTwo` starts
at `(2, 0)`, at Manhattan distance `2`, and `setFractional` starts at `(1.9, 0.9)`, at
Manhattan distance `2.8`. The call `abs(dXDelta)` converts its argument to `int`, so the
distances computed are `2` and `1`, and the set moved to the schedule is `setFractional`,
which is not at a Manhattan distance less than or equal to that of `setAtTwo`. In the
whole run on `fractionalInput` the batch at `M5` is these two sets, and the lines of the
farther set are written first. -/
theorem truncated_distance_schedules_farther_set :
    manhattan setAtTwo 0 0 = 2 ∧ manhattan setFractional 0 0 = 14 / 5 ∧
    startDistance setAtTwo 0 0 = 2 ∧ startDistance setFractional 0 0 = 1 ∧
    selectNearest stdSort [setAtTwo, setFractional] 0 0 = some (setFractional, [setAtTwo]) ∧
    ¬ (∀ s ∈ [setAtTwo, setFractional], manhattan setFractional 0 0 ≤ manhattan s 0 0) ∧
    (run atofDecimal stdSort false "gcodemillopt".toList fractionalInput).calls =
      [[], [setAtTwo, setFractional]] ∧
    (run atofDecimal stdSort false "gcodemillopt".toList fractionalInput).output =
      [some (attribution "gcodemillopt".toList),
       some "G0 X1.9 Y0.9\n".toList, some "G1 Z-1\n".toList, some "G1 X1.9 Y2\n".toList,
       some "G0 X2 Y0\n".toList, some "G1 Z-1\n".toList, some "G1 X3 Y0\n".toList,
       some "M5\n".toList] := by
  refine ⟨?_, ?_, ?_, ?_, ?_, ?_, ?_, ?_⟩ <;> with_unfolding_all decide

/-- C3 (the claim as stated fails): the engine has no position argument and starts every
call at `(0, 0)`. On the batch of Scenario B the set starting at `(0, 0)` is scheduled
first, though with prior position `(5, 5)` the set starting at `(5, 5)` is strictly nearer;
and in a whole run whose second batch is a set that starts and ends at `(5, 5)` and whose
third batch holds sets starting at `(0, 0)` and at `(5, 5)`, the lines of the set starting
at `(0, 0)` are written before those of the set starting at `(5, 5)`: the output is the
input in its original order. -/
theorem first_set_not_nearest_to_prior_position :
    (∃ first rest, schedule insertionSort [setAtOrigin, setAtFive] = some (first :: rest) ∧
      first.m_dXStart = 0 ∧ first.m_dYStart = 0 ∧
      ¬ (∀ s ∈ [setAtOrigin, setAtFive], manhattan first 5 5 ≤ manhattan s 5 5) ∧
      ¬ (∀ s ∈ [setAtOrigin, setAtFive], startDistance first 5 5 ≤ startDistance s 5 5)) ∧
    (run atofDecimal insertionSort false "gcodemillopt".toList twoDepthInput).calls.map
        (fun batch => batch.map (fun e => (e.m_dXStart, e.m_dYStart, e.m_dXEnd, e.m_dYEnd))) =
      [[], [(5, 5, 5, 5)], [(0, 0, 1, 0), (5, 5, 0, 0)]] ∧
    (run atofDecimal insertionSort false "gcodemillopt".toList twoDepthInput).output =
      some (attribution "gcodemillopt".toList) :: twoDepthInput.map some := by
  refine ⟨⟨setAtOrigin, [setAtFive], ?_, ?_, ?_, ?_, ?_⟩, ?_, ?_⟩ <;> with_unfolding_all decide

/-- C3 (amended): the engine starts at `(0, 0)` whatever the position of the tool. For
every non-empty batch whose start coordinates are whole numbers, the first set emitted is
a set of the batch whose start has minimum Manhattan distance to `(0, 0)`, and its lines
are the first written by the call. -/
theorem first_set_nearest_to_origin (sort : List (Nat × ℚ) → List (Nat × ℚ))
    (hsort : IsStdSort sort) (vSets : List GCodeSet) (uiLinesOut : Nat) (output : Output)
    (hne : vSets ≠ []) (hwhole : WholeDeltas vSets 0 0) :
    ∃ first rest, schedule sort vSets = some (first :: rest) ∧ first ∈ vSets ∧
      (∀ s ∈ vSets, manhattan first 0 0 ≤ manhattan s 0 0) ∧
      (OptimizeAndOutputSets sort vSets uiLinesOut output).2 =
        output ++ first.m_vLines.map fprintf ++
          (rest.flatMap (fun e => e.m_vLines)).map fprintf := by
  obtain ⟨opt, h, hp, hg, hout⟩ := OptimizeAndOutputSets_output sort hsort vSets uiLinesOut output
  cases opt with
  | nil => exact absurd hp.symm.eq_nil hne
  | cons first rest =>
    have hf : first ∈ vSets := hp.subset (List.mem_cons_self _ _)
    refine ⟨first, rest, h, hf, ?_, ?_⟩
    · intro s hs
      rw [← startDistance_eq_manhattan_of_whole vSets 0 0 hwhole first hf,
        ← startDistance_eq_manhattan_of_whole vSets 0 0 hwhole s hs]
      exact hg.1 s (hp.symm.subset hs)
    · rw [hout]; simp

/-- The start coordinates of the sets of Scenario B are whole numbers. -/
theorem wholeDeltas_scenarioB : WholeDeltas [setAtFive, setAtOrigin] 0 0 := by
  unfold WholeDeltas
  with_unfolding_all decide

theorem first_set_nearest_to_origin_witness :
    IsStdSort insertionSort ∧ [setAtFive, setAtOrigin] ≠ [] ∧
    WholeDeltas [setAtFive, setAtOrigin] 0 0 ∧
    ∃ first rest, schedule insertionSort [setAtFive, setAtOrigin] = some (first :: rest) ∧
      first ∈ [setAtFive, setAtOrigin] ∧
      (∀ s ∈ [setAtFive, setAtOrigin], manhattan first 0 0 ≤ manhattan s 0 0) ∧
      (OptimizeAndOutputSets insertionSort [setAtFive, setAtOrigin] 0 []).2 =
        [] ++ first.m_vLines.map fprintf ++ (rest.flatMap (fun e => e.m_vLines)).map fprintf :=
  ⟨insertionSort_isStdSort, by simp, wholeDeltas_scenarioB,
    first_set_nearest_to_origin insertionSort insertionSort_isStdSort [setAtFive, setAtOrigin] 0 []
      (by simp) wholeDeltas_scenarioB⟩

/-! ## What each block of the loop body leaves unchanged -/

section Frame

variable (atof : Line → ℚ) (sort : List (Nat × ℚ) → List (Nat × ℚ)) (bLaserMode : Bool)
  (s : MainState) (strLine strLineCodes : Line) (szX szY szZ : Option Nat)
@[simp] theorem flush_uiLine : (flush sort s).uiLine = s.uiLine := rfl
@[simp] theorem flush_bInPrologue : (flush sort s).bInPrologue = s.bInPrologue := rfl
@[simp] theorem flush_bInEpilogue : (flush sort s).bInEpilogue = s.bInEpilogue := rfl
@[simp] theorem flush_gcCurrent : (flush sort s).gcCurrent = s.gcCurrent := rfl
@[simp] theorem flush_dCurrentZ : (flush sort s).dCurrentZ = s.dCurrentZ := rfl
@[simp] theorem flush_dCurrentX : (flush sort s).dCurrentX = s.dCurrentX := rfl
@[simp] theorem flush_dCurrentY : (flush sort s).dCurrentY = s.dCurrentY := rfl
@[simp] theorem flush_dLastZ : (flush sort s).dLastZ = s.dLastZ := rfl
@[simp] theorem flush_dLastX : (flush sort s).dLastX = s.dLastX := rfl
@[simp] theorem flush_dLastY : (flush sort s).dLastY = s.dLastY := rfl
@[simp] theorem flush_uiSets : (flush sort s).uiSets = s.uiSets := rfl
@[simp] theorem flush_bCutterEngaged : (flush sort s).bCutterEngaged = s.bCutterEngaged := rfl
@[simp] theorem flush_returned : (flush sort s).returned = s.returned := rfl
@[simp] theorem flush_vCurrentSets : (flush sort s).vCurrentSets = [] := rfl
@[simp] theorem flush_calls : (flush sort s).calls = s.calls ++ [s.vCurrentSets] := rfl
@[simp] theorem flush_output :
    (flush sort s).output = (OptimizeAndOutputSets sort s.vCurrentSets s.uiLinesOut s.output).2 := rfl
@[simp] theorem zBlock_uiLine :
    (zBlock atof sort bLaserMode s strLine strLineCodes szZ).1.uiLine = s.uiLine := by
  unfold zBlock
  cases szZ with
  | none => rfl
  | some z => dsimp only; split_ifs <;> rfl
@[simp] theorem zBlock_bInPrologue :
    (zBlock atof sort bLaserMode s strLine strLineCodes szZ).1.bInPrologue = s.bInPrologue := by
  unfold zBlock
  cases szZ with
  | none => rfl
  | some z => dsimp only; split_ifs <;> rfl
@[simp] theorem zBlock_bInEpilogue :
    (zBlock atof sort bLaserMode s strLine strLineCodes szZ).1.bInEpilogue = s.bInEpilogue := by
  unfold zBlock
  cases szZ with
  | none => rfl
  | some z => dsimp only; split_ifs <;> rfl
@[simp] theorem zBlock_dCurrentX :
    (zBlock atof sort bLaserMode s strLine strLineCodes szZ).1.dCurrentX = s.dCurrentX := by
  unfold zBlock
  cases szZ with
  | none => rfl
  | some z => dsimp only; split_ifs <;> rfl
@[simp] theorem zBlock_dCurrentY :
    (zBlock atof sort bLaserMode s strLine strLineCodes szZ).1.dCurrentY = s.dCurrentY := by
  unfold zBlock
  cases szZ with
  | none => rfl
  | some z => dsimp only; split_ifs <;> rfl
@[simp] theorem zBlock_dLastX :
    (zBlock atof sort bLaserMode s strLine strLineCodes szZ).1.dLastX = s.dLastX := by
  unfold zBlock
  cases szZ with
  | none => rfl
  | some z => dsimp only; split_ifs <;> rfl
@[simp] theorem zBlock_dLastY :
    (zBlock atof sort bLaserMode s strLine strLineCodes szZ).1.dLastY = s.dLastY := by
  unfold zBlock
  cases szZ with
  | none => rfl
  | some z => dsimp only; split_ifs <;> rfl
@[simp] theorem zBlock_uiSets :
    (zBlock atof sort bLaserMode s strLine strLineCodes szZ).1.uiSets = s.uiSets := by
  unfold zBlock
  cases szZ with
  | none => rfl
  | some z => dsimp only; split_ifs <;> rfl
@[simp] theorem zBlock_bCutterEngaged :
    (zBlock atof sort bLaserMode s strLine strLineCodes szZ).1.bCutterEngaged = s.bCutterEngaged := by
  unfold zBlock
  cases szZ with
  | none => rfl
  | some z => dsimp only; split_ifs <;> rfl
@[simp] theorem zBlock_returned :
    (zBlock atof sort bLaserMode s strLine strLineCodes szZ).1.returned = s.returned := by
  unfold zBlock
  cases szZ with
  | none => rfl
  | some z => dsimp only; split_ifs <;> rfl
@[simp] theorem zBlock_gcCurrent_m_vLines :
    (zBlock atof sort bLaserMode s strLine strLineCodes szZ).1.gcCurrent.m_vLines = s.gcCurrent.m_vLines := by
  unfold zBlock
  cases szZ with
  | none => rfl
  | some z => dsimp only; split_ifs <;> rfl
@[simp] theorem zBlock_gcCurrent_m_dXStart :
    (zBlock atof sort bLaserMode s strLine strLineCodes szZ).1.gcCurrent.m_dXStart = s.gcCurrent.m_dXStart := by
  unfold zBlock
  cases szZ with
  | none => rfl
  | some z => dsimp only; split_ifs <;> rfl
@[simp] theorem zBlock_gcCurrent_m_dYStart :
    (zBlock atof sort bLaserMode s strLine strLineCodes szZ).1.gcCurrent.m_dYStart = s.gcCurrent.m_dYStart := by
  unfold zBlock
  cases szZ with
  | none => rfl
  | some z => dsimp only; split_ifs <;> rfl
@[simp] theorem zBlock_gcCurrent_m_dXEnd :
    (zBlock atof sort bLaserMode s strLine strLineCodes szZ).1.gcCurrent.m_dXEnd = s.gcCurrent.m_dXEnd := by
  unfold zBlock
  cases szZ with
  | none => rfl
  | some z => dsimp only; split_ifs <;> rfl
@[simp] theorem zBlock_gcCurrent_m_dYEnd :
    (zBlock atof sort bLaserMode s strLine strLineCodes szZ).1.gcCurrent.m_dYEnd = s.gcCurrent.m_dYEnd := by
  unfold zBlock
  cases szZ with
  | none => rfl
  | some z => dsimp only; split_ifs <;> rfl
@[simp] theorem zBlock_gcCurrent_m_dZEnd :
    (zBlock atof sort bLaserMode s strLine strLineCodes szZ).1.gcCurrent.m_dZEnd = s.gcCurrent.m_dZEnd := by
  unfold zBlock
  cases szZ with
  | none => rfl
  | some z => dsimp only; split_ifs <;> rfl
@[simp] theorem xBlock_uiLine : (xBlock atof s strLine szX).uiLine = s.uiLine := by
  unfold xBlock
  cases szX with
  | none => rfl
  | some x => dsimp only; split_ifs <;> rfl
@[simp] theorem xBlock_vCurrentSets : (xBlock atof s strLine szX).vCurrentSets = s.vCurrentSets := by
  unfold xBlock
  cases szX with
  | none => rfl
  | some x => dsimp only; split_ifs <;> rfl
@[simp] theorem xBlock_bInPrologue : (xBlock atof s strLine szX).bInPrologue = s.bInPrologue := by
  unfold xBlock
  cases szX with
  | none => rfl
  | some x => dsimp only; split_ifs <;> rfl
@[simp] theorem xBlock_bInEpilogue : (xBlock atof s strLine szX).bInEpilogue = s.bInEpilogue := by
  unfold xBlock
  cases szX with
  | none => rfl
  | some x => dsimp only; split_ifs <;> rfl
@[simp] theorem xBlock_gcCurrent : (xBlock atof s strLine szX).gcCurrent = s.gcCurrent := by
  unfold xBlock
  cases szX with
  | none => rfl
  | some x => dsimp only; split_ifs <;> rfl
@[simp] theorem xBlock_dCurrentZ : (xBlock atof s strLine szX).dCurrentZ = s.dCurrentZ := by
  unfold xBlock
  cases szX with
  | none => rfl
  | some x => dsimp only; split_ifs <;> rfl
@[simp] theorem xBlock_dCurrentY : (xBlock atof s strLine szX).dCurrentY = s.dCurrentY := by
  unfold xBlock
  cases szX with
  | none => rfl
  | some x => dsimp only; split_ifs <;> rfl
@[simp] theorem xBlock_dLastZ : (xBlock atof s strLine szX).dLastZ = s.dLastZ := by
  unfold xBlock
  cases szX with
  | none => rfl
  | some x => dsimp only; split_ifs <;> rfl
@[simp] theorem xBlock_dLastY : (xBlock atof s strLine szX).dLastY = s.dLastY := by
  unfold xBlock
  cases szX with
  | none => rfl
  | some x => dsimp only; split_ifs <;> rfl
@[simp] theorem xBlock_uiSets : (xBlock atof s strLine szX).uiSets = s.uiSets := by
  unfold xBlock
  cases szX with
  | none => rfl
  | some x => dsimp only; split_ifs <;> rfl
@[simp] theorem xBlock_bCutterEngaged : (xBlock atof s strLine szX).bCutterEngaged = s.bCutterEngaged := by
  unfold xBlock
  cases szX with
  | none => rfl
  | some x => dsimp only; split_ifs <;> rfl
@[simp] theorem xBlock_uiLinesOut : (xBlock atof s strLine szX).uiLinesOut = s.uiLinesOut := by
  unfold xBlock
  cases szX with
  | none => rfl
  | some x => dsimp only; split_ifs <;> rfl
@[simp] theorem xBlock_output : (xBlock atof s strLine szX).output = s.output := by
  unfold xBlock
  cases szX with
  | none => rfl
  | some x => dsimp only; split_ifs <;> rfl
@[simp] theorem xBlock_calls : (xBlock atof s strLine szX).calls = s.calls := by
  unfold xBlock
  cases szX with
  | none => rfl
  | some x => dsimp only; split_ifs <;> rfl
@[simp] theorem xBlock_returned : (xBlock atof s strLine szX).returned = s.returned := by
  unfold xBlock
  cases szX with
  | none => rfl
  | some x => dsimp only; split_ifs <;> rfl
@[simp] theorem yBlock_uiLine : (yBlock atof s strLine szY).uiLine = s.uiLine := by
  unfold yBlock
  cases szY with
  | none => rfl
  | some y => dsimp only; split_ifs <;> rfl
@[simp] theorem yBlock_vCurrentSets : (yBlock atof s strLine szY).vCurrentSets = s.vCurrentSets := by
  unfold yBlock
  cases szY with
  | none => rfl
  | some y => dsimp only; split_ifs <;> rfl
@[simp] theorem yBlock_bInPrologue : (yBlock atof s strLine szY).bInPrologue = s.bInPrologue := by
  unfold yBlock
  cases szY with
  | none => rfl
  | some y => dsimp only; split_ifs <;> rfl
@[simp] theorem yBlock_bInEpilogue : (yBlock atof s strLine szY).bInEpilogue = s.bInEpilogue := by
  unfold yBlock
  cases szY with
  | none => rfl
  | some y => dsimp only; split_ifs <;> rfl
@[simp] theorem yBlock_gcCurrent : (yBlock atof s strLine szY).gcCurrent = s.gcCurrent := by
  unfold yBlock
  cases szY with
  | none => rfl
  | some y => dsimp only; split_ifs <;> rfl
@[simp] theorem yBlock_dCurrentZ : (yBlock atof s strLine szY).dCurrentZ = s.dCurrentZ := by
  unfold yBlock
  cases szY with
  | none => rfl
  | some y => dsimp only; split_ifs <;> rfl
@[simp] theorem yBlock_dCurrentX : (yBlock atof s strLine szY).dCurrentX = s.dCurrentX := by
  unfold yBlock
  cases szY with
  | none => rfl
  | some y => dsimp only; split_ifs <;> rfl
@[simp] theorem yBlock_dLastZ : (yBlock atof s strLine szY).dLastZ = s.dLastZ := by
  unfold yBlock
  cases szY with
  | none => rfl
  | some y => dsimp only; split_ifs <;> rfl
@[simp] theorem yBlock_dLastX : (yBlock atof s strLine szY).dLastX = s.dLastX := by
  unfold yBlock
  cases szY with
  | none => rfl
  | some y => dsimp only; split_ifs <;> rfl
@[simp] theorem yBlock_uiSets : (yBlock atof s strLine szY).uiSets = s.uiSets := by
  unfold yBlock
  cases szY with
  | none => rfl
  | some y => dsimp only; split_ifs <;> rfl
@[simp] theorem yBlock_bCutterEngaged : (yBlock atof s strLine szY).bCutterEngaged = s.bCutterEngaged := by
  unfold yBlock
  cases szY with
  | none => rfl
  | some y => dsimp only; split_ifs <;> rfl
@[simp] theorem yBlock_uiLinesOut : (yBlock atof s strLine szY).uiLinesOut = s.uiLinesOut := by
  unfold yBlock
  cases szY with
  | none => rfl
  | some y => dsimp only; split_ifs <;> rfl
@[simp] theorem yBlock_output : (yBlock atof s strLine szY).output = s.output := by
  unfold yBlock
  cases szY with
  | none => rfl
  | some y => dsimp only; split_ifs <;> rfl
@[simp] theorem yBlock_calls : (yBlock atof s strLine szY).calls = s.calls := by
  unfold yBlock
  cases szY with
  | none => rfl
  | some y => dsimp only; split_ifs <;> rfl
@[simp] theorem yBlock_returned : (yBlock atof s strLine szY).returned = s.returned := by
  unfold yBlock
  cases szY with
  | none => rfl
  | some y => dsimp only; split_ifs <;> rfl
@[simp] theorem classified_vCurrentSets : (classified s strLine).vCurrentSets = s.vCurrentSets := rfl
@[simp] theorem classified_bInPrologue : (classified s strLine).bInPrologue = s.bInPrologue := rfl
@[simp] theorem classified_bInEpilogue : (classified s strLine).bInEpilogue = s.bInEpilogue := rfl
@[simp] theorem classified_gcCurrent : (classified s strLine).gcCurrent = s.gcCurrent := rfl
@[simp] theorem classified_dCurrentZ : (classified s strLine).dCurrentZ = s.dCurrentZ := rfl
@[simp] theorem classified_dCurrentX : (classified s strLine).dCurrentX = s.dCurrentX := rfl
@[simp] theorem classified_dCurrentY : (classified s strLine).dCurrentY = s.dCurrentY := rfl
@[simp] theorem classified_dLastZ : (classified s strLine).dLastZ = s.dLastZ := rfl
@[simp] theorem classified_dLastX : (classified s strLine).dLastX = s.dLastX := rfl
@[simp] theorem classified_dLastY : (classified s strLine).dLastY = s.dLastY := rfl
@[simp] theorem classified_uiSets : (classified s strLine).uiSets = s.uiSets := rfl
@[simp] theorem classified_uiLinesOut : (classified s strLine).uiLinesOut = s.uiLinesOut := rfl
@[simp] theorem classified_output : (classified s strLine).output = s.output := rfl
@[simp] theorem classified_calls : (classified s strLine).calls = s.calls := rfl
@[simp] theorem classified_returned : (classified s strLine).returned = s.returned := rfl
@[simp] theorem classified_bCutterEngaged :
    (classified s strLine).bCutterEngaged = engagedAfter s.bCutterEngaged strLine := rfl

@[simp] theorem setBlock_uiLine : (setBlock s strLine szX szY).uiLine = s.uiLine := by
  unfold setBlock
  dsimp only
  split_ifs <;> rfl
@[simp] theorem setBlock_dCurrentZ : (setBlock s strLine szX szY).dCurrentZ = s.dCurrentZ := by
  unfold setBlock
  dsimp only
  split_ifs <;> rfl
@[simp] theorem setBlock_dCurrentX : (setBlock s strLine szX szY).dCurrentX = s.dCurrentX := by
  unfold setBlock
  dsimp only
  split_ifs <;> rfl
@[simp] theorem setBlock_dCurrentY : (setBlock s strLine szX szY).dCurrentY = s.dCurrentY := by
  unfold setBlock
  dsimp only
  split_ifs <;> rfl
@[simp] theorem setBlock_dLastZ : (setBlock s strLine szX szY).dLastZ = s.dLastZ := by
  unfold setBlock
  dsimp only
  split_ifs <;> rfl
@[simp] theorem setBlock_dLastX : (setBlock s strLine szX szY).dLastX = s.dLastX := by
  unfold setBlock
  dsimp only
  split_ifs <;> rfl
@[simp] theorem setBlock_dLastY : (setBlock s strLine szX szY).dLastY = s.dLastY := by
  unfold setBlock
  dsimp only
  split_ifs <;> rfl
@[simp] theorem setBlock_bCutterEngaged : (setBlock s strLine szX szY).bCutterEngaged = s.bCutterEngaged := by
  unfold setBlock
  dsimp only
  split_ifs <;> rfl
@[simp] theorem setBlock_uiLinesOut : (setBlock s strLine szX szY).uiLinesOut = s.uiLinesOut := by
  unfold setBlock
  dsimp only
  split_ifs <;> rfl
@[simp] theorem setBlock_output : (setBlock s strLine szX szY).output = s.output := by
  unfold setBlock
  dsimp only
  split_ifs <;> rfl
@[simp] theorem setBlock_calls : (setBlock s strLine szX szY).calls = s.calls := by
  unfold setBlock
  dsimp only
  split_ifs <;> rfl

theorem OptimizeAndOutputSets_nil (uiLinesOut : Nat) (output : Output) :
    OptimizeAndOutputSets sort [] uiLinesOut output = (uiLinesOut, output) := rfl

theorem zBlock_vCurrentSets_of_nil (h : s.vCurrentSets = []) :
    (zBlock atof sort bLaserMode s strLine strLineCodes szZ).1.vCurrentSets = [] := by
  unfold zBlock
  cases szZ with
  | none => exact h
  | some z => dsimp only; split_ifs <;> first | exact h | rfl

theorem zBlock_output_mill_of_nil (h : s.vCurrentSets = []) :
    (zBlock atof sort false s strLine strLineCodes szZ).1.output = s.output := by
  unfold zBlock
  cases szZ with
  | none => rfl
  | some z =>
    simp only [Bool.false_eq_true, ↓reduceIte]
    split_ifs <;> first | rfl | simp [flush, h, OptimizeAndOutputSets_nil]

end Frame

/-! ## Classification of a line -/

theorem charAt_zero_of_isRapidMove (l : Line) (h : isRapidMove l = true) : charAt l 0 = 'G' := by
  simp only [isRapidMove, Bool.and_eq_true, beq_iff_eq] at h
  exact h.1.2

theorem charAt_zero_of_isEngagedMove (l : Line) (h : isEngagedMove l = true) :
    charAt l 0 = 'G' := by
  simp only [isEngagedMove, Bool.and_eq_true, beq_iff_eq] at h
  exact h.1.1.2

theorem isEpilogueStart_charAt (l : Line) (h : isEpilogueStart l = true) : charAt l 0 = 'M' := by
  cases l with
  | nil => simp [isEpilogueStart, startsWith] at h
  | cons c cs =>
    simp only [isEpilogueStart, startsWith, Bool.or_eq_true, Bool.and_eq_true, beq_iff_eq] at h
    rcases h with h | h <;> simp [charAt, ← h.1]

theorem isEpilogueStart_of_isRapidMove (l : Line) (h : isRapidMove l = true) :
    isEpilogueStart l = false := by
  cases he : isEpilogueStart l with
  | false => rfl
  | true =>
    have h1 := charAt_zero_of_isRapidMove l h
    have h2 := isEpilogueStart_charAt l he
    rw [h1] at h2
    exact absurd h2 (by decide)

theorem isEpilogueStart_of_isEngagedMove (l : Line) (h : isEngagedMove l = true) :
    isEpilogueStart l = false := by
  cases he : isEpilogueStart l with
  | false => rfl
  | true =>
    have h1 := charAt_zero_of_isEngagedMove l h
    have h2 := isEpilogueStart_charAt l he
    rw [h1] at h2
    exact absurd h2 (by decide)

/-! ## The two phase flags -/

section Flags

variable (atof : Line → ℚ) (sort : List (Nat × ℚ) → List (Nat × ℚ)) (bLaserMode : Bool)
  (s : MainState) (strLine : Line)

/-- The two ways through the loop body: the part after the prologue test, entered with the
engagement flag as the classification leaves it, or the write of a prologue line. -/
theorem processLine_cases :
    ((isRapidMove strLine = true ∨ isEngagedMove strLine = true ∨ s.bInPrologue = false) ∧
      processLine atof sort bLaserMode s strLine =
        pastPrologue atof sort bLaserMode (classified s strLine) strLine) ∨
    (isRapidMove strLine = false ∧ isEngagedMove strLine = false ∧ s.bInPrologue = true ∧
      processLine atof sort bLaserMode s strLine =
        { s with uiLine := (s.uiLine + 1) % UINT_RANGE,
                 output := s.output ++ [prologueText bLaserMode strLine],
                 uiLinesOut := (s.uiLinesOut + 1) % UINT_RANGE }) := by
  unfold processLine classified engagedAfter prologueText
  by_cases h1 : isRapidMove strLine = true
  · left; exact ⟨Or.inl h1, by simp [h1]⟩
  · by_cases h2 : isEngagedMove strLine = true
    · left; exact ⟨Or.inr (Or.inl h2), by simp [h1, h2]⟩
    · by_cases h3 : s.bInPrologue = true
      · right
        refine ⟨by simpa using h1, by simpa using h2, h3, ?_⟩
        simp [h1, h2, h3]
      · left
        refine ⟨Or.inr (Or.inr (by simpa using h3)), ?_⟩
        simp [h1, h2, h3]

theorem epilogueStart_of_not (h : isEpilogueStart strLine = false) :
    epilogueStart sort s strLine = s := by
  simp [epilogueStart, h]

theorem pastPrologue_bInPrologue
    (h : (pastPrologue atof sort bLaserMode s strLine).bInPrologue = true) :
    s.bInPrologue = true := by
  unfold pastPrologue epilogueStart setBlock at h
  dsimp only at h
  split_ifs at h <;> simp_all

theorem pastPrologue_bInEpilogue (h : s.bInEpilogue = true) :
    (pastPrologue atof sort bLaserMode s strLine).bInEpilogue = true := by
  unfold pastPrologue epilogueStart setBlock
  dsimp only
  split_ifs <;> simp_all

theorem pastPrologue_not_bInEpilogue (h : s.bInEpilogue = false)
    (hl : isEpilogueStart strLine = false) :
    (pastPrologue atof sort bLaserMode s strLine).bInEpilogue = false := by
  unfold pastPrologue setBlock
  rw [epilogueStart_of_not sort s strLine hl]
  dsimp only
  split_ifs <;> simp_all

theorem pastPrologue_not_both
    (h : ¬ (s.bInPrologue = true ∧ s.bInEpilogue = true)) :
    ¬ ((pastPrologue atof sort bLaserMode s strLine).bInPrologue = true ∧
       (pastPrologue atof sort bLaserMode s strLine).bInEpilogue = true) := by
  unfold pastPrologue epilogueStart setBlock
  dsimp only
  split_ifs <;> simp_all

/-- The flags after one line, in terms of the flags before it: the prologue flag is never
set again, the epilogue flag is never cleared, the two are never both set, and a line
processed in the prologue does not set the epilogue flag. -/
theorem processLine_flags (hs : ¬ (s.bInPrologue = true ∧ s.bInEpilogue = true)) :
    ((processLine atof sort bLaserMode s strLine).bInPrologue = true → s.bInPrologue = true) ∧
    (s.bInEpilogue = true → (processLine atof sort bLaserMode s strLine).bInEpilogue = true) ∧
    ¬ ((processLine atof sort bLaserMode s strLine).bInPrologue = true ∧
       (processLine atof sort bLaserMode s strLine).bInEpilogue = true) ∧
    (s.bInPrologue = true → (processLine atof sort bLaserMode s strLine).bInEpilogue = false) := by
  have hs' : s.bInPrologue = true → s.bInEpilogue = false := by
    intro h; cases he : s.bInEpilogue <;> simp_all
  rcases processLine_cases atof sort bLaserMode s strLine with ⟨hc, he⟩ | ⟨h1, h2, h3, he⟩
  · rw [he]
    refine ⟨fun h => pastPrologue_bInPrologue atof sort bLaserMode (classified s strLine) strLine h,
      fun h => pastPrologue_bInEpilogue atof sort bLaserMode (classified s strLine) strLine h,
      pastPrologue_not_both atof sort bLaserMode (classified s strLine) strLine hs, fun hp => ?_⟩
    apply pastPrologue_not_bInEpilogue atof sort bLaserMode (classified s strLine) strLine (hs' hp)
    rcases hc with hc | hc | hc
    · exact isEpilogueStart_of_isRapidMove strLine hc
    · exact isEpilogueStart_of_isEngagedMove strLine hc
    · rw [hp] at hc; exact absurd hc (by decide)
  · rw [he]
    exact ⟨fun h => h, fun h => h, hs, hs'⟩

end Flags

/-! ## The read loop -/

section Loop

variable (atof : Line → ℚ) (sort : List (Nat × ℚ) → List (Nat × ℚ)) (bLaserMode : Bool)

theorem readLoop_append (s : MainState) (pre post : List Line) :
    readLoop atof sort bLaserMode s (pre ++ post) =
      readLoop atof sort bLaserMode (readLoop atof sort bLaserMode s pre) post := by
  induction pre generalizing s with
  | nil => rfl
  | cons l rest ih =>
    simp only [List.cons_append, readLoop]
    split_ifs with h
    · cases post with
      | nil => rfl
      | cons p ps => simp [readLoop, h]
    · exact ih _

theorem readLoop_of_returned (s : MainState) (lines : List Line) (h : s.returned = true) :
    readLoop atof sort bLaserMode s lines = s := by
  cases lines with
  | nil => rfl
  | cons l rest => simp [readLoop, h]

/-- Induction over the read loop: a property of the state that every processed line
preserves holds after the loop. -/
theorem readLoop_induction (P : MainState → Prop)
    (hstep : ∀ s l, P s → s.returned = false → P (processLine atof sort bLaserMode s l))
    (s : MainState) (lines : List Line) (h : P s) :
    P (readLoop atof sort bLaserMode s lines) := by
  induction lines generalizing s with
  | nil => exact h
  | cons l rest ih =>
    simp only [readLoop]
    split_ifs with hr
    · exact h
    · exact ih _ (hstep s l h (by simpa using hr))

theorem run_append (strAppName : Line) (pre post : List Line) :
    run atof sort bLaserMode strAppName (pre ++ post) =
      readLoop atof sort bLaserMode (run atof sort bLaserMode strAppName pre) post :=
  readLoop_append atof sort bLaserMode _ pre post

theorem run_not_both (strAppName : Line) (lines : List Line) :
    ¬ ((run atof sort bLaserMode strAppName lines).bInPrologue = true ∧
       (run atof sort bLaserMode strAppName lines).bInEpilogue = true) := by
  apply readLoop_induction atof sort bLaserMode
    (fun s => ¬ (s.bInPrologue = true ∧ s.bInEpilogue = true))
  · intro s l hs _
    exact (processLine_flags atof sort bLaserMode s l hs).2.2.1
  · simp [initialState]

theorem phase_rank_processLine (s : MainState) (l : Line)
    (hs : ¬ (s.bInPrologue = true ∧ s.bInEpilogue = true)) :
    (phase s).rank ≤ (phase (processLine atof sort bLaserMode s l)).rank := by
  obtain ⟨h1, h2, _, _⟩ := processLine_flags atof sort bLaserMode s l hs
  unfold phase
  cases hp : s.bInPrologue <;> cases he : s.bInEpilogue <;>
    cases hp' : (processLine atof sort bLaserMode s l).bInPrologue <;>
    cases he' : (processLine atof sort bLaserMode s l).bInEpilogue <;>
    simp_all [Phase.rank]

theorem phase_rank_readLoop (s : MainState) (lines : List Line)
    (hs : ¬ (s.bInPrologue = true ∧ s.bInEpilogue = true)) :
    (phase s).rank ≤ (phase (readLoop atof sort bLaserMode s lines)).rank := by
  induction lines generalizing s with
  | nil => exact le_refl _
  | cons l rest ih =>
    simp only [readLoop]
    split_ifs with hr
    · exact le_refl _
    · exact le_trans (phase_rank_processLine atof sort bLaserMode s l hs)
        (ih _ (processLine_flags atof sort bLaserMode s l hs).2.2.1)

/-- C8: over every input, the phase after more lines is never earlier than the phase
before them, the prologue and epilogue flags are never both set, and no single line moves
the phase from Prologue to Epilogue. -/
theorem phase_monotone (strAppName : Line) (pre post : List Line) (line : Line) :
    (phase (run atof sort bLaserMode strAppName pre)).rank ≤
      (phase (run atof sort bLaserMode strAppName (pre ++ post))).rank ∧
    ¬ ((run atof sort bLaserMode strAppName pre).bInPrologue = true ∧
       (run atof sort bLaserMode strAppName pre).bInEpilogue = true) ∧
    (phase (run atof sort bLaserMode strAppName pre) = Phase.Prologue →
      phase (run atof sort bLaserMode strAppName (pre ++ [line])) ≠ Phase.Epilogue) := by
  have hnb := run_not_both atof sort bLaserMode strAppName pre
  refine ⟨?_, hnb, ?_⟩
  · rw [run_append]
    exact phase_rank_readLoop atof sort bLaserMode _ post hnb
  · intro hp
    rw [run_append]
    have hpro : (run atof sort bLaserMode strAppName pre).bInPrologue = true := by
      unfold phase at hp
      split_ifs at hp with h1
      exact h1
    simp only [readLoop]
    split_ifs with hr
    · rw [hp]; decide
    · have := (processLine_flags atof sort bLaserMode _ line hnb).2.2.2 hpro
      unfold phase
      rw [this]
      split_ifs <;> simp_all

end Loop

/-! ## The depth of the sets of a batch -/

section Depth

variable (atof : Line → ℚ) (sort : List (Nat × ℚ) → List (Nat × ℚ)) (bLaserMode : Bool)
  (s : MainState) (strLine strLineCodes : Line) (szX szY szZ : Option Nat)

theorem sameDepth_of_forall (batch : List GCodeSet) (d : ℚ)
    (h : ∀ e ∈ batch, e.m_dZStart = d) : SameDepth batch :=
  fun a ha b hb => (h a ha).trans (h b hb).symm

theorem DepthInv_epilogueStart (h : DepthInv s) : DepthInv (epilogueStart sort s strLine) := by
  unfold epilogueStart
  split_ifs with hm
  · obtain ⟨h1, h2, h3⟩ := h
    refine ⟨?_, fun _ => rfl, fun hc => by simp at hc⟩
    intro batch hb
    simp only [flush_calls, List.mem_append, List.mem_singleton] at hb
    rcases hb with hb | hb
    · exact h1 batch hb
    · subst hb
      cases he : s.bInEpilogue with
      | true => rw [h2 he]; intro a ha b hb; simp_all
      | false =>
        obtain ⟨hg, hv⟩ := h3 he
        apply sameDepth_of_forall _ s.dCurrentZ
        intro e hmem
        rcases List.mem_append.mp hmem with h' | h'
        · exact hv e h'
        · simp only [List.mem_singleton] at h'; rw [h']; exact hg
  · exact h

theorem DepthInv_zBlock (h : DepthInv s) (he : s.bInEpilogue = false) :
    DepthInv (zBlock atof sort bLaserMode s strLine strLineCodes szZ).1 := by
  obtain ⟨h1, h2, h3⟩ := h
  obtain ⟨hg, hv⟩ := h3 he
  have hsame : SameDepth s.vCurrentSets := sameDepth_of_forall _ _ hv
  unfold zBlock
  cases szZ with
  | none => exact ⟨h1, h2, h3⟩
  | some z =>
    dsimp only
    split_ifs with c1 c2 c3 c4 c5 c6 c7 c8 <;>
      first
      | exact ⟨h1, h2, h3⟩
      | (refine ⟨?_, fun hc => by simp_all, fun _ => by simp_all [GCodeSet.SetZStart]⟩
         intro batch hb
         first
         | exact h1 batch hb
         | (simp only [flush_calls, List.mem_append, List.mem_singleton] at hb
            rcases hb with hb | hb
            · exact h1 batch hb
            · rw [hb]; exact hsame))

theorem DepthInv_xBlock (h : DepthInv s) : DepthInv (xBlock atof s strLine szX) := by
  unfold DepthInv at h ⊢
  simpa using h

theorem DepthInv_yBlock (h : DepthInv s) : DepthInv (yBlock atof s strLine szY) := by
  unfold DepthInv at h ⊢
  simpa using h

theorem DepthInv_setBlock (h : DepthInv s) (he : s.bInEpilogue = false) :
    DepthInv (setBlock s strLine szX szY) := by
  obtain ⟨h1, h2, h3⟩ := h
  obtain ⟨hg, hv⟩ := h3 he
  unfold setBlock
  dsimp only
  split_ifs with c1 c2 c3 c4
  · exact ⟨h1, fun hc => by simp at hc, fun _ => ⟨hg, hv⟩⟩
  · refine ⟨h1, fun hc => by simp at hc, fun _ => ⟨rfl, ?_⟩⟩
    intro e hmem
    rcases List.mem_append.mp hmem with h' | h'
    · exact hv e h'
    · simp only [List.mem_singleton] at h'; rw [h']; exact hg
  · exact ⟨h1, fun hc => by simp at hc, fun _ => ⟨rfl, hv⟩⟩
  · exact ⟨h1, h2, h3⟩
  · exact ⟨h1, h2, fun _ => ⟨hg, hv⟩⟩

theorem DepthInv_pastPrologue (h : DepthInv s) :
    DepthInv (pastPrologue atof sort bLaserMode s strLine) := by
  have h0 := DepthInv_epilogueStart sort s strLine h
  unfold pastPrologue
  dsimp only
  split_ifs with c1
  · exact h0
  · have he : (epilogueStart sort s strLine).bInEpilogue = false := by simpa using c1
    have hz := DepthInv_zBlock atof sort bLaserMode _ strLine (lineCodes strLine)
      (find strLine " Z".toList) h0 he
    have hx := DepthInv_xBlock atof _
      (zBlock atof sort bLaserMode (epilogueStart sort s strLine) strLine (lineCodes strLine)
        (find strLine " Z".toList)).2 (find strLine " X".toList) hz
    have hy := DepthInv_yBlock atof _
      (zBlock atof sort bLaserMode (epilogueStart sort s strLine) strLine (lineCodes strLine)
        (find strLine " Z".toList)).2 (find strLine " Y".toList) hx
    exact DepthInv_setBlock _ _ _ _ hy (by simpa using he)

theorem DepthInv_processLine (h : DepthInv s) :
    DepthInv (processLine atof sort bLaserMode s strLine) := by
  rcases processLine_cases atof sort bLaserMode s strLine with ⟨_, he⟩ | ⟨_, _, _, he⟩
  · rw [he]
    exact DepthInv_pastPrologue atof sort bLaserMode (classified s strLine) strLine h
  · rw [he]
    exact h

theorem DepthInv_run (strAppName : Line) (lines : List Line) :
    DepthInv (run atof sort bLaserMode strAppName lines) := by
  apply readLoop_induction atof sort bLaserMode DepthInv
  · intro s l hs _
    exact DepthInv_processLine atof sort bLaserMode s l hs
  · refine ⟨by simp [initialState], by simp [initialState], fun _ => ⟨rfl, ?_⟩⟩
    simp [initialState]

/-- C4: in either mode and for every input, every batch passed to `OptimizeAndOutputSets`
holds only sets of one recorded depth: any two sets of the batch have the same start z. -/
theorem depth_flush (strAppName : Line) (lines : List Line) (batch : List GCodeSet)
    (hbatch : batch ∈ (run atof sort bLaserMode strAppName lines).calls)
    (a b : GCodeSet) (ha : a ∈ batch) (hb : b ∈ batch) :
    a.m_dZStart = b.m_dZStart :=
  (DepthInv_run atof sort bLaserMode strAppName lines).1 batch hbatch a ha b hb

theorem depth_flush_witness :
    [setAtOrigin, setAtFive] ∈
        (run atofDecimal insertionSort false "gcodemillopt".toList scenarioA).calls ∧
      setAtOrigin ∈ [setAtOrigin, setAtFive] ∧ setAtFive ∈ [setAtOrigin, setAtFive] ∧
      setAtOrigin.m_dZStart = setAtFive.m_dZStart :=
  ⟨by with_unfolding_all decide, by simp, by simp,
    depth_flush atofDecimal insertionSort false "gcodemillopt".toList scenarioA
      [setAtOrigin, setAtFive] (by with_unfolding_all decide) setAtOrigin setAtFive
      (by simp) (by simp)⟩

end Depth

/-! ## The fatal rapid move -/

theorem isRapidMove_of_startsWith (l : Line) (h : startsWith "G0 X".toList l = true) :
    isRapidMove l = true := by
  have h' : startsWith ['G', '0', ' ', 'X'] l = true := h
  rcases l with _ | ⟨c0, _ | ⟨c1, _ | ⟨c2, _ | ⟨c3, rest⟩⟩⟩⟩ <;>
    simp only [startsWith, Bool.and_eq_true, beq_iff_eq, Bool.false_eq_true, and_false] at h'
  obtain ⟨h0, h1, _, _⟩ := h'
  subst h0 h1
  simp [isRapidMove, charAt]

section Fatal

variable (atof : Line → ℚ) (sort : List (Nat × ℚ) → List (Nat × ℚ)) (bLaserMode : Bool)

/-- C6: in a state that is not in the epilogue, a line beginning with `G0 X` that has
neither a Y field nor a Z field makes `main` return at that line: nothing is written for
that line or for any later line, and `OptimizeAndOutputSets` is not called again, so the
open set and the pending batch are never emitted. -/
theorem fatal_rapid_move (s : MainState) (strLine : Line) (later : List Line)
    (hret : s.returned = false) (hepi : s.bInEpilogue = false)
    (hG : startsWith "G0 X".toList strLine = true)
    (hY : find strLine " Y".toList = none) (hZ : find strLine " Z".toList = none) :
    (processLine atof sort bLaserMode s strLine).returned = true ∧
    (readLoop atof sort bLaserMode s (strLine :: later)).returned = true ∧
    (readLoop atof sort bLaserMode s (strLine :: later)).output = s.output ∧
    (readLoop atof sort bLaserMode s (strLine :: later)).calls = s.calls ∧
    (readLoop atof sort bLaserMode s (strLine :: later)).uiLinesOut = s.uiLinesOut := by
  have hrapid := isRapidMove_of_startsWith strLine hG
  have hnm := isEpilogueStart_of_isRapidMove strLine hrapid
  have hp : processLine atof sort bLaserMode s strLine =
      pastPrologue atof sort bLaserMode (classified s strLine) strLine := by
    rcases processLine_cases atof sort bLaserMode s strLine with ⟨_, he⟩ | ⟨h1, _⟩
    · exact he
    · rw [hrapid] at h1; exact absurd h1 (by decide)
  have hfacts : (processLine atof sort bLaserMode s strLine).returned = true ∧
      (processLine atof sort bLaserMode s strLine).output = s.output ∧
      (processLine atof sort bLaserMode s strLine).calls = s.calls ∧
      (processLine atof sort bLaserMode s strLine).uiLinesOut = s.uiLinesOut := by
    rw [hp]
    unfold pastPrologue
    rw [epilogueStart_of_not sort _ strLine hnm]
    simp only [classified_bInEpilogue, hepi, hY, hZ]
    have hG' : startsWith ['G', '0', ' ', 'X'] strLine = true := hG
    simp [zBlock, yBlock, setBlock, hG']
  have hloop : readLoop atof sort bLaserMode s (strLine :: later) =
      processLine atof sort bLaserMode s strLine := by
    simp only [readLoop, hret]
    exact readLoop_of_returned atof sort bLaserMode _ later hfacts.1
  rw [hloop]
  exact ⟨hfacts.1, hfacts.1, hfacts.2.1, hfacts.2.2.1, hfacts.2.2.2⟩

theorem fatal_rapid_move_witness :
    (bodyState false).returned = false ∧ (bodyState false).bInEpilogue = false ∧
    startsWith "G0 X".toList "G0 X5\n".toList = true ∧
    find "G0 X5\n".toList " Y".toList = none ∧ find "G0 X5\n".toList " Z".toList = none ∧
    ((processLine atofDecimal insertionSort false (bodyState false) "G0 X5\n".toList).returned
        = true ∧
      (readLoop atofDecimal insertionSort false (bodyState false)
        ("G0 X5\n".toList :: ["G1 X6 Y5\n".toList, "M5\n".toList])).returned = true ∧
      (readLoop atofDecimal insertionSort false (bodyState false)
        ("G0 X5\n".toList :: ["G1 X6 Y5\n".toList, "M5\n".toList])).output
        = (bodyState false).output ∧
      (readLoop atofDecimal insertionSort false (bodyState false)
        ("G0 X5\n".toList :: ["G1 X6 Y5\n".toList, "M5\n".toList])).calls
        = (bodyState false).calls ∧
      (readLoop atofDecimal insertionSort false (bodyState false)
        ("G0 X5\n".toList :: ["G1 X6 Y5\n".toList, "M5\n".toList])).uiLinesOut
        = (bodyState false).uiLinesOut) :=
  ⟨by with_unfolding_all decide, by with_unfolding_all decide, by decide, by decide, by decide,
    fatal_rapid_move atofDecimal insertionSort false (bodyState false) "G0 X5\n".toList
      ["G1 X6 Y5\n".toList, "M5\n".toList] (by with_unfolding_all decide)
      (by with_unfolding_all decide) (by decide) (by decide) (by decide)⟩

end Fatal

/-! ## The prologue -/

section Prologue

variable (atof : Line → ℚ) (sort : List (Nat × ℚ) → List (Nat × ℚ)) (bLaserMode : Bool)

theorem pastPrologue_stays (s : MainState) (strLine : Line) (hepi : s.bInEpilogue = false)
    (hp : (pastPrologue atof sort bLaserMode s strLine).bInPrologue = true) :
    pastPrologue atof sort bLaserMode s strLine =
      yBlock atof (xBlock atof
        (zBlock atof sort bLaserMode s strLine (lineCodes strLine) (find strLine " Z".toList)).1
        (zBlock atof sort bLaserMode s strLine (lineCodes strLine) (find strLine " Z".toList)).2
        (find strLine " X".toList))
        (zBlock atof sort bLaserMode s strLine (lineCodes strLine) (find strLine " Z".toList)).2
        (find strLine " Y".toList) := by
  have hpro := pastPrologue_bInPrologue atof sort bLaserMode s strLine hp
  unfold pastPrologue epilogueStart setBlock at hp ⊢
  dsimp only at hp ⊢
  split_ifs at hp ⊢ <;> simp_all

theorem PrologueInv_processLine (s : MainState) (strLine : Line) (h : PrologueInv s) :
    PrologueInv (processLine atof sort bLaserMode s strLine) := by
  intro hp
  rcases processLine_cases atof sort bLaserMode s strLine with ⟨_, he⟩ | ⟨_, _, h3, he⟩
  · rw [he] at hp ⊢
    have hpro : (classified s strLine).bInPrologue = true :=
      pastPrologue_bInPrologue atof sort bLaserMode _ strLine hp
    obtain ⟨h1, h2, h3, h4⟩ := h hpro
    rw [pastPrologue_stays atof sort bLaserMode (classified s strLine) strLine h1 hp]
    refine ⟨by simpa using h1, ?_, by simpa using h3, by simpa using h4⟩
    simpa using zBlock_vCurrentSets_of_nil atof sort bLaserMode (classified s strLine) strLine
      (lineCodes strLine) (find strLine " Z".toList) h2
  · rw [he]
    exact h h3

theorem PrologueInv_run (strAppName : Line) (lines : List Line) :
    PrologueInv (run atof sort bLaserMode strAppName lines) := by
  apply readLoop_induction atof sort bLaserMode PrologueInv
  · intro s l hs _
    exact PrologueInv_processLine atof sort bLaserMode s l hs
  · intro _
    simp [initialState, GCodeSet.Reset]

theorem run_snoc (strAppName : Line) (pre : List Line) (line : Line)
    (h : (run atof sort bLaserMode strAppName pre).returned = false) :
    run atof sort bLaserMode strAppName (pre ++ [line]) =
      processLine atof sort bLaserMode (run atof sort bLaserMode strAppName pre) line := by
  rw [run_append]
  simp [readLoop, h]

/-- C5, evaluated at the input `G0 Z0.5`, `T0 M6`: in mill mode the line `G0 Z0.5` is
processed while the builder is in the prologue (no set has been opened, and the prologue
flag is still set after it), and it is neither written nor recorded in a set: of the two
lines only the second reaches the output. In laser mode the same line, rewritten, is
written by the branch of the Z block for a line met in the prologue. -/
theorem prologue_move_line_not_written :
    (run atofDecimal insertionSort false "gcodemillopt".toList
      ["G0 Z0.5\n".toList]).bInPrologue = true ∧
    (run atofDecimal insertionSort false "gcodemillopt".toList
      ["G0 Z0.5\n".toList]).gcCurrent.m_vLines = [] ∧
    (run atofDecimal insertionSort false "gcodemillopt".toList
      ["G0 Z0.5\n".toList, "T0 M6\n".toList]).output =
      [some (attribution "gcodemillopt".toList), some "T0 M6\n".toList] ∧
    (run atofDecimal insertionSort true "gcodemillopt".toList
      ["G0 Z0.5\n".toList, "T0 M6\n".toList]).output =
      [some (attribution "gcodemillopt".toList), some "M5 (laser off - was G0 Z0.5)\n".toList,
       some "T0 M6\n".toList] := by
  refine ⟨?_, ?_, ?_, ?_⟩ <;> with_unfolding_all decide

/-- A line processed while `bInPrologue` is set that is not classified as a `G0` or `G1`
move is written at the end of the output, and the prologue goes on; what is written is the
line itself when it holds no `%`, or the comment line when laser mode is on and the text
of the line is `M3`. For a line classified as a `G0` or `G1` move that is processed in mill
mode while `bInPrologue` is set, nothing is written. -/
theorem prologue_pass_through (strAppName : Line) (pre : List Line) (line : Line)
    (hpro : (run atof sort bLaserMode strAppName pre).bInPrologue = true) :
    (isRapidMove line = false → isEngagedMove line = false → '%' ∉ line →
      (run atof sort bLaserMode strAppName (pre ++ [line])).output =
        (run atof sort bLaserMode strAppName pre).output ++
          [some (if lineCodes line == "M3".toList && bLaserMode then
                   "(M3 - removed in laser mode)\n".toList else line)] ∧
      (run atof sort bLaserMode strAppName (pre ++ [line])).bInPrologue = true) ∧
    ((isRapidMove line = true ∨ isEngagedMove line = true) → bLaserMode = false →
      (run atof sort bLaserMode strAppName (pre ++ [line])).output =
        (run atof sort bLaserMode strAppName pre).output) := by
  obtain ⟨hepi, hsets, _, hret⟩ := PrologueInv_run atof sort bLaserMode strAppName pre hpro
  rw [run_snoc atof sort bLaserMode strAppName pre line hret]
  constructor
  · intro h1 h2 hpct
    rcases processLine_cases atof sort bLaserMode (run atof sort bLaserMode strAppName pre) line
      with ⟨hc, _⟩ | ⟨_, _, _, he⟩
    · rcases hc with hc | hc | hc
      · rw [h1] at hc; exact absurd hc (by decide)
      · rw [h2] at hc; exact absurd hc (by decide)
      · rw [hpro] at hc; exact absurd hc (by decide)
    · rw [he]
      refine ⟨?_, hpro⟩
      have hm3 : fprintf "(M3 - removed in laser mode)\n".toList =
          some "(M3 - removed in laser mode)\n".toList := by decide
      simp only [prologueText, hm3, fprintf_eq_self line hpct]
      split_ifs <;> rfl
  · intro hG hmill
    subst hmill
    rcases processLine_cases atof sort false (run atof sort false strAppName pre) line
      with ⟨_, he⟩ | ⟨h1, h2, _, _⟩
    · rw [he]
      have hm : isEpilogueStart line = false := by
        rcases hG with hG | hG
        · exact isEpilogueStart_of_isRapidMove line hG
        · exact isEpilogueStart_of_isEngagedMove line hG
      unfold pastPrologue
      rw [epilogueStart_of_not sort _ line hm]
      simp only [classified_bInEpilogue, hepi]
      simp only [Bool.false_eq_true, ↓reduceIte, setBlock_output, yBlock_output, xBlock_output]
      rw [zBlock_output_mill_of_nil atof sort (classified (run atof sort false strAppName pre) line)
        line (lineCodes line) (find line " Z".toList) hsets]
      rfl
    · rcases hG with hG | hG
      · rw [h1] at hG; exact absurd hG (by decide)
      · rw [h2] at hG; exact absurd hG (by decide)

theorem prologue_pass_through_witness :
    (run atofDecimal insertionSort true "gcodemillopt".toList ["G21\n".toList]).bInPrologue = true ∧
    (run atofDecimal insertionSort false "gcodemillopt".toList ["G21\n".toList]).bInPrologue = true ∧
    (run atofDecimal insertionSort true "gcodemillopt".toList (["G21\n".toList] ++ ["M3\n".toList])).output =
      (run atofDecimal insertionSort true "gcodemillopt".toList ["G21\n".toList]).output ++
        [some (if lineCodes "M3\n".toList == "M3".toList && true then
                 "(M3 - removed in laser mode)\n".toList else "M3\n".toList)] ∧
    (run atofDecimal insertionSort false "gcodemillopt".toList
        (["G21\n".toList] ++ ["G0 Z0.5\n".toList])).output =
      (run atofDecimal insertionSort false "gcodemillopt".toList ["G21\n".toList]).output :=
  ⟨by with_unfolding_all decide, by with_unfolding_all decide,
    ((prologue_pass_through atofDecimal insertionSort true "gcodemillopt".toList ["G21\n".toList]
      "M3\n".toList (by with_unfolding_all decide)).1 (by decide) (by decide) (by decide)).1,
    (prologue_pass_through atofDecimal insertionSort false "gcodemillopt".toList ["G21\n".toList]
      "G0 Z0.5\n".toList (by with_unfolding_all decide)).2 (Or.inl (by decide)) rfl⟩

end Prologue

/-! ## The epilogue -/

section Epilogue

variable (atof : Line → ℚ) (sort : List (Nat × ℚ) → List (Nat × ℚ)) (bLaserMode : Bool)

theorem OptimizeAndOutputSets_no_lines (hsort : IsStdSort sort) (vSets : List GCodeSet)
    (uiLinesOut : Nat) (output : Output) (h : ∀ e ∈ vSets, e.m_vLines = []) :
    (OptimizeAndOutputSets sort vSets uiLinesOut output).2 = output := by
  obtain ⟨opt, _, hp, _, hout⟩ := OptimizeAndOutputSets_output sort hsort vSets uiLinesOut output
  rw [hout]
  have : opt.flatMap (fun e => e.m_vLines) = [] := by
    rw [List.flatMap_eq_nil_iff]
    intro e he
    exact h e (hp.subset he)
  simp [this]

/-- A line that reaches the epilogue exit is written after what `epilogueStart` wrote, and
nothing else of the state changes after `epilogueStart`. -/
theorem pastPrologue_of_epilogue (s : MainState) (strLine : Line)
    (h : (epilogueStart sort s strLine).bInEpilogue = true) :
    pastPrologue atof sort bLaserMode s strLine =
      { epilogueStart sort s strLine with
        output := (epilogueStart sort s strLine).output ++ [fprintf strLine],
        uiLinesOut := ((epilogueStart sort s strLine).uiLinesOut + 1) % UINT_RANGE } := by
  unfold pastPrologue
  simp [h]

theorem epilogueStart_of_start (s : MainState) (strLine : Line)
    (h : isEpilogueStart strLine = true) :
    epilogueStart sort s strLine =
      { flush sort { s with vCurrentSets := s.vCurrentSets ++ [s.gcCurrent] } with
        gcCurrent := GCodeSet.Reset 0 0 0, bInEpilogue := true, bInPrologue := false } := by
  simp [epilogueStart, h]

theorem EpilogueInv_processLine (s : MainState) (strLine : Line) (h : EpilogueInv s)
    (hret : s.returned = false) :
    EpilogueInv (processLine atof sort bLaserMode s strLine) := by
  intro hp
  rcases processLine_cases atof sort bLaserMode s strLine with ⟨_, he⟩ | ⟨_, _, h3, he⟩
  · rw [he] at hp ⊢
    by_cases hm : isEpilogueStart strLine = true
    · rw [pastPrologue_of_epilogue atof sort bLaserMode _ strLine
        (by rw [epilogueStart_of_start sort _ strLine hm]),
        epilogueStart_of_start sort _ strLine hm]
      exact ⟨rfl, rfl, rfl, by simpa using hret⟩
    · have hm' : isEpilogueStart strLine = false := by simpa using hm
      have hs : s.bInEpilogue = true := by
        by_contra hc
        have := pastPrologue_not_bInEpilogue atof sort bLaserMode (classified s strLine) strLine
          (by simpa using hc) hm'
        rw [this] at hp
        exact absurd hp (by decide)
      obtain ⟨h1, h2, h3, h4⟩ := h hs
      rw [pastPrologue_of_epilogue atof sort bLaserMode _ strLine
        (by rw [epilogueStart_of_not sort _ strLine hm']; exact hs),
        epilogueStart_of_not sort _ strLine hm']
      exact ⟨h1, h2, h3, h4⟩
  · rw [he] at hp ⊢
    exact h hp

theorem EpilogueInv_run (strAppName : Line) (lines : List Line) :
    EpilogueInv (run atof sort bLaserMode strAppName lines) := by
  apply readLoop_induction atof sort bLaserMode EpilogueInv
  · intro s l hs hr
    exact EpilogueInv_processLine atof sort bLaserMode s l hs hr
  · intro h
    simp [initialState] at h

/-- In the epilogue every line is passed to `fprintf` and nothing else is written. -/
theorem readLoop_epilogue (hsort : IsStdSort sort) (lines : List Line) (s : MainState)
    (hepi : s.bInEpilogue = true) (h : EpilogueInv s) :
    (readLoop atof sort bLaserMode s lines).output = s.output ++ lines.map fprintf := by
  induction lines generalizing s with
  | nil => simp [readLoop]
  | cons l rest ih =>
    obtain ⟨h1, h2, h3, h4⟩ := h hepi
    have hnext := EpilogueInv_processLine atof sort bLaserMode s l h h4
    have hstep : (processLine atof sort bLaserMode s l).bInEpilogue = true ∧
        (processLine atof sort bLaserMode s l).output = s.output ++ [fprintf l] := by
      rcases processLine_cases atof sort bLaserMode s l with ⟨_, he⟩ | ⟨_, _, h5, _⟩
      · rw [he]
        by_cases hm : isEpilogueStart l = true
        · rw [pastPrologue_of_epilogue atof sort bLaserMode _ l
            (by rw [epilogueStart_of_start sort _ l hm]),
            epilogueStart_of_start sort _ l hm]
          refine ⟨rfl, ?_⟩
          simp only [flush_output, classified_vCurrentSets, classified_gcCurrent,
            classified_uiLinesOut, classified_output, h2, List.nil_append]
          rw [OptimizeAndOutputSets_no_lines sort hsort [s.gcCurrent] _ _
            (by intro e he; simp only [List.mem_singleton] at he; rw [he]; exact h3)]
        · have hm' : isEpilogueStart l = false := by simpa using hm
          rw [pastPrologue_of_epilogue atof sort bLaserMode _ l
            (by rw [epilogueStart_of_not sort _ l hm']; exact hepi),
            epilogueStart_of_not sort _ l hm']
          exact ⟨hepi, rfl⟩
      · rw [h1] at h5; exact absurd h5 (by decide)
    simp only [readLoop, h4, Bool.false_eq_true, ↓reduceIte]
    rw [ih _ hstep.1 hnext, hstep.2]
    simp

/-- From a line beginning with `M5` or `M30` that is processed outside the prologue on,
the output is: the flush of the pending sets and the open set, then one `fprintf` call per
input line, that line included, in input order. -/
theorem epilogue_lines_written (hsort : IsStdSort sort) (strAppName : Line)
    (pre : List Line) (strLine : Line) (later : List Line)
    (hpro : (run atof sort bLaserMode strAppName pre).bInPrologue = false)
    (hret : (run atof sort bLaserMode strAppName pre).returned = false)
    (hm : isEpilogueStart strLine = true) :
    (run atof sort bLaserMode strAppName (pre ++ strLine :: later)).output =
      (OptimizeAndOutputSets sort
        ((run atof sort bLaserMode strAppName pre).vCurrentSets ++
          [(run atof sort bLaserMode strAppName pre).gcCurrent])
        (run atof sort bLaserMode strAppName pre).uiLinesOut
        (run atof sort bLaserMode strAppName pre).output).2 ++
      (strLine :: later).map fprintf := by
  have hinv := EpilogueInv_run atof sort bLaserMode strAppName pre
  have hnext := EpilogueInv_processLine atof sort bLaserMode _ strLine hinv hret
  have hstep : processLine atof sort bLaserMode (run atof sort bLaserMode strAppName pre) strLine =
      pastPrologue atof sort bLaserMode
        (classified (run atof sort bLaserMode strAppName pre) strLine) strLine := by
    rcases processLine_cases atof sort bLaserMode (run atof sort bLaserMode strAppName pre) strLine
      with ⟨_, he⟩ | ⟨_, _, h5, _⟩
    · exact he
    · rw [hpro] at h5; exact absurd h5 (by decide)
  rw [run_append]
  simp only [readLoop, hret, Bool.false_eq_true, ↓reduceIte]
  rw [readLoop_epilogue atof sort bLaserMode hsort later _ ?_ hnext]
  · rw [hstep, pastPrologue_of_epilogue atof sort bLaserMode _ strLine
      (by rw [epilogueStart_of_start sort _ strLine hm]),
      epilogueStart_of_start sort _ strLine hm]
    simp
  · rw [hstep, pastPrologue_of_epilogue atof sort bLaserMode _ strLine
      (by rw [epilogueStart_of_start sort _ strLine hm]),
      epilogueStart_of_start sort _ strLine hm]

/-- C7, evaluated at an input whose epilogue holds a line with `%%`: the line is passed
to `fprintf` as the format, so it is written with one `%` dropped, not verbatim. -/
theorem percent_epilogue_line_not_verbatim :
    (run atofDecimal insertionSort false "gcodemillopt".toList percentEpilogueInput).output =
      [some (attribution "gcodemillopt".toList), some "G0 X0 Y0\n".toList, some "M5\n".toList,
       some "(100% done)\n".toList] ∧
    (run atofDecimal insertionSort false "gcodemillopt".toList percentEpilogueInput).output ≠
      some (attribution "gcodemillopt".toList) :: percentEpilogueInput.map some := by
  constructor <;> with_unfolding_all decide

end Epilogue

/-! ## Laser mode -/

section Laser

variable (atof : Line → ℚ) (sort : List (Nat × ℚ) → List (Nat × ℚ))

theorem charAt_zero_of_startsWith_G (l : Line) (h : startsWith "G".toList l = true) :
    charAt l 0 = 'G' := by
  have h' : startsWith ['G'] l = true := h
  cases l with
  | nil => simp [startsWith] at h'
  | cons c cs =>
    simp only [startsWith, Bool.and_true, beq_iff_eq] at h'
    simp [charAt, ← h']

theorem charAt_zero_laserRewrite (b : Bool) (codes : Line) :
    charAt (laserRewrite b codes) 0 = 'M' := by
  cases b <;> rfl

theorem startsWith_laserRewrite (b : Bool) (codes : Line) :
    startsWith "G0 X".toList (laserRewrite b codes) = false := by
  cases b <;> rfl

theorem xBlock_of_not_G (s : MainState) (strLine : Line) (szX : Option Nat)
    (h : charAt strLine 0 ≠ 'G') : xBlock atof s strLine szX = s := by
  unfold xBlock
  cases szX with
  | none => rfl
  | some x => simp [h]

theorem yBlock_of_not_G (s : MainState) (strLine : Line) (szY : Option Nat)
    (h : charAt strLine 0 ≠ 'G') : yBlock atof s strLine szY = s := by
  unfold yBlock
  cases szY with
  | none => rfl
  | some y => simp [h]

/-- In laser mode a `G` line with a Z field leaves the Z block as the rewritten text. -/
theorem zBlock_laser_line (s : MainState) (strLine strLineCodes : Line) (z : Nat)
    (hG : charAt strLine 0 = 'G') :
    (zBlock atof sort true s strLine strLineCodes (some z)).2 =
      laserRewrite s.bCutterEngaged strLineCodes := by
  unfold zBlock
  simp only [hG, beq_self_eq_true, ↓reduceIte]
  split_ifs <;> rfl

theorem zBlock_laser_output (s : MainState) (strLine strLineCodes : Line) (szZ : Option Nat)
    (hpro : s.bInPrologue = false) :
    (zBlock atof sort true s strLine strLineCodes szZ).1.output = s.output ∨
    (zBlock atof sort true s strLine strLineCodes szZ).1.output =
      (OptimizeAndOutputSets sort s.vCurrentSets s.uiLinesOut s.output).2 := by
  unfold zBlock
  cases szZ with
  | none => exact Or.inl rfl
  | some z =>
    dsimp only
    split_ifs <;> first | exact Or.inl rfl | exact Or.inr rfl | simp_all

/-- In laser mode, a line that begins with `G` and has a Z field, processed in the body, is
recorded in the open set as `M3 (laser on - was <line without its ending>)` and a newline
when the tool is engaged after the classification of the line, and as
`M5 (laser off - was <line without its ending>)` and a newline otherwise. The recorded
text is not the line; the builder stays in the body; and all that the step writes to the
output is the sets that were pending, when the depth changes. In Scenario C (laser mode,
the input of Scenario A) each engaged `G1 Z-0.1` is emitted as
`M3 (laser on - was G1 Z-0.1)`. -/
theorem laser_rewrite_recorded (s : MainState) (strLine : Line)
    (hpro : s.bInPrologue = false) (hepi : s.bInEpilogue = false)
    (hG : startsWith "G".toList strLine = true) (hZ : find strLine " Z".toList ≠ none) :
    (processLine atof sort true s strLine).gcCurrent.m_vLines =
      s.gcCurrent.m_vLines ++
        [if engagedAfter s.bCutterEngaged strLine = true then
           "M3 (laser on - was ".toList ++ lineCodes strLine ++ ")\n".toList
         else "M5 (laser off - was ".toList ++ lineCodes strLine ++ ")\n".toList] ∧
    (if engagedAfter s.bCutterEngaged strLine = true then
       "M3 (laser on - was ".toList ++ lineCodes strLine ++ ")\n".toList
     else "M5 (laser off - was ".toList ++ lineCodes strLine ++ ")\n".toList) ≠ strLine ∧
    (processLine atof sort true s strLine).bInPrologue = false ∧
    (processLine atof sort true s strLine).bInEpilogue = false ∧
    ((processLine atof sort true s strLine).output = s.output ∨
      (processLine atof sort true s strLine).output =
        (OptimizeAndOutputSets sort s.vCurrentSets s.uiLinesOut s.output).2) ∧
    (run atofDecimal insertionSort true "gcodemillopt".toList scenarioA).output =
      [some (attribution "gcodemillopt".toList),
       some "G0 X0 Y0\n".toList, some "M3 (laser on - was G1 Z-0.1)\n".toList,
       some "G1 X1 Y0\n".toList,
       some "G0 X5 Y5\n".toList, some "M3 (laser on - was G1 Z-0.1)\n".toList,
       some "G1 X6 Y5\n".toList, some "M5\n".toList] := by
  have hc := charAt_zero_of_startsWith_G strLine hG
  have hm : isEpilogueStart strLine = false := by
    cases he : isEpilogueStart strLine with
    | false => rfl
    | true =>
      have h2 := isEpilogueStart_charAt strLine he
      rw [hc] at h2
      exact absurd h2 (by decide)
  have hstep : processLine atof sort true s strLine =
      pastPrologue atof sort true (classified s strLine) strLine := by
    rcases processLine_cases atof sort true s strLine with ⟨_, he⟩ | ⟨_, _, h5, _⟩
    · exact he
    · rw [hpro] at h5; exact absurd h5 (by decide)
  obtain ⟨z, hz⟩ := Option.ne_none_iff_exists'.mp hZ
  have hrw : laserRewrite (engagedAfter s.bCutterEngaged strLine) (lineCodes strLine) =
      (if engagedAfter s.bCutterEngaged strLine = true then
         "M3 (laser on - was ".toList ++ lineCodes strLine ++ ")\n".toList
       else "M5 (laser off - was ".toList ++ lineCodes strLine ++ ")\n".toList) := by
    unfold laserRewrite
    cases engagedAfter s.bCutterEngaged strLine <;> rfl
  have hM := charAt_zero_laserRewrite (engagedAfter s.bCutterEngaged strLine) (lineCodes strLine)
  have hnotG : charAt (laserRewrite (engagedAfter s.bCutterEngaged strLine) (lineCodes strLine)) 0
      ≠ 'G' := by rw [hM]; decide
  have hpast : pastPrologue atof sort true (classified s strLine) strLine =
      { (zBlock atof sort true (classified s strLine) strLine (lineCodes strLine) (some z)).1 with
        gcCurrent :=
          (zBlock atof sort true (classified s strLine) strLine (lineCodes strLine)
            (some z)).1.gcCurrent.pushLine
            (laserRewrite (engagedAfter s.bCutterEngaged strLine) (lineCodes strLine)) } := by
    unfold pastPrologue
    rw [epilogueStart_of_not sort _ strLine hm]
    simp only [classified_bInEpilogue, hepi, hz, Bool.false_eq_true, ↓reduceIte]
    rw [zBlock_laser_line atof sort (classified s strLine) strLine (lineCodes strLine) z hc]
    simp only [classified_bCutterEngaged]
    rw [xBlock_of_not_G atof _ _ _ hnotG, yBlock_of_not_G atof _ _ _ hnotG]
    unfold setBlock
    rw [startsWith_laserRewrite]
    simp [hpro]
  rw [← hrw, hstep, hpast]
  refine ⟨?_, ?_, ?_, ?_, ?_, by with_unfolding_all decide⟩
  · simp [GCodeSet.pushLine]
  · intro heq
    rw [heq] at hM
    rw [hc] at hM
    exact absurd hM (by decide)
  · simpa using hpro
  · simpa using hepi
  · simpa using zBlock_laser_output atof sort (classified s strLine) strLine (lineCodes strLine)
      (some z) (by simpa using hpro)

theorem laser_rewrite_recorded_witness :
    (bodyState true).bInPrologue = false ∧ (bodyState true).bInEpilogue = false ∧
    startsWith "G".toList "G1 Z-0.1\n".toList = true ∧
    find "G1 Z-0.1\n".toList " Z".toList ≠ none ∧
    (processLine atofDecimal insertionSort true (bodyState true)
        "G1 Z-0.1\n".toList).gcCurrent.m_vLines =
      (bodyState true).gcCurrent.m_vLines ++
        [if engagedAfter (bodyState true).bCutterEngaged "G1 Z-0.1\n".toList = true then
           "M3 (laser on - was ".toList ++ lineCodes "G1 Z-0.1\n".toList ++ ")\n".toList
         else "M5 (laser off - was ".toList ++ lineCodes "G1 Z-0.1\n".toList ++ ")\n".toList] :=
  ⟨by with_unfolding_all decide, by with_unfolding_all decide, by decide, by decide,
    (laser_rewrite_recorded atofDecimal insertionSort (bodyState true) "G1 Z-0.1\n".toList
      (by with_unfolding_all decide) (by with_unfolding_all decide) (by decide) (by decide)).1⟩

/-- C9, evaluated at the laser-mode input `G0 X0 Y0`, `G1 Z-0.1 (50%%)`, `M5`: the text
recorded in the open set in place of the second line is
`M3 (laser on - was G1 Z-0.1 (50%%))`, as the claim says, but what is emitted at `M5` is
`M3 (laser on - was G1 Z-0.1 (50%))`: the recorded text is passed to `fprintf` as the
format. Without the line `M5` nothing is emitted for the line at all. -/
theorem laser_rewrite_emitted_altered :
    (run atofDecimal insertionSort true "gcodemillopt".toList
      ["G0 X0 Y0\n".toList, "G1 Z-0.1 (50%%)\n".toList]).gcCurrent.m_vLines =
      ["G0 X0 Y0\n".toList, "M3 (laser on - was G1 Z-0.1 (50%%))\n".toList] ∧
    (run atofDecimal insertionSort true "gcodemillopt".toList
      ["G0 X0 Y0\n".toList, "G1 Z-0.1 (50%%)\n".toList]).output =
      [some (attribution "gcodemillopt".toList)] ∧
    percentLaserInput =
      ["G0 X0 Y0\n".toList, "G1 Z-0.1 (50%%)\n".toList] ++ ["M5\n".toList] ∧
    (run atofDecimal insertionSort true "gcodemillopt".toList percentLaserInput).output =
      [some (attribution "gcodemillopt".toList), some "G0 X0 Y0\n".toList,
       some "M3 (laser on - was G1 Z-0.1 (50%))\n".toList, some "M5\n".toList] ∧
    some "M3 (laser on - was G1 Z-0.1 (50%%))\n".toList ∉
      (run atofDecimal insertionSort true "gcodemillopt".toList percentLaserInput).output := by
  refine ⟨?_, ?_, ?_, ?_, ?_⟩ <;> with_unfolding_all decide

/-- A line that does not both begin with `G` and have a Z field is handled alike in both
modes after the prologue test: the two modes differ only in what a prologue line `M3`
writes. -/
theorem pastPrologue_mode_independent (s : MainState) (strLine : Line)
    (h : charAt strLine 0 ≠ 'G' ∨ find strLine " Z".toList = none) :
    pastPrologue atof sort true s strLine = pastPrologue atof sort false s strLine := by
  have hz : ∀ (b : Bool) (s1 : MainState),
      zBlock atof sort b s1 strLine (lineCodes strLine) (find strLine " Z".toList) =
        (s1, strLine) := by
    intro b s1
    unfold zBlock
    rcases h with h | h
    · cases find strLine " Z".toList with
      | none => rfl
      | some z => simp [h]
    · rw [h]
  unfold pastPrologue
  simp only [hz]

/-- For a line that does not both begin with `G` and have a Z field, the tracked position
and the count of sets opened are the same after the line in laser mode as in mill mode. -/
theorem processLine_position_mode_independent (s : MainState) (strLine : Line)
    (h : charAt strLine 0 ≠ 'G' ∨ find strLine " Z".toList = none) :
    (processLine atof sort true s strLine).dCurrentX =
      (processLine atof sort false s strLine).dCurrentX ∧
    (processLine atof sort true s strLine).dCurrentY =
      (processLine atof sort false s strLine).dCurrentY ∧
    (processLine atof sort true s strLine).uiSets =
      (processLine atof sort false s strLine).uiSets := by
  rcases processLine_cases atof sort true s strLine with ⟨hc, he⟩ | ⟨h1, h2, h3, he⟩
  · rcases processLine_cases atof sort false s strLine with ⟨_, he'⟩ | ⟨h1', h2', h3', _⟩
    · rw [he, he', pastPrologue_mode_independent atof sort _ strLine h]
      exact ⟨rfl, rfl, rfl⟩
    · rcases hc with hc | hc | hc
      · rw [h1'] at hc; exact absurd hc (by decide)
      · rw [h2'] at hc; exact absurd hc (by decide)
      · rw [h3'] at hc; exact absurd hc (by decide)
  · rcases processLine_cases atof sort false s strLine with ⟨hc, _⟩ | ⟨_, _, _, he'⟩
    · rcases hc with hc | hc | hc
      · rw [h1] at hc; exact absurd hc (by decide)
      · rw [h2] at hc; exact absurd hc (by decide)
      · rw [h3] at hc; exact absurd hc (by decide)
    · rw [he, he']
      exact ⟨rfl, rfl, rfl⟩

/-- C10, evaluated in the body state reached after `G0 X0 Y0`, the same in both modes:
the line `G1 X1 Y2 Z-1`
moves the tracked position to `(1, 2)` in mill mode and leaves it at `(0, 0)` in laser
mode; the line `G0 X1 Y2 Z5` opens a new set in mill mode and none in laser mode. -/
theorem laser_mode_changes_position_tracking :
    ((processLine atofDecimal insertionSort false (bodyState false)
        "G1 X1 Y2 Z-1\n".toList).dCurrentX = 1 ∧
      (processLine atofDecimal insertionSort false (bodyState false)
        "G1 X1 Y2 Z-1\n".toList).dCurrentY = 2) ∧
    ((processLine atofDecimal insertionSort true (bodyState true)
        "G1 X1 Y2 Z-1\n".toList).dCurrentX = 0 ∧
      (processLine atofDecimal insertionSort true (bodyState true)
        "G1 X1 Y2 Z-1\n".toList).dCurrentY = 0) ∧
    (bodyState true = bodyState false ∧ (bodyState false).uiSets = 1 ∧
      (processLine atofDecimal insertionSort false (bodyState false)
        "G0 X1 Y2 Z5\n".toList).uiSets = 2 ∧
      (processLine atofDecimal insertionSort true (bodyState true)
        "G0 X1 Y2 Z5\n".toList).uiSets = 1) := by
  refine ⟨⟨?_, ?_⟩, ⟨?_, ?_⟩, ?_, ?_, ?_, ?_⟩ <;> with_unfolding_all decide

end Laser

/-! ## Scenario A -/

section ScenarioA

variable (atof : Line → ℚ) (sort : List (Nat × ℚ) → List (Nat × ℚ)) (bLaserMode : Bool)

/-- A line beginning with `M5` or `M30` that is processed outside the prologue: the open
set is appended to the pending sets as it is, the batch is passed to
`OptimizeAndOutputSets`, and the line is written after the flush. -/
theorem processLine_of_epilogueStart (s : MainState) (strLine : Line)
    (hpro : s.bInPrologue = false) (hm : isEpilogueStart strLine = true) :
    (processLine atof sort bLaserMode s strLine).calls =
      s.calls ++ [s.vCurrentSets ++ [s.gcCurrent]] ∧
    (processLine atof sort bLaserMode s strLine).output =
      (OptimizeAndOutputSets sort (s.vCurrentSets ++ [s.gcCurrent]) s.uiLinesOut s.output).2 ++
        [fprintf strLine] ∧
    (processLine atof sort bLaserMode s strLine).bInEpilogue = true := by
  have hstep : processLine atof sort bLaserMode s strLine =
      pastPrologue atof sort bLaserMode (classified s strLine) strLine := by
    rcases processLine_cases atof sort bLaserMode s strLine with ⟨_, he⟩ | ⟨_, _, h5, _⟩
    · exact he
    · rw [hpro] at h5; exact absurd h5 (by decide)
  rw [hstep, pastPrologue_of_epilogue atof sort bLaserMode _ strLine
    (by rw [epilogueStart_of_start sort _ strLine hm]),
    epilogueStart_of_start sort _ strLine hm]
  exact ⟨rfl, rfl, rfl⟩

/-- The two sets of Scenario A are scheduled in batch order by every conforming sort:
their distances from `(0, 0)` are `0` and `10`. -/
theorem schedule_scenarioA (hsort : IsStdSort sort) :
    schedule sort [setAtOrigin, setAtFive] = some [setAtOrigin, setAtFive] := by
  obtain ⟨opt, h, hp, hg⟩ := schedule_spec sort hsort [setAtOrigin, setAtFive]
  rw [h]
  have hlen := hp.length_eq
  match opt, hlen, hp, hg with
  | [a, b], _, hp, hg =>
    have ha : a ∈ [setAtOrigin, setAtFive] := hp.subset (by simp)
    have hA : setAtOrigin ∈ [a, b] := hp.symm.subset (by simp)
    have hmin := hg.1 setAtOrigin hA
    have ha' : a = setAtOrigin := by
      simp only [List.mem_cons, List.mem_singleton, List.not_mem_nil, or_false] at ha
      rcases ha with ha | ha
      · exact ha
      · rw [ha] at hmin
        exact absurd hmin (by with_unfolding_all decide)
    subst ha'
    have hb := (List.Perm.cons_inv hp)
    rw [List.perm_singleton.mp hb]

/-- C11 (Scenario A): in mill mode, with decimal `atof` and any conforming `std::sort`, the
input of Scenario A makes two calls of `OptimizeAndOutputSets`: an empty batch at the
first depth change and, at `M5`, the batch of exactly two sets, which start at `(0, 0)`
and at `(5, 5)` and both have recorded depth `-0.1`; the set starting at `(0, 0)` is
scheduled first, and the output is the attribution followed by the seven input lines in
their original order. -/
theorem scenario_A (hsort : IsStdSort sort) :
    (run atofDecimal sort false "gcodemillopt".toList scenarioA).calls =
      [[], [setAtOrigin, setAtFive]] ∧
    (setAtOrigin.m_dXStart = 0 ∧ setAtOrigin.m_dYStart = 0 ∧ setAtOrigin.m_dZStart = -1 / 10) ∧
    (setAtFive.m_dXStart = 5 ∧ setAtFive.m_dYStart = 5 ∧ setAtFive.m_dZStart = -1 / 10) ∧
    schedule sort [setAtOrigin, setAtFive] = some [setAtOrigin, setAtFive] ∧
    (run atofDecimal sort false "gcodemillopt".toList scenarioA).output =
      some (attribution "gcodemillopt".toList) :: scenarioA.map some := by
  have hsplit : scenarioA = scenarioABody ++ ["M5\n".toList] := rfl
  have hret : (run atofDecimal sort false "gcodemillopt".toList scenarioABody).returned = false := by
    with_unfolding_all rfl
  have hpro : (run atofDecimal sort false "gcodemillopt".toList scenarioABody).bInPrologue = false := by
    with_unfolding_all rfl
  have hsets : (run atofDecimal sort false "gcodemillopt".toList scenarioABody).vCurrentSets ++
      [(run atofDecimal sort false "gcodemillopt".toList scenarioABody).gcCurrent] =
      [setAtOrigin, setAtFive] := by
    with_unfolding_all rfl
  have hcalls : (run atofDecimal sort false "gcodemillopt".toList scenarioABody).calls = [[]] := by
    with_unfolding_all rfl
  have hout : (run atofDecimal sort false "gcodemillopt".toList scenarioABody).output =
      [some (attribution "gcodemillopt".toList)] := by
    with_unfolding_all rfl
  have hsched := schedule_scenarioA sort hsort
  obtain ⟨h1, h2, _⟩ := processLine_of_epilogueStart atofDecimal sort false
    (run atofDecimal sort false "gcodemillopt".toList scenarioABody) "M5\n".toList hpro
    (by decide)
  rw [hsplit, run_snoc atofDecimal sort false _ _ _ hret, h1, h2, hsets, hcalls, hout]
  refine ⟨rfl, by with_unfolding_all decide, by with_unfolding_all decide, hsched, ?_⟩
  simp only [OptimizeAndOutputSets, hsched]
  with_unfolding_all rfl

theorem scenario_A_witness :
    IsStdSort insertionSort ∧
    (run atofDecimal insertionSort false "gcodemillopt".toList scenarioA).calls =
      [[], [setAtOrigin, setAtFive]] ∧
    (run atofDecimal insertionSort false "gcodemillopt".toList scenarioA).output =
      some (attribution "gcodemillopt".toList) :: scenarioA.map some :=
  ⟨insertionSort_isStdSort, (scenario_A insertionSort insertionSort_isStdSort).1,
    (scenario_A insertionSort insertionSort_isStdSort).2.2.2.2⟩

end ScenarioA

/-! ## An input without moves -/

section NoMoves

variable (atof : Line → ℚ) (sort : List (Nat × ℚ) → List (Nat × ℚ)) (bLaserMode : Bool)

theorem prologueText_mill (l : Line) : prologueText false l = fprintf l := by
  simp [prologueText]

/-- While the prologue is on, lines that are not classified as `G0` or `G1` moves are
written one after the other, and nothing else of the sets or of the calls changes. -/
theorem readLoop_prologue_only (lines : List Line) (s : MainState)
    (hpro : s.bInPrologue = true) (hret : s.returned = false)
    (h : ∀ l ∈ lines, isRapidMove l = false ∧ isEngagedMove l = false) :
    (readLoop atof sort bLaserMode s lines).output =
      s.output ++ lines.map (prologueText bLaserMode) ∧
    (readLoop atof sort bLaserMode s lines).calls = s.calls ∧
    (readLoop atof sort bLaserMode s lines).uiSets = s.uiSets ∧
    (readLoop atof sort bLaserMode s lines).vCurrentSets = s.vCurrentSets ∧
    (readLoop atof sort bLaserMode s lines).gcCurrent = s.gcCurrent ∧
    (readLoop atof sort bLaserMode s lines).bInPrologue = true ∧
    (readLoop atof sort bLaserMode s lines).returned = false := by
  induction lines generalizing s with
  | nil => simp [readLoop, hpro, hret]
  | cons l rest ih =>
    obtain ⟨h1, h2⟩ := h l (List.mem_cons_self _ _)
    have hstep : processLine atof sort bLaserMode s l =
        { s with uiLine := (s.uiLine + 1) % UINT_RANGE,
                 output := s.output ++ [prologueText bLaserMode l],
                 uiLinesOut := (s.uiLinesOut + 1) % UINT_RANGE } := by
      rcases processLine_cases atof sort bLaserMode s l with ⟨hc, _⟩ | ⟨_, _, _, he⟩
      · rcases hc with hc | hc | hc
        · rw [h1] at hc; exact absurd hc (by decide)
        · rw [h2] at hc; exact absurd hc (by decide)
        · rw [hpro] at hc; exact absurd hc (by decide)
      · exact he
    have f1 : (processLine atof sort bLaserMode s l).bInPrologue = true := by rw [hstep]; exact hpro
    have f2 : (processLine atof sort bLaserMode s l).returned = false := by rw [hstep]; exact hret
    have f3 : (processLine atof sort bLaserMode s l).output =
        s.output ++ [prologueText bLaserMode l] := by rw [hstep]
    have f4 : (processLine atof sort bLaserMode s l).calls = s.calls := by rw [hstep]
    have f5 : (processLine atof sort bLaserMode s l).uiSets = s.uiSets := by rw [hstep]
    have f6 : (processLine atof sort bLaserMode s l).vCurrentSets = s.vCurrentSets := by rw [hstep]
    have f7 : (processLine atof sort bLaserMode s l).gcCurrent = s.gcCurrent := by rw [hstep]
    simp only [readLoop, hret, Bool.false_eq_true, ↓reduceIte]
    obtain ⟨i1, i2, i3, i4, i5, i6, i7⟩ := ih (processLine atof sort bLaserMode s l) f1 f2
      (fun l' hl' => h l' (List.mem_cons_of_mem _ hl'))
    exact ⟨by rw [i1, f3]; simp, i2.trans f4, i3.trans f5, i4.trans f6, i5.trans f7, i6, i7⟩

/-- In mill mode, an input without a line classified as a `G0` or `G1` move is written
line by line, each line passed to `fprintf`; no set is created and
`OptimizeAndOutputSets` is not called. -/
theorem run_without_moves (strAppName : Line) (lines : List Line)
    (h : ∀ l ∈ lines, isRapidMove l = false ∧ isEngagedMove l = false) :
    (run atof sort false strAppName lines).output =
      some (attribution strAppName) :: lines.map fprintf ∧
    (run atof sort false strAppName lines).calls = [] ∧
    (run atof sort false strAppName lines).uiSets = 0 ∧
    (run atof sort false strAppName lines).vCurrentSets = [] ∧
    (run atof sort false strAppName lines).gcCurrent.m_vLines = [] := by
  obtain ⟨i1, i2, i3, i4, i5, _, _⟩ :=
    readLoop_prologue_only atof sort false lines (initialState strAppName) rfl rfl h
  refine ⟨?_, i2, i3, i4, by rw [show (run atof sort false strAppName lines).gcCurrent = _ from i5]; rfl⟩
  rw [show (run atof sort false strAppName lines).output = _ from i1]
  have : lines.map (prologueText false) = lines.map fprintf :=
    List.map_congr_left (fun l _ => prologueText_mill l)
  rw [this]
  rfl

/-- C12, evaluated at an input without `G0` or `G1` lines that holds `%`: the comment
`(feed 50%%)` is written with one `%` dropped and the write of the tape mark `%` has
undefined behaviour, so the output is not the input verbatim. -/
theorem percent_prologue_line_not_verbatim :
    (∀ l ∈ percentPrologueInput, isRapidMove l = false ∧ isEngagedMove l = false) ∧
    (run atofDecimal insertionSort false "gcodemillopt".toList percentPrologueInput).output =
      [some (attribution "gcodemillopt".toList), some "(feed 50%)\n".toList, none] ∧
    (run atofDecimal insertionSort false "gcodemillopt".toList percentPrologueInput).output ≠
      some (attribution "gcodemillopt".toList) :: percentPrologueInput.map some := by
  refine ⟨?_, ?_, ?_⟩ <;> with_unfolding_all decide

end NoMoves

/-! ## The library sort on short ranges

On a range of at most `S_threshold` elements the `std::sort` of libstdc++ is
`__insertion_sort`, which keeps elements that compare equal in their order. -/

theorem elemAt_append_length (A : List (Nat × ℚ)) (h : Nat × ℚ) (B : List (Nat × ℚ)) :
    elemAt (A ++ h :: B) A.length = h := by
  induction A with
  | nil => rfl
  | cons a A ih => simpa [elemAt] using ih

theorem set_append_length (A : List (Nat × ℚ)) (h x : Nat × ℚ) (B : List (Nat × ℚ)) :
    (A ++ h :: B).set A.length x = A ++ x :: B := by
  induction A with
  | nil => rfl
  | cons a A ih => simp [ih]

/-- The unguarded insertion of `val` at the hole after `A`, when the first element of `A`
is not greater than `val`: the elements greater than `val` at the end of `A` move one
place to the right and `val` is stored before them. -/
theorem unguardedLinearInsert_spec (val : Nat × ℚ) (fuel : Nat) (A : List (Nat × ℚ))
    (h : Nat × ℚ) (B : List (Nat × ℚ)) (hfuel : A.length ≤ fuel) (hA : A ≠ [])
    (hsent : SortLessPair val (A.head hA) = false) :
    ∃ A1 A2, A = A1 ++ A2 ∧ (∀ e ∈ A2, SortLessPair val e = true) ∧
      (∀ e, A1.getLast? = some e → SortLessPair val e = false) ∧ A1 ≠ [] ∧
      unguardedLinearInsert val fuel (A ++ h :: B) A.length = A1 ++ val :: (A2 ++ B) := by
  induction fuel generalizing A h B with
  | zero =>
    have : A = [] := List.length_eq_zero.mp (Nat.le_zero.mp hfuel)
    exact absurd this hA
  | succ n ih =>
    obtain ⟨A', e, rfl⟩ : ∃ A' e, A = A' ++ [e] := by
      rcases List.eq_nil_or_concat A with h0 | ⟨A', e, h1⟩
      · exact absurd h0 hA
      · exact ⟨A', e, by simpa using h1⟩
    have hlen : (A' ++ [e]).length - 1 = A'.length := by simp
    have hv : A' ++ [e] ++ h :: B = A' ++ e :: h :: B := by simp
    have hprev : elemAt (A' ++ [e] ++ h :: B) ((A' ++ [e]).length - 1) = e := by
      rw [hlen, hv]
      exact elemAt_append_length A' e (h :: B)
    unfold unguardedLinearInsert
    rw [hprev]
    cases hc : SortLessPair val e with
    | true =>
      have hA' : A' ≠ [] := by
        intro h0
        subst h0
        simp only [List.nil_append, List.head_cons] at hsent
        rw [hsent] at hc
        exact absurd hc (by decide)
      have hhead : (A' ++ [e]).head hA = A'.head hA' := by
        cases A' with
        | nil => exact absurd rfl hA'
        | cons a A'' => rfl
      have hset : (A' ++ [e] ++ h :: B).set (A' ++ [e]).length e = A' ++ e :: (e :: B) := by
        rw [set_append_length]
        simp
      obtain ⟨A1, A2, h1, h2, h3, h4, h5⟩ := ih A' e (e :: B)
        (by simp only [List.length_append, List.length_singleton] at hfuel; omega) hA'
        (by rw [← hhead]; exact hsent)
      refine ⟨A1, A2 ++ [e], by rw [h1]; simp, ?_, h3, h4, ?_⟩
      · intro e' he'
        rcases List.mem_append.mp he' with he' | he'
        · exact h2 e' he'
        · simp only [List.mem_singleton] at he'
          rw [he']
          exact hc
      · simp only [↓reduceIte]
        rw [hset, hlen, h5]
        simp
    | false =>
      refine ⟨A' ++ [e], [], by simp, by simp, ?_, hA, ?_⟩
      · intro e' he'
        have hl : (A' ++ [e]).getLast? = some e := by simp
        rw [hl] at he'
        simp only [Option.some.injEq] at he'
        rw [← he']
        exact hc
      · simp only [Bool.false_eq_true, ↓reduceIte]
        rw [set_append_length]
        simp

/-- One iteration of `__insertion_sort` on a sorted range `P` followed by `val`: `val` is
stored after the elements of `P` that are not greater and before those that are. -/
theorem insertionStep_spec (P R : List (Nat × ℚ)) (val : Nat × ℚ) (hP : P ≠ [])
    (hsorted : P.Pairwise (fun a b => SortLessPair b a = false)) :
    ∃ A1 A2, P = A1 ++ A2 ∧ (∀ e ∈ A2, SortLessPair val e = true) ∧
      (∀ e ∈ A1, SortLessPair val e = false) ∧
      insertionStep (P ++ val :: R) 0 P.length = A1 ++ val :: (A2 ++ R) := by
  unfold insertionStep
  rw [elemAt_append_length]
  have h0 : elemAt (P ++ val :: R) 0 = P.head hP := by
    cases P with
    | nil => exact absurd rfl hP
    | cons a P' => rfl
  rw [h0]
  cases hc : SortLessPair val (P.head hP) with
  | true =>
    refine ⟨[], P, by simp, ?_, by simp, ?_⟩
    · intro e he
      cases P with
      | nil => exact absurd rfl hP
      | cons a P' =>
        simp only [List.head_cons] at hc
        rcases List.mem_cons.mp he with he | he
        · rw [he]; exact hc
        · have h1 := (List.pairwise_cons.mp hsorted).1 e he
          simp only [SortLessPair, decide_eq_true_eq, decide_eq_false_iff_not, not_lt] at *
          exact lt_of_lt_of_le hc h1
    · simp
  | false =>
    obtain ⟨A1, A2, h1, h2, h3, h4, h5⟩ := unguardedLinearInsert_spec val
      (P ++ val :: R).length P val R (by simp) hP hc
    refine ⟨A1, A2, h1, h2, ?_, by simpa using h5⟩
    obtain ⟨A1', l, rfl⟩ : ∃ A1' l, A1 = A1' ++ [l] := by
      rcases List.eq_nil_or_concat A1 with h0 | ⟨A1', l, h6⟩
      · exact absurd h0 h4
      · exact ⟨A1', l, by simpa using h6⟩
    have hl : SortLessPair val l = false := h3 l (by simp)
    intro e he
    rcases List.mem_append.mp he with he | he
    · rw [h1] at hsorted
      have h6 := (List.pairwise_append.mp (List.pairwise_append.mp hsorted).1).2.2 e he l
        (by simp)
      simp only [SortLessPair, decide_eq_false_iff_not, not_lt] at *
      exact le_trans h6 hl
    · simp only [List.mem_singleton] at he
      rw [he]; exact hl

/-- The loop of `__insertion_sort` from a sorted range `P` on: the result is a sorted
rearrangement, and it keeps pairs of equal distance in the order of their indices when the
indices increase along the deque. -/
theorem insertionLoop_spec (R P : List (Nat × ℚ)) (hP : P ≠ [])
    (hsorted : P.Pairwise (fun a b => SortLessPair b a = false))
    (hties : P.Pairwise (fun a b => a.2 = b.2 → a.1 < b.1))
    (hidx : ∀ a ∈ P, ∀ b ∈ R, a.1 < b.1) (hR : R.Pairwise (fun a b => a.1 < b.1)) :
    (insertionLoop 0 R.length (P ++ R) P.length).Perm (P ++ R) ∧
    (insertionLoop 0 R.length (P ++ R) P.length).Pairwise
      (fun a b => SortLessPair b a = false) ∧
    (insertionLoop 0 R.length (P ++ R) P.length).Pairwise
      (fun a b => a.2 = b.2 → a.1 < b.1) := by
  induction R generalizing P with
  | nil => simpa [insertionLoop] using ⟨hsorted, hties⟩
  | cons val R ih =>
    obtain ⟨A1, A2, h1, h2, h3, h4⟩ := insertionStep_spec P R val hP hsorted
    have hlen : P.length + 1 = (A1 ++ val :: A2).length := by rw [h1]; simp; omega
    have hv : A1 ++ val :: (A2 ++ R) = (A1 ++ val :: A2) ++ R := by simp
    simp only [List.length_cons, insertionLoop]
    rw [h4, hv, hlen]
    rw [List.pairwise_cons] at hR
    rw [h1] at hsorted hties hidx
    have hs' : (A1 ++ val :: A2).Pairwise (fun a b => SortLessPair b a = false) := by
      rw [List.pairwise_append] at hsorted ⊢
      refine ⟨hsorted.1, List.pairwise_cons.mpr ⟨fun e he => ?_, hsorted.2.1⟩, fun a ha b hb => ?_⟩
      · have := h2 e he
        simp only [SortLessPair, decide_eq_true_eq, decide_eq_false_iff_not, not_lt] at *
        exact le_of_lt this
      · rcases List.mem_cons.mp hb with hb | hb
        · rw [hb]; exact h3 a ha
        · exact hsorted.2.2 a ha b hb
    have ht' : (A1 ++ val :: A2).Pairwise (fun a b => a.2 = b.2 → a.1 < b.1) := by
      rw [List.pairwise_append] at hties ⊢
      refine ⟨hties.1, List.pairwise_cons.mpr ⟨fun e he heq => ?_, hties.2.1⟩,
        fun a ha b hb => ?_⟩
      · have := h2 e he
        simp only [SortLessPair, decide_eq_true_eq] at this
        rw [heq] at this
        exact absurd this (lt_irrefl _)
      · rcases List.mem_cons.mp hb with hb | hb
        · rw [hb]
          intro _
          exact hidx a (by simp [ha]) val (by simp)
        · exact hties.2.2 a ha b hb
    have hi' : ∀ a ∈ A1 ++ val :: A2, ∀ b ∈ R, a.1 < b.1 := by
      intro a ha b hb
      rcases List.mem_append.mp ha with ha | ha
      · exact hidx a (by simp [ha]) b (by simp [hb])
      · rcases List.mem_cons.mp ha with ha | ha
        · rw [ha]; exact hR.1 b hb
        · exact hidx a (by simp [ha]) b (by simp [hb])
    obtain ⟨i1, i2, i3⟩ := ih (A1 ++ val :: A2) (by simp) hs' ht' hi' hR.2
    refine ⟨i1.trans ?_, i2, i3⟩
    rw [h1]
    simp only [List.append_assoc, List.cons_append]
    exact List.Perm.append_left A1 List.perm_middle.symm

/-- On a deque of at most `S_threshold` pairs whose indices increase, the `std::sort` of
libstdc++ returns a sorted rearrangement that keeps pairs of equal distance in the order of
their indices. -/
theorem stdSort_short (v : List (Nat × ℚ)) (hlen : v.length ≤ S_threshold)
    (hv : v.Pairwise (fun a b => a.1 < b.1)) :
    (stdSort v).Perm v ∧ (stdSort v).Pairwise (fun a b => SortLessPair b a = false) ∧
    (stdSort v).Pairwise (fun a b => a.2 = b.2 → a.1 < b.1) := by
  cases v with
  | nil => simp [stdSort]
  | cons p R =>
    have hn : ¬ S_threshold < (p :: R).length - 0 := by simp only [Nat.sub_zero]; omega
    have hintro : ∀ d, introsortLoop d (p :: R) 0 (p :: R).length = p :: R := by
      intro d
      cases d with
      | zero => simp only [introsortLoop, hn, ↓reduceIte]
      | succ d => simp only [introsortLoop, hn, ↓reduceIte]
    have hstd : stdSort (p :: R) = insertionLoop 0 R.length ([p] ++ R) [p].length := by
      unfold stdSort
      rw [hintro]
      unfold finalInsertionSort
      rw [if_neg hn]
      unfold stdInsertionSort
      simp
    rw [hstd]
    rw [List.pairwise_cons] at hv
    exact insertionLoop_spec R [p] (by simp) (by simp) (by simp)
      (fun a ha b hb => by simp only [List.mem_singleton] at ha; rw [ha]; exact hv.1 b hb) hv.2

/-! ## Sets at equal distance -/

section Ties

theorem insertPair_keeps (p : Nat × ℚ) (l : List (Nat × ℚ)) (hp : ∀ q ∈ l, p.1 < q.1)
    (hl : l.Pairwise (fun a b => a.2 = b.2 → a.1 < b.1)) :
    (insertPair p l).Pairwise (fun a b => a.2 = b.2 → a.1 < b.1) := by
  induction l with
  | nil => simp [insertPair]
  | cons q rest ih =>
    rw [List.pairwise_cons] at hl
    unfold insertPair
    split
    · rename_i hqp
      rw [List.pairwise_cons]
      refine ⟨?_, ih (fun b hb => hp b (List.mem_cons_of_mem _ hb)) hl.2⟩
      intro b hb heq
      rcases (List.mem_cons.mp ((insertPair_perm p rest).subset hb)) with hbp | hbr
      · subst hbp
        simp only [SortLessPair, decide_eq_true_eq] at hqp
        rw [heq] at hqp
        exact absurd hqp (lt_irrefl _)
      · exact hl.1 b hbr heq
    · rw [List.pairwise_cons]
      exact ⟨fun b hb _ => hp b hb, List.pairwise_cons.mpr hl⟩

theorem insertionSort_keeps (l : List (Nat × ℚ)) (hl : l.Pairwise (fun a b => a.1 < b.1)) :
    (insertionSort l).Pairwise (fun a b => a.2 = b.2 → a.1 < b.1) := by
  induction l with
  | nil => simp [insertionSort]
  | cons p rest ih =>
    rw [List.pairwise_cons] at hl
    unfold insertionSort
    apply insertPair_keeps p _ _ (ih hl.2)
    intro q hq
    exact hl.1 q ((insertionSort_isStdSort rest).1.subset hq)

theorem vDistanceFrom_index_lt (x y : ℚ) (l : List GCodeSet) (k : Nat) :
    (∀ p ∈ vDistanceFrom k x y l, k ≤ p.1) ∧
    (vDistanceFrom k x y l).Pairwise (fun a b => a.1 < b.1) := by
  induction l generalizing k with
  | nil => simp [vDistanceFrom]
  | cons a rest ih =>
    obtain ⟨h1, h2⟩ := ih (k + 1)
    constructor
    · intro p hp
      simp only [vDistanceFrom, List.mem_cons] at hp
      rcases hp with hp | hp
      · rw [hp]
      · exact Nat.le_of_succ_le (h1 p hp)
    · simp only [vDistanceFrom, List.pairwise_cons]
      exact ⟨fun b hb => h1 b hb, h2⟩

theorem insertionSort_keepsTieOrder : KeepsTieOrder insertionSort := by
  intro x y vSets
  exact insertionSort_keeps _ (vDistanceFrom_index_lt x y vSets 0).2

theorem vDistanceFrom_get (x y : ℚ) (l : List GCodeSet) (k j : Nat) (e : GCodeSet)
    (h : l.get? j = some e) : (k + j, startDistance e x y) ∈ vDistanceFrom k x y l := by
  induction l generalizing k j with
  | nil => simp at h
  | cons a rest ih =>
    cases j with
    | zero =>
      simp only [List.get?_cons_zero, Option.some.injEq] at h
      simp [vDistanceFrom, h]
    | succ j' =>
      simp only [List.get?_cons_succ] at h
      have := ih (k + 1) j' h
      simp only [vDistanceFrom, List.mem_cons]
      right
      rwa [show k + (j' + 1) = k + 1 + j' by omega]

set_option maxRecDepth 100000 in
/-- C14 (the claim as stated fails): with the `std::sort` of libstdc++, on the mill-mode
input `tieInput` the batch passed at `M5` holds seventeen sets whose starts are all at
Manhattan distance `16` from `(0, 0)`, the running position of the first iteration, and
the distance computed for each is `16` too. The set scheduled first is the ninth of the
batch, the one starting at `(8, 8)`, not the first: its lines are the first written. A
batch of two sets at equal distance is scheduled in batch order by the same sort. -/
theorem tie_not_first_encountered :
    (run atofDecimal stdSort false "gcodemillopt".toList tieInput).calls.map
        (fun batch => batch.map (fun e => (e.m_dXStart, e.m_dYStart))) =
      [[], [(0, 16), (1, 15), (2, 14), (3, 13), (4, 12), (5, 11), (6, 10), (7, 9), (8, 8),
            (9, 7), (10, 6), (11, 5), (12, 4), (13, 3), (14, 2), (15, 1), (16, 0)]] ∧
    (∀ batch ∈ (run atofDecimal stdSort false "gcodemillopt".toList tieInput).calls,
      ∀ e ∈ batch, manhattan e 0 0 = 16 ∧ startDistance e 0 0 = 16) ∧
    (run atofDecimal stdSort false "gcodemillopt".toList tieInput).output.take 5 =
      [some (attribution "gcodemillopt".toList),
       some "G0 X8 Y8\n".toList, some "G1 Z-1\n".toList,
       some "G0 X7 Y9\n".toList, some "G1 Z-1\n".toList] ∧
    schedule stdSort [tieFirst, tieSecond] = some [tieFirst, tieSecond] := by
  refine ⟨?_, ?_, ?_, ?_⟩ <;> with_unfolding_all decide

/-- When the call of `std::sort` at an iteration returns a sorted rearrangement of
`vDistance` in which pairs of equal distance are in batch order, the set chosen has the
least computed distance, and every set before it in the batch has a strictly greater
one. -/
theorem selectNearest_first_of_ties (sort : List (Nat × ℚ) → List (Nat × ℚ))
    (vSets : List GCodeSet) (x y : ℚ) (hne : vSets ≠ [])
    (hperm : (sort (vDistanceFrom 0 x y vSets)).Perm (vDistanceFrom 0 x y vSets))
    (hsorted : (sort (vDistanceFrom 0 x y vSets)).Pairwise
      (fun a b => SortLessPair b a = false))
    (hkeep : (sort (vDistanceFrom 0 x y vSets)).Pairwise (fun a b => a.2 = b.2 → a.1 < b.1)) :
    ∃ i chosen, vSets.get? i = some chosen ∧
      selectNearest sort vSets x y = some (chosen, vSets.eraseIdx i) ∧
      (∀ s ∈ vSets, startDistance chosen x y ≤ startDistance s x y) ∧
      (∀ j e, j < i → vSets.get? j = some e →
        startDistance chosen x y < startDistance e x y) := by
  cases hs : sort (vDistanceFrom 0 x y vSets) with
  | nil =>
    rw [hs] at hperm
    have := hperm.symm.eq_nil
    cases vSets with
    | nil => exact absurd rfl hne
    | cons a rest => simp [vDistanceFrom] at this
  | cons front tail =>
    rw [hs] at hperm hsorted hkeep
    have hfront : front ∈ vDistanceFrom 0 x y vSets := hperm.subset (List.mem_cons_self _ _)
    obtain ⟨i, e, hi, he⟩ := mem_vDistanceFrom x y vSets 0 front hfront
    have hidx : front.1 = i := by rw [he]; simp
    have hfd : front.2 = startDistance e x y := by rw [he]
    have hle : ∀ (j : Nat) (e' : GCodeSet), vSets.get? j = some e' → j ≠ i →
        startDistance e x y ≤ startDistance e' x y ∧
        (startDistance e x y = startDistance e' x y → i < j) := by
      intro j e' hj hne'
      have hmem : (0 + j, startDistance e' x y) ∈ front :: tail :=
        hperm.symm.subset (vDistanceFrom_get x y vSets 0 j e' hj)
      rcases List.mem_cons.mp hmem with h | h
      · have : (0 + j, startDistance e' x y).1 = front.1 := by rw [h]
        simp only [Nat.zero_add] at this
        exact absurd (this.trans hidx) hne'
      · have h1 := (List.pairwise_cons.mp hsorted).1 _ h
        have h2 := (List.pairwise_cons.mp hkeep).1 _ h
        simp only [SortLessPair, decide_eq_false_iff_not, not_lt] at h1
        rw [hfd] at h1 h2
        refine ⟨h1, fun heq => ?_⟩
        have := h2 heq
        simpa [hidx] using this
    refine ⟨i, e, hi, ?_, ?_, ?_⟩
    · unfold selectNearest
      rw [hs]
      simp only [hidx, hi]
    · intro s hs'
      obtain ⟨j, hj⟩ := List.mem_iff_get?.mp hs'
      by_cases hji : j = i
      · rw [hji, hi] at hj
        simp only [Option.some.injEq] at hj
        rw [hj]
      · exact (hle j s hj hji).1
    · intro j e' hlt hj
      obtain ⟨h1, h2⟩ := hle j e' hj (Nat.ne_of_lt hlt)
      rcases lt_or_eq_of_le h1 with h | h
      · exact h
      · exact absurd (h2 h) (Nat.lt_asymm hlt)

theorem vDistanceFrom_length (x y : ℚ) (l : List GCodeSet) (k : Nat) :
    (vDistanceFrom k x y l).length = l.length := by
  induction l generalizing k with
  | nil => rfl
  | cons a rest ih => simp [vDistanceFrom, ih]

/-- With a conforming `std::sort` that keeps pairs of equal distance in batch order, for a
batch of any size the set chosen at an iteration has the least computed distance, and
every set before it in the batch has a strictly greater one. -/
theorem tie_break_of_keepsTieOrder (sort : List (Nat × ℚ) → List (Nat × ℚ))
    (hsort : IsStdSort sort) (hties : KeepsTieOrder sort)
    (vSets : List GCodeSet) (x y : ℚ) (hne : vSets ≠ []) :
    ∃ i chosen, vSets.get? i = some chosen ∧
      selectNearest sort vSets x y = some (chosen, vSets.eraseIdx i) ∧
      (∀ s ∈ vSets, startDistance chosen x y ≤ startDistance s x y) ∧
      (∀ j e, j < i → vSets.get? j = some e →
        startDistance chosen x y < startDistance e x y) :=
  selectNearest_first_of_ties sort vSets x y hne (hsort _).1 (hsort _).2 (hties x y vSets)

/-- With the `std::sort` of libstdc++, for a batch of at most 16 sets the set chosen at an
iteration has the least computed distance, and every set before it in the batch has a
strictly greater one. -/
theorem stdSort_first_of_ties (vSets : List GCodeSet) (x y : ℚ) (hne : vSets ≠ [])
    (hlen : vSets.length ≤ S_threshold) :
    ∃ i chosen, vSets.get? i = some chosen ∧
      selectNearest stdSort vSets x y = some (chosen, vSets.eraseIdx i) ∧
      (∀ s ∈ vSets, startDistance chosen x y ≤ startDistance s x y) ∧
      (∀ j e, j < i → vSets.get? j = some e →
        startDistance chosen x y < startDistance e x y) := by
  obtain ⟨h1, h2, h3⟩ := stdSort_short (vDistanceFrom 0 x y vSets)
    (by rw [vDistanceFrom_length]; exact hlen) (vDistanceFrom_index_lt x y vSets 0).2
  exact selectNearest_first_of_ties stdSort vSets x y hne h1 h2 h3

/-- The deltas of `tieFirst` and `tieSecond` from `(0, 0)` are whole numbers. -/
theorem wholeDeltas_tie : WholeDeltas [tieFirst, tieSecond] 0 0 := by
  unfold WholeDeltas
  with_unfolding_all decide

/-- C14 (amended): with the `std::sort` of libstdc++, for a batch of at most 16 sets whose
deltas from the running position are whole numbers, the set scheduled at an iteration is a
set of minimum Manhattan distance to the running position, and every set before it in the
batch is strictly farther: among the nearest sets the first-encountered one is
scheduled. -/
theorem tie_break_first_encountered (vSets : List GCodeSet) (x y : ℚ) (hne : vSets ≠ [])
    (hlen : vSets.length ≤ 16) (hwhole : WholeDeltas vSets x y) :
    ∃ i chosen, vSets.get? i = some chosen ∧
      selectNearest stdSort vSets x y = some (chosen, vSets.eraseIdx i) ∧
      (∀ s ∈ vSets, manhattan chosen x y ≤ manhattan s x y) ∧
      (∀ j e, j < i → vSets.get? j = some e → manhattan chosen x y < manhattan e x y) := by
  obtain ⟨i, chosen, hi, hsel, hmin, hfirst⟩ := stdSort_first_of_ties vSets x y hne hlen
  have hc : chosen ∈ vSets := List.mem_iff_get?.mpr ⟨i, hi⟩
  refine ⟨i, chosen, hi, hsel, fun s hs => ?_, fun j e hj he => ?_⟩
  · rw [← startDistance_eq_manhattan_of_whole vSets x y hwhole chosen hc,
      ← startDistance_eq_manhattan_of_whole vSets x y hwhole s hs]
    exact hmin s hs
  · rw [← startDistance_eq_manhattan_of_whole vSets x y hwhole chosen hc,
      ← startDistance_eq_manhattan_of_whole vSets x y hwhole e
        (List.mem_iff_get?.mpr ⟨j, he⟩)]
    exact hfirst j e hj he

theorem tie_break_first_encountered_witness :
    [tieFirst, tieSecond] ≠ [] ∧ [tieFirst, tieSecond].length ≤ 16 ∧
    WholeDeltas [tieFirst, tieSecond] 0 0 ∧
    ∃ i chosen, [tieFirst, tieSecond].get? i = some chosen ∧
      selectNearest stdSort [tieFirst, tieSecond] 0 0 =
        some (chosen, [tieFirst, tieSecond].eraseIdx i) ∧
      (∀ s ∈ [tieFirst, tieSecond], manhattan chosen 0 0 ≤ manhattan s 0 0) ∧
      (∀ j e, j < i → [tieFirst, tieSecond].get? j = some e →
        manhattan chosen 0 0 < manhattan e 0 0) :=
  ⟨by simp, by decide, wholeDeltas_tie,
    tie_break_first_encountered [tieFirst, tieSecond] 0 0 (by simp) (by decide) wholeDeltas_tie⟩

end Ties

/-! ## Start and end position of a set -/

section Positions

variable (atof : Line → ℚ) (sort : List (Nat × ℚ) → List (Nat × ℚ)) (bLaserMode : Bool)

theorem charAt_zero_of_startsWith_G0X (l : Line) (h : startsWith "G0 X".toList l = true) :
    charAt l 0 = 'G' :=
  charAt_zero_of_isRapidMove l (isRapidMove_of_startsWith l h)

/-- A line beginning with `G0 X` has its first X field at position 2. -/
theorem find_X_of_startsWith_G0X (l : Line) (h : startsWith "G0 X".toList l = true) :
    find l " X".toList = some 2 := by
  have h' : startsWith ['G', '0', ' ', 'X'] l = true := h
  rcases l with _ | ⟨c0, _ | ⟨c1, _ | ⟨c2, _ | ⟨c3, rest⟩⟩⟩⟩ <;>
    simp only [startsWith, Bool.and_eq_true, beq_iff_eq, Bool.false_eq_true,
      and_false] at h'
  obtain ⟨h0, h1, h2, h3, _⟩ := h'
  subst h0 h1 h2 h3
  with_unfolding_all rfl

/-- The Z block of a `G0` line that is not rewritten changes nothing: the tool is
disengaged after the classification of the line. -/
theorem zBlock_of_rapid (s : MainState) (strLine : Line) (szZ : Option Nat)
    (he : s.bCutterEngaged = false) (h : bLaserMode = false ∨ szZ = none) :
    zBlock atof sort bLaserMode s strLine (lineCodes strLine) szZ = (s, strLine) := by
  unfold zBlock
  rcases h with h | h
  · subst h
    cases szZ with
    | none => rfl
    | some z => simp [he]
  · rw [h]

theorem engagedAfter_of_isRapidMove (b : Bool) (l : Line) (h : isRapidMove l = true) :
    engagedAfter b l = false := by
  simp [engagedAfter, h]

/-- C17: when a line beginning with `G0 X` that has a Y field closes the open set (the
set has a line, the builder is not in the epilogue, and the line is not rewritten by laser
mode), the set is appended to the pending sets with end position `(x, y)` equal to the
tracked `(dCurrentX, dCurrentY)` as it was before the line was processed. -/
theorem end_position_at_rapid_move (s : MainState) (strLine : Line) (y : Nat)
    (hepi : s.bInEpilogue = false) (hG : startsWith "G0 X".toList strLine = true)
    (hY : find strLine " Y".toList = some y)
    (hZ : bLaserMode = false ∨ find strLine " Z".toList = none)
    (hopen : s.gcCurrent.m_vLines ≠ []) :
    ∃ closed, (processLine atof sort bLaserMode s strLine).vCurrentSets =
        s.vCurrentSets ++ [closed] ∧
      closed.m_vLines = s.gcCurrent.m_vLines ∧
      closed.m_dXStart = s.gcCurrent.m_dXStart ∧ closed.m_dYStart = s.gcCurrent.m_dYStart ∧
      closed.m_dXEnd = s.dCurrentX ∧ closed.m_dYEnd = s.dCurrentY ∧
      (processLine atof sort bLaserMode s strLine).returned = s.returned := by
  have hrapid := isRapidMove_of_startsWith strLine hG
  have hc := charAt_zero_of_startsWith_G0X strLine hG
  have hnm := isEpilogueStart_of_isRapidMove strLine hrapid
  have hG' : startsWith ['G', '0', ' ', 'X'] strLine = true := hG
  have hp : processLine atof sort bLaserMode s strLine =
      pastPrologue atof sort bLaserMode (classified s strLine) strLine := by
    rcases processLine_cases atof sort bLaserMode s strLine with ⟨_, he⟩ | ⟨h1, _⟩
    · exact he
    · rw [hrapid] at h1; exact absurd h1 (by decide)
  have hx := find_X_of_startsWith_G0X strLine hG
  refine ⟨s.gcCurrent.SetEnd s.dCurrentX s.dCurrentY s.dLastZ, ?_, rfl, rfl, rfl, rfl, rfl, ?_⟩
  · rw [hp]
    unfold pastPrologue
    rw [epilogueStart_of_not sort _ strLine hnm]
    simp only [classified_bInEpilogue, hepi, Bool.false_eq_true, ↓reduceIte]
    rw [zBlock_of_rapid atof sort bLaserMode (classified s strLine) strLine _
      (by simp [engagedAfter_of_isRapidMove _ _ hrapid]) hZ]
    simp only [hx, hY]
    simp [xBlock, yBlock, setBlock, hG', hc, GCodeSet.SetEnd, hopen]
  · rw [hp]
    unfold pastPrologue
    rw [epilogueStart_of_not sort _ strLine hnm]
    simp only [classified_bInEpilogue, hepi, Bool.false_eq_true, ↓reduceIte]
    rw [zBlock_of_rapid atof sort bLaserMode (classified s strLine) strLine _
      (by simp [engagedAfter_of_isRapidMove _ _ hrapid]) hZ]
    simp only [hx, hY]
    simp [xBlock, yBlock, setBlock, hG', hc]

theorem end_position_at_rapid_move_witness :
    (run atofDecimal insertionSort false "gcodemillopt".toList
      (scenarioABody.take 3)).bInEpilogue = false ∧
    startsWith "G0 X".toList "G0 X5 Y5\n".toList = true ∧
    find "G0 X5 Y5\n".toList " Y".toList = some 5 ∧
    (run atofDecimal insertionSort false "gcodemillopt".toList
      (scenarioABody.take 3)).gcCurrent.m_vLines ≠ [] ∧
    (run atofDecimal insertionSort false "gcodemillopt".toList
      (scenarioABody.take 3)).dCurrentX = 1 ∧
    (run atofDecimal insertionSort false "gcodemillopt".toList
      (scenarioABody.take 3)).dCurrentY = 0 ∧
    ∃ closed, (processLine atofDecimal insertionSort false
        (run atofDecimal insertionSort false "gcodemillopt".toList (scenarioABody.take 3))
        "G0 X5 Y5\n".toList).vCurrentSets =
        (run atofDecimal insertionSort false "gcodemillopt".toList
          (scenarioABody.take 3)).vCurrentSets ++ [closed] ∧
      closed.m_vLines = (run atofDecimal insertionSort false "gcodemillopt".toList
          (scenarioABody.take 3)).gcCurrent.m_vLines ∧
      closed.m_dXStart = (run atofDecimal insertionSort false "gcodemillopt".toList
          (scenarioABody.take 3)).gcCurrent.m_dXStart ∧
      closed.m_dYStart = (run atofDecimal insertionSort false "gcodemillopt".toList
          (scenarioABody.take 3)).gcCurrent.m_dYStart ∧
      closed.m_dXEnd = (run atofDecimal insertionSort false "gcodemillopt".toList
          (scenarioABody.take 3)).dCurrentX ∧
      closed.m_dYEnd = (run atofDecimal insertionSort false "gcodemillopt".toList
          (scenarioABody.take 3)).dCurrentY ∧
      (processLine atofDecimal insertionSort false
        (run atofDecimal insertionSort false "gcodemillopt".toList (scenarioABody.take 3))
        "G0 X5 Y5\n".toList).returned =
        (run atofDecimal insertionSort false "gcodemillopt".toList
          (scenarioABody.take 3)).returned :=
  ⟨by with_unfolding_all decide, by decide, by decide, by with_unfolding_all decide,
    by with_unfolding_all decide, by with_unfolding_all decide,
    end_position_at_rapid_move atofDecimal insertionSort false
      (run atofDecimal insertionSort false "gcodemillopt".toList (scenarioABody.take 3))
      "G0 X5 Y5\n".toList 5 (by with_unfolding_all decide) (by decide) (by decide)
      (Or.inl rfl) (by with_unfolding_all decide)⟩

end Positions

/-! ## The sets that reach a batch -/

section Sets

variable (atof : Line → ℚ) (sort : List (Nat × ℚ) → List (Nat × ℚ)) (bLaserMode : Bool)

theorem StartOK_congr (e e' : GCodeSet) (h : StartOK atof e) (h1 : e'.m_vLines = e.m_vLines)
    (h2 : e'.m_dXStart = e.m_dXStart) (h3 : e'.m_dYStart = e.m_dYStart) : StartOK atof e' := by
  obtain ⟨l, rest, y, a1, a2, a3, a4, a5, a6⟩ := h
  exact ⟨l, rest, y, h1.trans a1, a2, a3, a4, h2.trans a5, h3.trans a6⟩

theorem StartOK_pushLine (e : GCodeSet) (strLine : Line) (h : StartOK atof e) :
    StartOK atof (e.pushLine strLine) := by
  obtain ⟨l, rest, y, a1, a2, a3, a4, a5, a6⟩ := h
  exact ⟨l, rest ++ [strLine], y, by simp [GCodeSet.pushLine, a1], a2, a3, a4, a5, a6⟩

/-- The line that leaves the Z block is the line itself or the laser text. -/
theorem zBlock_snd (s : MainState) (strLine strLineCodes : Line) (szZ : Option Nat) :
    (zBlock atof sort bLaserMode s strLine strLineCodes szZ).2 = strLine ∨
    ∃ b, (zBlock atof sort bLaserMode s strLine strLineCodes szZ).2 =
      laserRewrite b strLineCodes := by
  unfold zBlock
  cases szZ with
  | none => exact Or.inl rfl
  | some z =>
    dsimp only
    split_ifs <;> first | exact Or.inl rfl | exact Or.inr ⟨_, rfl⟩

theorem zBlock_snd_of_startsWith (s : MainState) (strLine strLineCodes : Line)
    (szZ : Option Nat)
    (h : startsWith "G0 X".toList
      (zBlock atof sort bLaserMode s strLine strLineCodes szZ).2 = true) :
    (zBlock atof sort bLaserMode s strLine strLineCodes szZ).2 = strLine := by
  rcases zBlock_snd atof sort bLaserMode s strLine strLineCodes szZ with h1 | ⟨b, h1⟩
  · exact h1
  · rw [h1, startsWith_laserRewrite] at h
    exact absurd h (by decide)

theorem SetsOK_zBlock (s : MainState) (strLine strLineCodes : Line) (szZ : Option Nat)
    (h : SetsOK atof s) :
    SetsOK atof (zBlock atof sort bLaserMode s strLine strLineCodes szZ).1 := by
  obtain ⟨h1, h2, h3, h4⟩ := h
  have hcalls : ∀ batch ∈ (zBlock atof sort bLaserMode s strLine strLineCodes szZ).1.calls,
      GoodBatch atof batch := by
    unfold zBlock
    cases szZ with
    | none => exact h1
    | some z =>
      dsimp only
      split_ifs <;>
        first
        | exact h1
        | (intro batch hb
           simp only [flush_calls, List.mem_append, List.mem_singleton] at hb
           rcases hb with hb | hb
           · exact h1 batch hb
           · rw [hb]; exact Or.inl h2)
  have hsets : ∀ e ∈ (zBlock atof sort bLaserMode s strLine strLineCodes szZ).1.vCurrentSets,
      StartOK atof e := by
    unfold zBlock
    cases szZ with
    | none => exact h2
    | some z =>
      dsimp only
      split_ifs <;> first | exact h2 | (intro e he; simp at he)
  refine ⟨hcalls, hsets, ?_, by simpa using h4⟩
  intro hne
  rw [zBlock_gcCurrent_m_vLines] at hne
  exact StartOK_congr atof _ _ (h3 hne) (by simp) (by simp) (by simp)

theorem SetsOK_xBlock (s : MainState) (strLine : Line) (szX : Option Nat)
    (h : SetsOK atof s) : SetsOK atof (xBlock atof s strLine szX) := by
  unfold SetsOK at h ⊢
  simpa using h

theorem SetsOK_yBlock (s : MainState) (strLine : Line) (szY : Option Nat)
    (h : SetsOK atof s) : SetsOK atof (yBlock atof s strLine szY) := by
  unfold SetsOK at h ⊢
  simpa using h

theorem SetsOK_setBlock (s : MainState) (strLine : Line) (szX szY : Option Nat)
    (h : SetsOK atof s)
    (hx : startsWith "G0 X".toList strLine = true →
      find strLine " X".toList = some 2 ∧ s.dCurrentX = atof (strLine.drop (2 + 2)))
    (hy : startsWith "G0 X".toList strLine = true → szY.isNone = false →
      ∃ y, find strLine " Y".toList = some y ∧ s.dCurrentY = atof (strLine.drop (y + 2)))
    (hbody : s.bInPrologue = false → s.gcCurrent.m_vLines ≠ []) :
    SetsOK atof (setBlock s strLine szX szY) ∧
    ((setBlock s strLine szX szY).bInPrologue = false →
      (setBlock s strLine szX szY).returned = false →
      (setBlock s strLine szX szY).gcCurrent.m_vLines ≠ []) := by
  obtain ⟨h1, h2, h3, h4⟩ := h
  unfold setBlock
  dsimp only
  split_ifs with c1 c2 c3 c4
  · exact ⟨⟨h1, h2, h3, h4⟩, fun _ hr => by simp at hr⟩
  · have hY : szY.isNone = false := by
      simp only [Bool.or_eq_true, not_or, Bool.not_eq_true] at c2
      exact c2.2
    obtain ⟨hx1, hx2⟩ := hx c1
    obtain ⟨y, hy1, hy2⟩ := hy c1 hY
    refine ⟨⟨h1, ?_, fun _ => ?_, ⟨rfl, rfl, rfl⟩⟩, fun _ _ => by simp [GCodeSet.pushLine]⟩
    · intro e hmem
      rcases List.mem_append.mp hmem with h' | h'
      · exact h2 e h'
      · simp only [List.mem_singleton] at h'
        rw [h']
        have hne : s.gcCurrent.m_vLines ≠ [] := by
          intro hc
          simp [GCodeSet.SetEnd, hc] at c3
        exact StartOK_congr atof _ _ (h3 hne) rfl rfl rfl
    · exact ⟨strLine, [], y, rfl, c1, hx1, hy1, hx2, hy2⟩
  · have hY : szY.isNone = false := by
      simp only [Bool.or_eq_true, not_or, Bool.not_eq_true] at c2
      exact c2.2
    obtain ⟨hx1, hx2⟩ := hx c1
    obtain ⟨y, hy1, hy2⟩ := hy c1 hY
    exact ⟨⟨h1, h2, fun _ => ⟨strLine, [], y, rfl, c1, hx1, hy1, hx2, hy2⟩, ⟨rfl, rfl, rfl⟩⟩,
      fun _ _ => by simp [GCodeSet.pushLine]⟩
  · exact ⟨⟨h1, h2, h3, h4⟩, fun hp => by rw [c4] at hp; exact absurd hp (by decide)⟩
  · refine ⟨⟨h1, h2, fun _ => ?_, h4⟩, fun _ _ => by simp [GCodeSet.pushLine]⟩
    exact StartOK_pushLine atof _ strLine (h3 (hbody (by simpa using c4)))

theorem xBlock_dCurrentX_of_G (s : MainState) (strLine : Line) (x : Nat)
    (h : charAt strLine 0 = 'G') :
    (xBlock atof s strLine (some x)).dCurrentX = atof (strLine.drop (x + 2)) := by
  simp [xBlock, h]

theorem yBlock_dCurrentY_of_G (s : MainState) (strLine : Line) (y : Nat)
    (h : charAt strLine 0 = 'G') :
    (yBlock atof s strLine (some y)).dCurrentY = atof (strLine.drop (y + 2)) := by
  simp [yBlock, h]

theorem SetsInv_pastPrologue (s : MainState) (strLine : Line) (h : SetsInv atof s)
    (hret : s.returned = false) (hm : isEpilogueStart strLine = true → s.bInPrologue = false) :
    SetsInv atof (pastPrologue atof sort bLaserMode s strLine) := by
  obtain ⟨⟨h1, h2, h3, h4⟩, h5, h6⟩ := h
  by_cases hstart : isEpilogueStart strLine = true
  · have hpro := hm hstart
    rw [pastPrologue_of_epilogue atof sort bLaserMode _ strLine
      (by rw [epilogueStart_of_start sort _ strLine hstart]),
      epilogueStart_of_start sort _ strLine hstart]
    refine ⟨⟨?_, by simp, fun hne => absurd rfl hne, ⟨rfl, rfl, rfl⟩⟩, fun _ => ⟨rfl, rfl⟩,
      fun _ hc => by simp at hc⟩
    intro batch hb
    simp only [flush_calls, List.mem_append, List.mem_singleton] at hb
    rcases hb with hb | hb
    · exact h1 batch hb
    · rw [hb]
      cases he : s.bInEpilogue with
      | true =>
        obtain ⟨e1, e2⟩ := h5 he
        right
        rw [e1, e2]
        rfl
      | false =>
        left
        intro e hmem
        rcases List.mem_append.mp hmem with h' | h'
        · exact h2 e h'
        · simp only [List.mem_singleton] at h'
          rw [h']
          exact h3 (h6 hpro he hret)
  · have hstart' : isEpilogueStart strLine = false := by simpa using hstart
    by_cases hepi : s.bInEpilogue = true
    · rw [pastPrologue_of_epilogue atof sort bLaserMode _ strLine
        (by rw [epilogueStart_of_not sort _ strLine hstart']; exact hepi),
        epilogueStart_of_not sort _ strLine hstart']
      exact ⟨⟨h1, h2, h3, h4⟩, h5, fun _ hc => by rw [hepi] at hc; exact absurd hc (by decide)⟩
    · have hepi' : s.bInEpilogue = false := by simpa using hepi
      have hresult := pastPrologue_not_bInEpilogue atof sort bLaserMode s strLine hepi' hstart'
      have key : SetsOK atof (pastPrologue atof sort bLaserMode s strLine) ∧
          ((pastPrologue atof sort bLaserMode s strLine).bInPrologue = false →
            (pastPrologue atof sort bLaserMode s strLine).returned = false →
            (pastPrologue atof sort bLaserMode s strLine).gcCurrent.m_vLines ≠ []) := by
        unfold pastPrologue
        rw [epilogueStart_of_not sort _ strLine hstart']
        simp only [hepi', Bool.false_eq_true, ↓reduceIte]
        apply SetsOK_setBlock
        · exact SetsOK_yBlock atof _ _ _ (SetsOK_xBlock atof _ _ _
            (SetsOK_zBlock atof sort bLaserMode s strLine _ _ ⟨h1, h2, h3, h4⟩))
        · intro hG
          have heq := zBlock_snd_of_startsWith atof sort bLaserMode s strLine _ _ hG
          rw [heq] at hG ⊢
          have hx := find_X_of_startsWith_G0X strLine hG
          refine ⟨hx, ?_⟩
          rw [yBlock_dCurrentX, hx]
          exact xBlock_dCurrentX_of_G atof _ strLine 2 (charAt_zero_of_startsWith_G0X strLine hG)
        · intro hG hY
          have heq := zBlock_snd_of_startsWith atof sort bLaserMode s strLine _ _ hG
          rw [heq] at hG ⊢
          cases hf : find strLine " Y".toList with
          | none => rw [hf] at hY; simp at hY
          | some y =>
            exact ⟨y, rfl, yBlock_dCurrentY_of_G atof _ strLine y
              (charAt_zero_of_startsWith_G0X strLine hG)⟩
        · intro hp
          simp only [yBlock_bInPrologue, xBlock_bInPrologue, zBlock_bInPrologue] at hp
          simp only [yBlock_gcCurrent, xBlock_gcCurrent, zBlock_gcCurrent_m_vLines]
          exact h6 hp hepi' hret
      exact ⟨key.1, fun hc => by rw [hresult] at hc; exact absurd hc (by decide),
        fun hp _ hr => key.2 hp hr⟩

theorem SetsInv_processLine (s : MainState) (strLine : Line) (h : SetsInv atof s)
    (hret : s.returned = false) :
    SetsInv atof (processLine atof sort bLaserMode s strLine) := by
  rcases processLine_cases atof sort bLaserMode s strLine with ⟨hc, he⟩ | ⟨_, _, h3, he⟩
  · rw [he]
    apply SetsInv_pastPrologue atof sort bLaserMode (classified s strLine) strLine h hret
    intro hm
    rcases hc with hc | hc | hc
    · rw [isEpilogueStart_of_isRapidMove strLine hc] at hm; exact absurd hm (by decide)
    · rw [isEpilogueStart_of_isEngagedMove strLine hc] at hm; exact absurd hm (by decide)
    · exact hc
  · rw [he]
    obtain ⟨h1, h5, h6⟩ := h
    exact ⟨h1, h5, fun hp => by rw [h3] at hp; exact absurd hp (by decide)⟩

theorem SetsInv_run (strAppName : Line) (lines : List Line) :
    SetsInv atof (run atof sort bLaserMode strAppName lines) := by
  apply readLoop_induction atof sort bLaserMode (SetsInv atof)
  · intro s l hs hr
    exact SetsInv_processLine atof sort bLaserMode s l hs hr
  · refine ⟨⟨by simp [initialState], by simp [initialState], fun hne => ?_, ⟨rfl, rfl, rfl⟩⟩,
      fun hc => by simp [initialState] at hc, fun hp => by simp [initialState] at hp⟩
    exact absurd rfl hne

end Sets

section SetClaims

variable (atof : Line → ℚ) (sort : List (Nat × ℚ) → List (Nat × ℚ)) (bLaserMode : Bool)

/-- Every batch passed to `OptimizeAndOutputSets` holds only sets with a line, or is the
one set left by `Reset()` that an `M5` or `M30` line passes in the epilogue. -/
theorem batch_sets_have_lines_or_reset (strAppName : Line) (lines : List Line)
    (batch : List GCodeSet)
    (hbatch : batch ∈ (run atof sort bLaserMode strAppName lines).calls) :
    (∀ e ∈ batch, e.m_vLines ≠ []) ∨ batch = [GCodeSet.Reset 0 0 0] := by
  rcases (SetsInv_run atof sort bLaserMode strAppName lines).1.1 batch hbatch with h | h
  · left
    intro e he
    obtain ⟨l, rest, _, a1, _⟩ := h e he
    rw [a1]
    exact List.cons_ne_nil _ _
  · exact Or.inr h

/-- C15, evaluated at Scenario A followed by the line `M30`: the line `M30`, processed in
the epilogue, passes to `OptimizeAndOutputSets` a batch of one set, the set left by
`Reset()`, which has no line. -/
theorem empty_set_in_batch :
    (run atofDecimal insertionSort false "gcodemillopt".toList
      (scenarioA ++ ["M30\n".toList])).calls =
      [[], [setAtOrigin, setAtFive], [GCodeSet.Reset 0 0 0]] ∧
    (GCodeSet.Reset 0 0 0).m_vLines = [] := by
  constructor <;> with_unfolding_all decide

/-- C16: in either mode and for every input, a set with at least one line that is in a
batch passed to `OptimizeAndOutputSets` has as its first line a line beginning with
`G0 X` that has a Y field, and the start `(x, y)` of the set is what `atof` reads after
the X field and after the Y field of that line. -/
theorem set_start_position (strAppName : Line) (lines : List Line) (batch : List GCodeSet)
    (hbatch : batch ∈ (run atof sort bLaserMode strAppName lines).calls)
    (e : GCodeSet) (he : e ∈ batch) (hne : e.m_vLines ≠ []) :
    ∃ l rest y, e.m_vLines = l :: rest ∧ startsWith "G0 X".toList l = true ∧
      find l " X".toList = some 2 ∧ find l " Y".toList = some y ∧
      e.m_dXStart = atof (l.drop (2 + 2)) ∧ e.m_dYStart = atof (l.drop (y + 2)) := by
  rcases (SetsInv_run atof sort bLaserMode strAppName lines).1.1 batch hbatch with h | h
  · exact h e he
  · rw [h] at he
    simp only [List.mem_singleton] at he
    rw [he] at hne
    exact absurd rfl hne

theorem set_start_position_witness :
    [setAtOrigin, setAtFive] ∈
      (run atofDecimal insertionSort false "gcodemillopt".toList scenarioA).calls ∧
    setAtFive ∈ [setAtOrigin, setAtFive] ∧ setAtFive.m_vLines ≠ [] ∧
    setAtFive.m_dXStart = 5 ∧ setAtFive.m_dYStart = 5 ∧
    ∃ l rest y, setAtFive.m_vLines = l :: rest ∧ startsWith "G0 X".toList l = true ∧
      find l " X".toList = some 2 ∧ find l " Y".toList = some y ∧
      setAtFive.m_dXStart = atofDecimal (l.drop (2 + 2)) ∧
      setAtFive.m_dYStart = atofDecimal (l.drop (y + 2)) :=
  ⟨by with_unfolding_all decide, by simp, by with_unfolding_all decide,
    by with_unfolding_all decide, by with_unfolding_all decide,
    set_start_position atofDecimal insertionSort false "gcodemillopt".toList scenarioA
      [setAtOrigin, setAtFive] (by with_unfolding_all decide) setAtFive (by simp)
      (by with_unfolding_all decide)⟩

/-- The end position of the open set is zero after every input: `SetXEnd`, `SetYEnd` and
`SetZEnd` are called only when a line beginning with `G0 X` closes the set, right before
`Reset`. -/
theorem open_set_end_is_zero (strAppName : Line) (lines : List Line) :
    (run atof sort bLaserMode strAppName lines).gcCurrent.m_dXEnd = 0 ∧
    (run atof sort bLaserMode strAppName lines).gcCurrent.m_dYEnd = 0 ∧
    (run atof sort bLaserMode strAppName lines).gcCurrent.m_dZEnd = 0 :=
  (SetsInv_run atof sort bLaserMode strAppName lines).1.2.2.2

/-- The set closed by a line beginning with `M5` or `M30` enters the batch as the last
set, with end position zero. -/
theorem set_closed_at_epilogue (strAppName : Line) (pre : List Line) (strLine : Line)
    (hpro : (run atof sort bLaserMode strAppName pre).bInPrologue = false)
    (hret : (run atof sort bLaserMode strAppName pre).returned = false)
    (hm : isEpilogueStart strLine = true) :
    (run atof sort bLaserMode strAppName (pre ++ [strLine])).calls =
      (run atof sort bLaserMode strAppName pre).calls ++
        [(run atof sort bLaserMode strAppName pre).vCurrentSets ++
          [(run atof sort bLaserMode strAppName pre).gcCurrent]] ∧
    (run atof sort bLaserMode strAppName pre).gcCurrent.m_dXEnd = 0 ∧
    (run atof sort bLaserMode strAppName pre).gcCurrent.m_dYEnd = 0 := by
  obtain ⟨h1, h2, _⟩ := open_set_end_is_zero atof sort bLaserMode strAppName pre
  rw [run_snoc atof sort bLaserMode strAppName pre strLine hret]
  exact ⟨(processLine_of_epilogueStart atof sort bLaserMode _ strLine hpro hm).1, h1, h2⟩

/-- C18, evaluated at Scenario A: when the line `M5` is processed the tracked position is
`(6, 5)` and the open set is the set starting at `(5, 5)`; it enters the final batch with
end position `(0, 0)`, the value left by `Reset`, not `(6, 5)`. -/
theorem final_set_end_not_tracked :
    (run atofDecimal insertionSort false "gcodemillopt".toList scenarioABody).dCurrentX = 6 ∧
    (run atofDecimal insertionSort false "gcodemillopt".toList scenarioABody).dCurrentY = 5 ∧
    (run atofDecimal insertionSort false "gcodemillopt".toList scenarioABody).gcCurrent =
      setAtFive ∧
    (run atofDecimal insertionSort false "gcodemillopt".toList
      (scenarioABody ++ ["M5\n".toList])).calls = [[], [setAtOrigin, setAtFive]] ∧
    setAtFive.m_dXEnd = 0 ∧ setAtFive.m_dYEnd = 0 := by
  refine ⟨?_, ?_, ?_, ?_, ?_, ?_⟩ <;> with_unfolding_all decide

end SetClaims

/-! ## What triggers a flush -/

section Triggers

variable (atof : Line → ℚ) (sort : List (Nat × ℚ) → List (Nat × ℚ)) (bLaserMode : Bool)

/-- Outside the prologue, the Z block of a line that is not an engaged line with a Z
field leaves the state as it is. -/
theorem zBlock_quiet (s : MainState) (strLine strLineCodes : Line) (szZ : Option Nat)
    (hpro : s.bInPrologue = false)
    (h : (s.bCutterEngaged && charAt strLine 0 == 'G' && szZ.isSome) = false) :
    (zBlock atof sort bLaserMode s strLine strLineCodes szZ).1 = s := by
  unfold zBlock
  cases szZ with
  | none => rfl
  | some z =>
    simp only [Option.isSome_some, Bool.and_true, Bool.and_eq_false_imp] at h
    dsimp only
    split_ifs <;> simp_all

/-- The Z block calls `OptimizeAndOutputSets` only for an engaged line with a Z field. -/
theorem zBlock_calls_quiet (s : MainState) (strLine strLineCodes : Line) (szZ : Option Nat)
    (h : (s.bCutterEngaged && charAt strLine 0 == 'G' && szZ.isSome) = false) :
    (zBlock atof sort bLaserMode s strLine strLineCodes szZ).1.calls = s.calls := by
  unfold zBlock
  cases szZ with
  | none => rfl
  | some z =>
    simp only [Option.isSome_some, Bool.and_true, Bool.and_eq_false_imp] at h
    dsimp only
    split_ifs <;> simp_all

/-- In any state, a line that does not begin with `M5` or `M30` and is not an engaged line
with a Z field makes no call of `OptimizeAndOutputSets`. -/
theorem processLine_calls_quiet (s : MainState) (strLine : Line)
    (hm : isEpilogueStart strLine = false)
    (hz : (engagedAfter s.bCutterEngaged strLine && charAt strLine 0 == 'G' &&
      (find strLine " Z".toList).isSome) = false) :
    (processLine atof sort bLaserMode s strLine).calls = s.calls := by
  rcases processLine_cases atof sort bLaserMode s strLine with ⟨_, he⟩ | ⟨_, _, _, he⟩
  · rw [he]
    unfold pastPrologue
    rw [epilogueStart_of_not sort _ strLine hm]
    dsimp only
    split_ifs
    · rfl
    · simp only [setBlock_calls, yBlock_calls, xBlock_calls]
      rw [zBlock_calls_quiet atof sort bLaserMode (classified s strLine) strLine _ _
        (by simpa using hz)]
      rfl
  · rw [he]

/-- A line that does not begin with `G0 X` leaves the prologue flag set. -/
theorem processLine_stays_in_prologue (s : MainState) (strLine : Line)
    (hinv : PrologueInv s) (hpro : s.bInPrologue = true)
    (hG : startsWith "G0 X".toList strLine = false) :
    (processLine atof sort bLaserMode s strLine).bInPrologue = true := by
  obtain ⟨hepi, _, _, _⟩ := hinv hpro
  rcases processLine_cases atof sort bLaserMode s strLine with ⟨hc, he⟩ | ⟨_, _, _, he⟩
  · rw [he]
    have hm : isEpilogueStart strLine = false := by
      rcases hc with hc | hc | hc
      · exact isEpilogueStart_of_isRapidMove strLine hc
      · exact isEpilogueStart_of_isEngagedMove strLine hc
      · rw [hpro] at hc; exact absurd hc (by decide)
    have hG2 : startsWith "G0 X".toList
        (zBlock atof sort bLaserMode (classified s strLine) strLine (lineCodes strLine)
          (find strLine " Z".toList)).2 = false := by
      rcases zBlock_snd atof sort bLaserMode (classified s strLine) strLine (lineCodes strLine)
        (find strLine " Z".toList) with h1 | ⟨b, h1⟩
      · rw [h1]; exact hG
      · rw [h1]; exact startsWith_laserRewrite b _
    unfold pastPrologue
    rw [epilogueStart_of_not sort _ strLine hm]
    simp only [classified_bInEpilogue, hepi, Bool.false_eq_true, ↓reduceIte]
    unfold setBlock
    rw [hG2]
    simp [hpro]
  · rw [he]
    exact hpro

theorem run_stays_in_prologue (strAppName : Line) (pre : List Line)
    (hpre : ∀ l ∈ pre, startsWith "G0 X".toList l = false) :
    (run atof sort bLaserMode strAppName pre).bInPrologue = true := by
  induction pre using List.reverseRecOn with
  | nil => rfl
  | append_singleton init l ih =>
    have hinit := ih (fun l' hl' => hpre l' (List.mem_append_left _ hl'))
    have hinv := PrologueInv_run atof sort bLaserMode strAppName init
    rw [run_snoc atof sort bLaserMode strAppName init l (hinv hinit).2.2.2]
    exact processLine_stays_in_prologue atof sort bLaserMode _ l hinv hinit
      (hpre l (List.mem_append_right _ (List.mem_singleton_self l)))

/-- A line beginning with `G0 X` that laser mode does not rewrite, processed outside the
epilogue, writes nothing and calls nothing; after it the builder is in the body (or has
returned) with the tool disengaged. -/
theorem processLine_rapid_quiet (s : MainState) (g : Line)
    (hepi : s.bInEpilogue = false) (hg : startsWith "G0 X".toList g = true)
    (hmode : bLaserMode = false ∨ find g " Z".toList = none) :
    (processLine atof sort bLaserMode s g).output = s.output ∧
    (processLine atof sort bLaserMode s g).calls = s.calls ∧
    (processLine atof sort bLaserMode s g).bInPrologue = false ∧
    (processLine atof sort bLaserMode s g).bInEpilogue = false ∧
    (processLine atof sort bLaserMode s g).bCutterEngaged = false := by
  have hrapid := isRapidMove_of_startsWith g hg
  have hnm := isEpilogueStart_of_isRapidMove g hrapid
  have hG' : startsWith ['G', '0', ' ', 'X'] g = true := hg
  have hp : processLine atof sort bLaserMode s g =
      pastPrologue atof sort bLaserMode (classified s g) g := by
    rcases processLine_cases atof sort bLaserMode s g with ⟨_, he⟩ | ⟨h1, _⟩
    · exact he
    · rw [hrapid] at h1; exact absurd h1 (by decide)
  rw [hp]
  unfold pastPrologue
  rw [epilogueStart_of_not sort _ g hnm]
  simp only [classified_bInEpilogue, hepi, Bool.false_eq_true, ↓reduceIte]
  rw [zBlock_of_rapid atof sort bLaserMode (classified s g) g _
    (by simp [engagedAfter_of_isRapidMove _ _ hrapid]) hmode]
  refine ⟨by simp, by simp, ?_, ?_, by simp [engagedAfter_of_isRapidMove _ _ hrapid]⟩
  · unfold setBlock
    simp only [hG', ↓reduceIte]
    split_ifs <;> rfl
  · unfold setBlock
    simp only [hG', ↓reduceIte]
    split_ifs <;> rfl

/-- In the body, a line that does not begin with `M5` or `M30` and is not an engaged line
with a Z field writes nothing and calls nothing, and the builder stays in the body. -/
theorem processLine_body_quiet (s : MainState) (strLine : Line)
    (hpro : s.bInPrologue = false) (hepi : s.bInEpilogue = false)
    (hm : isEpilogueStart strLine = false)
    (hz : (engagedAfter s.bCutterEngaged strLine && charAt strLine 0 == 'G' &&
      (find strLine " Z".toList).isSome) = false) :
    (processLine atof sort bLaserMode s strLine).output = s.output ∧
    (processLine atof sort bLaserMode s strLine).calls = s.calls ∧
    (processLine atof sort bLaserMode s strLine).bInPrologue = false ∧
    (processLine atof sort bLaserMode s strLine).bInEpilogue = false ∧
    (processLine atof sort bLaserMode s strLine).bCutterEngaged =
      engagedAfter s.bCutterEngaged strLine := by
  have hp : processLine atof sort bLaserMode s strLine =
      pastPrologue atof sort bLaserMode (classified s strLine) strLine := by
    rcases processLine_cases atof sort bLaserMode s strLine with ⟨_, he⟩ | ⟨_, _, h3, _⟩
    · exact he
    · rw [hpro] at h3; exact absurd h3 (by decide)
  have hflag1 : (processLine atof sort bLaserMode s strLine).bInPrologue = false := by
    cases hb : (processLine atof sort bLaserMode s strLine).bInPrologue with
    | false => rfl
    | true =>
      rw [hp] at hb
      have := pastPrologue_bInPrologue atof sort bLaserMode (classified s strLine) strLine hb
      rw [classified_bInPrologue, hpro] at this
      exact absurd this (by decide)
  have hflag2 : (processLine atof sort bLaserMode s strLine).bInEpilogue = false := by
    rw [hp]
    exact pastPrologue_not_bInEpilogue atof sort bLaserMode (classified s strLine) strLine hepi hm
  refine ⟨?_, ?_, hflag1, hflag2, ?_⟩ <;>
  · rw [hp]
    unfold pastPrologue
    rw [epilogueStart_of_not sort _ strLine hm]
    simp only [classified_bInEpilogue, hepi, Bool.false_eq_true, ↓reduceIte]
    simp only [setBlock_output, setBlock_calls, setBlock_bCutterEngaged, yBlock_output,
      yBlock_calls, yBlock_bCutterEngaged, xBlock_output, xBlock_calls, xBlock_bCutterEngaged]
    rw [zBlock_quiet atof sort bLaserMode (classified s strLine) strLine _ _
      (by simpa using hpro) (by simpa using hz)]
    rfl

theorem readLoop_body_quiet (rest : List Line) (s : MainState)
    (hpro : s.bInPrologue = false) (hepi : s.bInEpilogue = false)
    (hM : ∀ l ∈ rest, isEpilogueStart l = false)
    (hZ : noEngagedZ s.bCutterEngaged rest = true) :
    (readLoop atof sort bLaserMode s rest).output = s.output ∧
    (readLoop atof sort bLaserMode s rest).calls = s.calls := by
  induction rest generalizing s with
  | nil => exact ⟨rfl, rfl⟩
  | cons l rest ih =>
    simp only [readLoop]
    split_ifs with hr
    · exact ⟨rfl, rfl⟩
    · simp only [noEngagedZ, Bool.and_eq_true, Bool.not_eq_true'] at hZ
      obtain ⟨h1, h2, h3, h4, h5⟩ := processLine_body_quiet atof sort bLaserMode s l hpro hepi
        (hM l (List.mem_cons_self _ _)) hZ.1
      obtain ⟨i1, i2⟩ := ih (processLine atof sort bLaserMode s l) h3 h4
        (fun l' hl' => hM l' (List.mem_cons_of_mem _ hl')) (by rw [h5]; exact hZ.2)
      exact ⟨i1.trans h1, i2.trans h2⟩

/-- C19, evaluated at the input `G0 X0 Y0 Z5`, `T1 M6`, which has no line beginning with
`M5` or `M30` and no engaged line with a Z field, and whose first line begins with `G0 X`.
In mill mode the first line opens a set and nothing is written from it on. In laser mode
the Z block replaces the line by the laser text before the `G0 X` test is made: no set is
opened, the text is written, the prologue goes on, and the line after it is written
too. -/
theorem lines_after_first_rapid_written_in_laser_mode :
    (∀ l ∈ rapidWithZInput, isEpilogueStart l = false) ∧
    noEngagedZ false rapidWithZInput = true ∧
    startsWith "G0 X".toList "G0 X0 Y0 Z5\n".toList = true ∧
    (run atofDecimal insertionSort false "gcodemillopt".toList rapidWithZInput).output =
      [some (attribution "gcodemillopt".toList)] ∧
    (run atofDecimal insertionSort false "gcodemillopt".toList rapidWithZInput).bInPrologue =
      false ∧
    (run atofDecimal insertionSort true "gcodemillopt".toList rapidWithZInput).output =
      [some (attribution "gcodemillopt".toList),
       some "M5 (laser off - was G0 X0 Y0 Z5)\n".toList, some "T1 M6\n".toList] ∧
    (run atofDecimal insertionSort true "gcodemillopt".toList rapidWithZInput).bInPrologue =
      true := by
  refine ⟨?_, ?_, ?_, ?_, ?_, ?_, ?_⟩ <;> with_unfolding_all decide

/-- A line makes a call of `OptimizeAndOutputSets` only if it begins with `M5` or `M30` or
is an engaged line with a Z field. Let `g` be the first line of the input that begins with
`G0 X`, in mill mode, or in laser mode when `g` has no Z field. If after `g` no line begins
with `M5` or `M30` and no line is an engaged line with a Z field, then nothing is written
from `g` on and `OptimizeAndOutputSets` is not called from `g` on: at the end of the input
the output is what it was before `g`. -/
theorem no_flush_without_trigger (strAppName : Line) (pre : List Line) (g : Line)
    (rest : List Line)
    (hpre : ∀ l ∈ pre, startsWith "G0 X".toList l = false)
    (hg : startsWith "G0 X".toList g = true)
    (hmode : bLaserMode = false ∨ find g " Z".toList = none)
    (hM : ∀ l ∈ rest, isEpilogueStart l = false)
    (hZ : noEngagedZ false rest = true) :
    (∀ (s : MainState) (l : Line),
      (processLine atof sort bLaserMode s l).calls ≠ s.calls →
        isEpilogueStart l = true ∨
        (engagedAfter s.bCutterEngaged l = true ∧ charAt l 0 = 'G' ∧
          find l " Z".toList ≠ none)) ∧
    (run atof sort bLaserMode strAppName (pre ++ g :: rest)).output =
      (run atof sort bLaserMode strAppName pre).output ∧
    (run atof sort bLaserMode strAppName (pre ++ g :: rest)).calls =
      (run atof sort bLaserMode strAppName pre).calls := by
  refine ⟨fun s l hne => ?_, ?_⟩
  · by_contra hcon
    simp only [not_or, Bool.not_eq_true, not_and] at hcon
    apply hne
    apply processLine_calls_quiet atof sort bLaserMode s l hcon.1
    cases he : engagedAfter s.bCutterEngaged l with
    | false => simp
    | true =>
      by_cases hc : charAt l 0 = 'G'
      · have := hcon.2 he hc
        simp only [ne_eq, not_not] at this
        rw [this]
        simp
      · simp [hc]
  have hpro := run_stays_in_prologue atof sort bLaserMode strAppName pre hpre
  obtain ⟨hepi, _, _, hret⟩ := PrologueInv_run atof sort bLaserMode strAppName pre hpro
  obtain ⟨g1, g2, g3, g4, g5⟩ := processLine_rapid_quiet atof sort bLaserMode
    (run atof sort bLaserMode strAppName pre) g hepi hg hmode
  rw [run_append]
  simp only [readLoop, hret, Bool.false_eq_true, ↓reduceIte]
  obtain ⟨i1, i2⟩ := readLoop_body_quiet atof sort bLaserMode rest
    (processLine atof sort bLaserMode (run atof sort bLaserMode strAppName pre) g) g3 g4 hM
    (by rw [g5]; exact hZ)
  exact ⟨i1.trans g1, i2.trans g2⟩

theorem no_flush_without_trigger_witness :
    (∀ l ∈ ([] : List Line), startsWith "G0 X".toList l = false) ∧
    startsWith "G0 X".toList "G0 X0 Y0\n".toList = true ∧
    (∀ l ∈ ["G1 X1 Y0\n".toList], isEpilogueStart l = false) ∧
    noEngagedZ false ["G1 X1 Y0\n".toList] = true ∧
    (run atofDecimal insertionSort false "gcodemillopt".toList
      ["G0 X0 Y0\n".toList, "G1 X1 Y0\n".toList]).output =
      [some (attribution "gcodemillopt".toList)] ∧
    (run atofDecimal insertionSort false "gcodemillopt".toList
      ([] ++ "G0 X0 Y0\n".toList :: ["G1 X1 Y0\n".toList])).output =
      (run atofDecimal insertionSort false "gcodemillopt".toList []).output ∧
    (run atofDecimal insertionSort false "gcodemillopt".toList
      ([] ++ "G0 X0 Y0\n".toList :: ["G1 X1 Y0\n".toList])).calls =
      (run atofDecimal insertionSort false "gcodemillopt".toList []).calls :=
  ⟨by simp, by decide, by decide, by decide, by with_unfolding_all decide,
    (no_flush_without_trigger atofDecimal insertionSort false "gcodemillopt".toList []
      "G0 X0 Y0\n".toList ["G1 X1 Y0\n".toList] (by simp) (by decide) (Or.inl rfl)
      (by decide) (by decide)).2⟩

end Triggers

/-! ## Conservation of lines in mill mode -/

section Conservation

variable (atof : Line → ℚ) (sort : List (Nat × ℚ) → List (Nat × ℚ))

/-- In mill mode the Z block writes, if anything, the lines of the pending sets, which it
then clears; the line is not changed. -/
theorem zBlock_mill_conserves (hsort : IsStdSort sort) (s : MainState)
    (strLine strLineCodes : Line) (szZ : Option Nat) :
    (zBlock atof sort false s strLine strLineCodes szZ).2 = strLine ∧
    ∃ w, (zBlock atof sort false s strLine strLineCodes szZ).1.output = s.output ++ w ∧
      (w ++ (pendingLines (zBlock atof sort false s strLine strLineCodes szZ).1).map
        fprintf).Perm ((pendingLines s).map fprintf) := by
  obtain ⟨opt, _, hp, _, hout⟩ :=
    OptimizeAndOutputSets_output sort hsort s.vCurrentSets s.uiLinesOut s.output
  have hflat : (opt.flatMap (fun e => e.m_vLines)).Perm
      (s.vCurrentSets.flatMap (fun e => e.m_vLines)) := hp.flatMap_right _
  unfold zBlock
  cases szZ with
  | none => exact ⟨rfl, [], by simp, by simp⟩
  | some z =>
    simp only [Bool.false_eq_true, ↓reduceIte]
    split_ifs with c1 c2 c3
    · refine ⟨rfl, (opt.flatMap (fun e => e.m_vLines)).map fprintf, ?_, ?_⟩
      · simp only [flush_output]
        exact hout
      · simp only [pendingLines, flush_vCurrentSets, flush_gcCurrent, List.flatMap_nil,
          List.nil_append, GCodeSet.SetZStart, List.map_append]
        exact List.Perm.append_right _ (hflat.map fprintf)
    · exact ⟨rfl, [], by simp, by simp [pendingLines, GCodeSet.SetZStart]⟩
    · exact ⟨rfl, [], by simp, by simp⟩
    · exact ⟨rfl, [], by simp, by simp⟩

theorem pendingLines_xBlock (s : MainState) (strLine : Line) (szX : Option Nat) :
    pendingLines (xBlock atof s strLine szX) = pendingLines s := by
  simp [pendingLines]

theorem pendingLines_yBlock (s : MainState) (strLine : Line) (szY : Option Nat) :
    pendingLines (yBlock atof s strLine szY) = pendingLines s := by
  simp [pendingLines]

/-- The last block records the line, unless `main` returns or the prologue is on. -/
theorem pendingLines_setBlock (s : MainState) (strLine : Line) (szX szY : Option Nat)
    (hpro : s.bInPrologue = false ∨ startsWith "G0 X".toList strLine = true)
    (hret : s.returned = false)
    (hXY : startsWith "G0 X".toList strLine = true → szX.isNone = false ∧ szY.isNone = false) :
    pendingLines (setBlock s strLine szX szY) = pendingLines s ++ [strLine] ∧
    (setBlock s strLine szX szY).returned = false ∧
    (setBlock s strLine szX szY).bInPrologue = false := by
  unfold setBlock
  dsimp only
  split_ifs with c1 c2 c3 c4
  · obtain ⟨h1, h2⟩ := hXY c1
    simp [h1, h2] at c2
  · simp [pendingLines, GCodeSet.pushLine, GCodeSet.Reset, GCodeSet.SetEnd, hret]
  · have hnil : s.gcCurrent.m_vLines = [] := by
      simpa [GCodeSet.SetEnd] using c3
    simp [pendingLines, GCodeSet.pushLine, GCodeSet.Reset, hret, hnil]
  · rcases hpro with hpro | hpro
    · rw [hpro] at c4; exact absurd c4 (by decide)
    · exact absurd hpro c1
  · simp only [Bool.not_eq_true] at c4
    simp [pendingLines, GCodeSet.pushLine, hret, c4]

/-- One line in mill mode, outside the prologue: what is written, together with the
lines still held, is a rearrangement of the lines held before and the line. -/
theorem processLine_conserves (hsort : IsStdSort sort) (s : MainState) (strLine : Line)
    (hpro : s.bInPrologue = false ∨ startsWith "G0 X".toList strLine = true)
    (hnb : s.bInPrologue = true → s.bInEpilogue = false) (hret : s.returned = false)
    (hY : startsWith "G0 X".toList strLine = true → find strLine " Y".toList ≠ none) :
    (∃ w, (processLine atof sort false s strLine).output = s.output ++ w ∧
      (w ++ (pendingLines (processLine atof sort false s strLine)).map fprintf).Perm
        ((pendingLines s).map fprintf ++ [fprintf strLine])) ∧
    (processLine atof sort false s strLine).bInPrologue = false ∧
    (processLine atof sort false s strLine).returned = false ∧
    ((s.bInEpilogue = true ∨ isEpilogueStart strLine = true) →
      (processLine atof sort false s strLine).bInEpilogue = true) := by
  have hp : processLine atof sort false s strLine =
      pastPrologue atof sort false (classified s strLine) strLine := by
    rcases processLine_cases atof sort false s strLine with ⟨_, he⟩ | ⟨h1, _, h3, _⟩
    · exact he
    · rcases hpro with hpro | hpro
      · rw [hpro] at h3; exact absurd h3 (by decide)
      · rw [isRapidMove_of_startsWith strLine hpro] at h1; exact absurd h1 (by decide)
  by_cases hstart : isEpilogueStart strLine = true
  · obtain ⟨opt, _, hperm, _, hout⟩ := OptimizeAndOutputSets_output sort hsort
      (s.vCurrentSets ++ [s.gcCurrent]) s.uiLinesOut s.output
    have hflat : (opt.flatMap (fun e => e.m_vLines)).Perm (pendingLines s) := by
      have := hperm.flatMap_right (fun e : GCodeSet => e.m_vLines)
      simpa [pendingLines] using this
    rw [hp, pastPrologue_of_epilogue atof sort false _ strLine
      (by rw [epilogueStart_of_start sort _ strLine hstart]),
      epilogueStart_of_start sort _ strLine hstart]
    refine ⟨⟨(opt.flatMap (fun e => e.m_vLines)).map fprintf ++ [fprintf strLine], ?_, ?_⟩,
      rfl, by simpa using hret, fun _ => rfl⟩
    · simp only [flush_output, classified_vCurrentSets, classified_gcCurrent,
        classified_uiLinesOut, classified_output]
      rw [hout]
      simp
    · simp only [pendingLines, flush_vCurrentSets, GCodeSet.Reset, List.flatMap_nil,
        List.nil_append, List.map_nil, List.append_nil]
      exact List.Perm.append_right _ (hflat.map fprintf)
  · have hstart' : isEpilogueStart strLine = false := by simpa using hstart
    by_cases hepi : s.bInEpilogue = true
    · rw [hp, pastPrologue_of_epilogue atof sort false _ strLine
        (by rw [epilogueStart_of_not sort _ strLine hstart']; exact hepi),
        epilogueStart_of_not sort _ strLine hstart']
      have hpro' : s.bInPrologue = false := by
        cases hb : s.bInPrologue with
        | false => rfl
        | true => rw [hnb hb] at hepi; exact absurd hepi (by decide)
      refine ⟨⟨[fprintf strLine], rfl, ?_⟩, hpro', hret, fun _ => hepi⟩
      exact List.perm_append_comm
    · have hepi' : s.bInEpilogue = false := by simpa using hepi
      obtain ⟨hz2, w, hzout, hzperm⟩ := zBlock_mill_conserves atof sort hsort
        (classified s strLine) strLine (lineCodes strLine) (find strLine " Z".toList)
      have hset := pendingLines_setBlock
        (yBlock atof (xBlock atof
          (zBlock atof sort false (classified s strLine) strLine (lineCodes strLine)
            (find strLine " Z".toList)).1 strLine (find strLine " X".toList))
          strLine (find strLine " Y".toList))
        strLine (find strLine " X".toList) (find strLine " Y".toList)
        (by simpa using hpro) (by simpa using hret)
        (fun hG => ⟨by rw [find_X_of_startsWith_G0X strLine hG]; rfl, by
          cases hf : find strLine " Y".toList with
          | none => exact absurd hf (hY hG)
          | some y => rfl⟩)
      have heq : pastPrologue atof sort false (classified s strLine) strLine =
          setBlock (yBlock atof (xBlock atof
            (zBlock atof sort false (classified s strLine) strLine (lineCodes strLine)
              (find strLine " Z".toList)).1 strLine (find strLine " X".toList))
            strLine (find strLine " Y".toList))
            strLine (find strLine " X".toList) (find strLine " Y".toList) := by
        unfold pastPrologue
        rw [epilogueStart_of_not sort _ strLine hstart']
        simp only [classified_bInEpilogue, hepi', Bool.false_eq_true, ↓reduceIte, hz2]
      rw [hp, heq]
      refine ⟨⟨w, ?_, ?_⟩, hset.2.2, hset.2.1, fun h => ?_⟩
      · simp only [setBlock_output, yBlock_output, xBlock_output]
        exact hzout
      · rw [hset.1, pendingLines_yBlock, pendingLines_xBlock, List.map_append,
          ← List.append_assoc]
        exact List.Perm.append_right _ hzperm
      · rcases h with h | h
        · rw [hepi'] at h; exact absurd h (by decide)
        · rw [hstart'] at h; exact absurd h (by decide)

theorem readLoop_conserves (hsort : IsStdSort sort) (rest : List Line) (s : MainState)
    (hpro : s.bInPrologue = false) (hret : s.returned = false)
    (hY : ∀ l ∈ rest, startsWith "G0 X".toList l = true → find l " Y".toList ≠ none) :
    (∃ w, (readLoop atof sort false s rest).output = s.output ++ w ∧
      (w ++ (pendingLines (readLoop atof sort false s rest)).map fprintf).Perm
        ((pendingLines s).map fprintf ++ rest.map fprintf)) ∧
    ((s.bInEpilogue = true ∨ ∃ l ∈ rest, isEpilogueStart l = true) →
      (readLoop atof sort false s rest).bInEpilogue = true) := by
  induction rest generalizing s with
  | nil =>
    refine ⟨⟨[], by simp [readLoop], by simp [readLoop]⟩, fun h => ?_⟩
    rcases h with h | ⟨l, hl, _⟩
    · exact h
    · simp at hl
  | cons l rest ih =>
    obtain ⟨⟨w1, ho1, hp1⟩, f1, f2, f3⟩ := processLine_conserves atof sort hsort s l
      (Or.inl hpro) (fun h => by rw [hpro] at h; exact absurd h (by decide)) hret
      (hY l (List.mem_cons_self _ _))
    obtain ⟨⟨w2, ho2, hp2⟩, g⟩ := ih (processLine atof sort false s l) f1 f2
      (fun l' hl' => hY l' (List.mem_cons_of_mem _ hl'))
    simp only [readLoop, hret, Bool.false_eq_true, ↓reduceIte]
    refine ⟨⟨w1 ++ w2, by rw [ho2, ho1, List.append_assoc], ?_⟩, fun h => g ?_⟩
    · have e1 : (w1 ++ w2 ++
          (pendingLines (readLoop atof sort false (processLine atof sort false s l) rest)).map
            fprintf).Perm
          (w1 ++ ((pendingLines (processLine atof sort false s l)).map fprintf ++
            rest.map fprintf)) := by
        rw [List.append_assoc]
        exact List.Perm.append_left _ hp2
      refine e1.trans ?_
      rw [← List.append_assoc, List.map_cons]
      have e2 := List.Perm.append_right (rest.map fprintf) hp1
      refine e2.trans ?_
      simp
    · rcases h with h | ⟨l', hl', hm⟩
      · exact Or.inl (f3 (Or.inl h))
      · rcases List.mem_cons.mp hl' with h' | h'
        · subst h'
          exact Or.inl (f3 (Or.inr hm))
        · exact Or.inr ⟨l', h', hm⟩

/-- Line conservation up to `fprintf`: in mill mode, when every line beginning with `G0 X`
has a Y field and a line beginning with `M5` or `M30` follows the first line `g` that
begins with `G0 X`, what is written from `g` on is a rearrangement of one `fprintf` call
per input line from `g` to the end of the input. -/
theorem lines_conserved (hsort : IsStdSort sort) (strAppName : Line) (pre : List Line)
    (g : Line) (rest : List Line)
    (hpre : ∀ l ∈ pre, startsWith "G0 X".toList l = false)
    (hg0 : startsWith "G0 X".toList g = true)
    (hY : ∀ l ∈ g :: rest, startsWith "G0 X".toList l = true → find l " Y".toList ≠ none)
    (hM : ∃ l ∈ rest, isEpilogueStart l = true) :
    ∃ written, (run atof sort false strAppName (pre ++ g :: rest)).output =
        (run atof sort false strAppName pre).output ++ written ∧
      written.Perm ((g :: rest).map fprintf) := by
  have hpro := run_stays_in_prologue atof sort false strAppName pre hpre
  obtain ⟨hepi, hsets, hlines, hret⟩ := PrologueInv_run atof sort false strAppName pre hpro
  have hfinal := EpilogueInv_run atof sort false strAppName (pre ++ g :: rest)
  have hg : startsWith "G0 X".toList g = true := hg0
  obtain ⟨⟨w1, ho1, hp1⟩, f1, f2, _⟩ := processLine_conserves atof sort hsort
    (run atof sort false strAppName pre) g (Or.inr hg) (fun _ => hepi) hret
    (hY g (List.mem_cons_self _ _))
  obtain ⟨⟨w2, ho2, hp2⟩, hend⟩ := readLoop_conserves atof sort hsort rest
    (processLine atof sort false (run atof sort false strAppName pre) g) f1 f2
    (fun l hl => hY l (List.mem_cons_of_mem _ hl))
  rw [run_append] at hfinal ⊢
  simp only [readLoop, hret, Bool.false_eq_true, ↓reduceIte] at hfinal ⊢
  obtain ⟨_, e2, e3, _⟩ := hfinal (hend (Or.inr hM))
  have hpend0 : pendingLines (run atof sort false strAppName pre) = [] := by
    simp [pendingLines, hsets, hlines]
  have hpendF : pendingLines (readLoop atof sort false
      (processLine atof sort false (run atof sort false strAppName pre) g) rest) = [] := by
    simp [pendingLines, e2, e3]
  rw [hpendF] at hp2
  rw [hpend0] at hp1
  simp only [List.map_nil, List.append_nil, List.nil_append] at hp1 hp2
  refine ⟨w1 ++ w2, by rw [ho2, ho1, List.append_assoc], ?_⟩
  have e1 : (w1 ++ w2).Perm
      (w1 ++ ((pendingLines
        (processLine atof sort false (run atof sort false strAppName pre) g)).map fprintf ++
        rest.map fprintf)) := List.Perm.append_left _ hp2
  refine e1.trans ?_
  rw [← List.append_assoc, List.map_cons]
  exact (List.Perm.append_right (rest.map fprintf) hp1)

/-- C13, evaluated at a mill-mode input in which every line beginning with `G0 X` has a Y
field and `M5` follows: the recorded line `G1 X1 Y0 (50%%)` is emitted with one `%`
dropped, so that input line is not among the lines written. -/
theorem percent_set_line_altered :
    (∀ l ∈ percentSetInput, startsWith "G0 X".toList l = true →
      find l " Y".toList ≠ none) ∧
    (∃ l ∈ percentSetInput.drop 1, isEpilogueStart l = true) ∧
    (run atofDecimal insertionSort false "gcodemillopt".toList percentSetInput).output =
      [some (attribution "gcodemillopt".toList), some "G0 X0 Y0\n".toList,
       some "G1 X1 Y0 (50%)\n".toList, some "M5\n".toList] ∧
    some "G1 X1 Y0 (50%%)\n".toList ∉
      (run atofDecimal insertionSort false "gcodemillopt".toList percentSetInput).output := by
  refine ⟨?_, ?_, ?_, ?_⟩ <;> with_unfolding_all decide

end Conservation

/-! ## Emission of the recorded lines -/

section Emission

variable (atof : Line → ℚ) (sort : List (Nat × ℚ) → List (Nat × ℚ)) (bLaserMode : Bool)

/-- When a line beginning with `M5` or `M30` is processed outside the prologue, every line
recorded in the open set or in a pending set is written, through `fprintf`. -/
theorem recorded_line_emitted_at_epilogue (hsort : IsStdSort sort) (s : MainState)
    (strLine : Line) (hpro : s.bInPrologue = false) (hm : isEpilogueStart strLine = true)
    (t : Line) (ht : t ∈ pendingLines s) :
    fprintf t ∈ (processLine atof sort bLaserMode s strLine).output := by
  obtain ⟨_, hout, _⟩ := processLine_of_epilogueStart atof sort bLaserMode s strLine hpro hm
  obtain ⟨opt, _, hp, _, ho⟩ := OptimizeAndOutputSets_output sort hsort
    (s.vCurrentSets ++ [s.gcCurrent]) s.uiLinesOut s.output
  rw [hout, ho]
  have hmem : t ∈ opt.flatMap (fun e => e.m_vLines) := by
    simp only [pendingLines, List.mem_append, List.mem_flatMap] at ht
    simp only [List.mem_flatMap]
    rcases ht with ⟨e, he, hte⟩ | ht
    · exact ⟨e, hp.symm.subset (by simp [he]), hte⟩
    · exact ⟨s.gcCurrent, hp.symm.subset (by simp), ht⟩
  simp only [List.mem_append, List.mem_map, List.mem_singleton]
  exact Or.inl (Or.inr ⟨t, hmem, rfl⟩)

/-- In laser mode, when a line beginning with `M5` or `M30` follows a line of the body that
begins with `G` and has a Z field, the text recorded for that line is written, through
`fprintf`: as it is when the line holds no `%`. -/
theorem laser_rewrite_emitted_at_epilogue (hsort : IsStdSort sort) (s : MainState)
    (strLine epilogueLine : Line) (hpro : s.bInPrologue = false) (hepi : s.bInEpilogue = false)
    (hG : startsWith "G".toList strLine = true) (hZ : find strLine " Z".toList ≠ none)
    (hm : isEpilogueStart epilogueLine = true) :
    fprintf (laserRewrite (engagedAfter s.bCutterEngaged strLine) (lineCodes strLine)) ∈
      (processLine atof sort true (processLine atof sort true s strLine) epilogueLine).output ∧
    ('%' ∉ lineCodes strLine →
      fprintf (laserRewrite (engagedAfter s.bCutterEngaged strLine) (lineCodes strLine)) =
        some (laserRewrite (engagedAfter s.bCutterEngaged strLine) (lineCodes strLine))) := by
  obtain ⟨h1, _, h3, _, _, _⟩ := laser_rewrite_recorded atof sort s strLine hpro hepi hG hZ
  have hrw : laserRewrite (engagedAfter s.bCutterEngaged strLine) (lineCodes strLine) =
      (if engagedAfter s.bCutterEngaged strLine = true then
         "M3 (laser on - was ".toList ++ lineCodes strLine ++ ")\n".toList
       else "M5 (laser off - was ".toList ++ lineCodes strLine ++ ")\n".toList) := by
    unfold laserRewrite
    cases engagedAfter s.bCutterEngaged strLine <;> rfl
  constructor
  · apply recorded_line_emitted_at_epilogue atof sort true hsort _ epilogueLine h3 hm
    simp only [pendingLines, List.mem_append]
    right
    rw [h1, hrw]
    simp
  · intro hpct
    apply fprintf_eq_self
    rw [hrw]
    split_ifs <;> simp [hpct]

end Emission

end GCodeMillOpt
